import Mathlib

/-!
The transport core and the institution service of maplerad-go.

A shallow embedding of `lib/maplerad.go` and `lib/institution.go`.

* A Go `string` is a sequence of bytes, `GoString := List Nat`; `bytes` turns a
  literal into its UTF-8 bytes.
* A Go pointer that may be nil is an `Option`; a run-time panic is an explicit
  outcome, never an error value.
* The parts of the Go standard library the two files call (`strings`, `net/url`,
  `net/http` request construction, headers and the redirect loop of
  `(*http.Client).Do`, the well-formedness scanner of `encoding/json`) are
  embedded function by function under their Go names, as of Go 1.22.
  What depends on the world outside the process (the remote server behind
  `http.DefaultTransport`, the clock, reflection-driven JSON encoding and
  decoding of the caller's values) is a field of `Env`, and every theorem holds
  for every `Env`.
-/

set_option autoImplicit false

namespace Maplerad

/-! ## Go strings -/

/-- A Go `string`: a sequence of bytes. -/
abbrev GoString := List Nat

/-- `utf8.EncodeRune`: the UTF-8 encoding of the rune `r`; a surrogate or a
value past `utf8.MaxRune` is written as `utf8.RuneError`. -/
def EncodeRune (r : Nat) : GoString :=
  if r < 0x80 then [r]
  else if r < 0x800 then [0xC0 + r / 0x40, 0x80 + r % 0x40]
  else if 0x10FFFF < r ∨ (0xD800 ≤ r ∧ r ≤ 0xDFFF) then [0xEF, 0xBF, 0xBD]
  else if r < 0x10000 then [0xE0 + r / 0x1000, 0x80 + r / 0x40 % 0x40, 0x80 + r % 0x40]
  else [0xF0 + r / 0x40000, 0x80 + r / 0x1000 % 0x40, 0x80 + r / 0x40 % 0x40, 0x80 + r % 0x40]

/-- The bytes of a string literal, as Go stores it. -/
def bytes (s : String) : GoString := s.data.flatMap (fun c => EncodeRune c.toNat)

/-- `strings.Cut(s, sep)` for a one-byte separator: the text before the first
`sep`, the text after it, and whether `sep` was found. -/
def Cut (sep : Nat) : GoString → GoString × GoString × Bool
  | [] => ([], [], false)
  | c :: s =>
    if c = sep then ([], s, true)
    else ((c :: (Cut sep s).1), (Cut sep s).2.1, (Cut sep s).2.2)

/-- `strings.Index(s, sep)` for a one-byte separator (`none` is Go's `-1`). -/
def Index (sep : Nat) : GoString → Option Nat
  | [] => none
  | c :: s => if c = sep then some 0 else (Index sep s).map (· + 1)

/-- `strings.LastIndex(s, sep)` for a one-byte separator (`none` is Go's `-1`). -/
def LastIndex (sep : Nat) : GoString → Option Nat
  | [] => none
  | c :: s =>
    match LastIndex sep s with
    | some i => some (i + 1)
    | none => if c = sep then some 0 else none

/-- `strings.Index(s, substr)` for a non-empty `substr`. -/
def IndexStr (substr : GoString) : GoString → Option Nat
  | [] => none
  | c :: s => if substr.isPrefixOf (c :: s) then some 0 else (IndexStr substr s).map (· + 1)

/-- `strings.Split(s, sep)` for a one-byte separator: never empty. -/
def Split (sep : Nat) : GoString → List GoString
  | [] => [[]]
  | c :: s =>
    if c = sep then [] :: Split sep s
    else
      match Split sep s with
      | seg :: segs => (c :: seg) :: segs
      | [] => [[c]]

/-- `strings.ToLower` on ASCII letters (a scheme holds nothing else). -/
def ToLower (s : GoString) : GoString :=
  s.map (fun c => if 0x41 ≤ c ∧ c ≤ 0x5A then c + 0x20 else c)

/-- Go's `<` on strings: bytewise lexicographic. -/
def strLess : GoString → GoString → Bool
  | _, [] => false
  | [], _ :: _ => true
  | a :: s, b :: t => a < b || (a == b && strLess s t)

/-! ## Errors -/

deriving instance DecidableEq for Except

/-- Modelled from the spec: the package `utils` is not among the sources. Its
API error is, in the spec's words, `APIError{status, body}`: the HTTP status
and whatever the response body contained. -/
structure APIError where
  status : Int
  body : GoString
deriving DecidableEq, Repr

/-- A non-nil Go `error` value. -/
inductive Error where
  /-- An error of the standard library, by its message. -/
  | text (msg : String)
  /-- `*url.Error`: the operation and the error it wraps. -/
  | url (op : String) (err : Error)
  /-- The `*url.Error` that `(*http.Client).Do` returns: `Op`, `URL` and `Err`. -/
  | client (op url : List Nat) (err : Error)
  /-- The error `fmt.Errorf("failed to parse Location header %q: %v", loc, err)`. -/
  | location (loc : List Nat) (err : Error)
  /-- The `*httpError` of net/http whose message is that of `err` followed by
  ` (Client.Timeout exceeded while awaiting headers)`. -/
  | timeout (err : Error)
  /-- The error built by `utils.NewAPIError`. -/
  | api (e : APIError)
  /-- An error produced outside the process (transport, codec), by a tag. -/
  | external (tag : Nat)
deriving DecidableEq, Repr

/-! ## net/url -/

/-- The escaping modes of `net/url`. -/
inductive encoding where
  | encodePath
  | encodePathSegment
  | encodeHost
  | encodeZone
  | encodeUserPassword
  | encodeQueryComponent
  | encodeFragment
deriving DecidableEq, Repr

open encoding

/-- `url.Userinfo`. -/
structure Userinfo where
  username : GoString
  password : GoString
  passwordSet : Bool
deriving DecidableEq, Repr

/-- `url.URL`. -/
structure URL where
  Scheme : GoString := []
  Opaque : GoString := []
  User : Option Userinfo := none
  Host : GoString := []
  Path : GoString := []
  RawPath : GoString := []
  OmitHost : Bool := false
  ForceQuery : Bool := false
  RawQuery : GoString := []
  Fragment : GoString := []
  RawFragment : GoString := []
deriving DecidableEq, Repr

/-- ASCII letter. -/
def isAlpha (c : Nat) : Bool := (0x61 ≤ c && c ≤ 0x7A) || (0x41 ≤ c && c ≤ 0x5A)

/-- ASCII digit. -/
def isDigit (c : Nat) : Bool := 0x30 ≤ c && c ≤ 0x39

/-- `ishex` of net/url. -/
def ishex (c : Nat) : Bool :=
  (0x30 ≤ c && c ≤ 0x39) || (0x61 ≤ c && c ≤ 0x66) || (0x41 ≤ c && c ≤ 0x46)

/-- `unhex` of net/url. -/
def unhex (c : Nat) : Nat :=
  if 0x30 ≤ c ∧ c ≤ 0x39 then c - 0x30
  else if 0x61 ≤ c ∧ c ≤ 0x66 then c - 0x61 + 10
  else if 0x41 ≤ c ∧ c ≤ 0x46 then c - 0x41 + 10
  else 0

/-- `shouldEscape(c, mode)` of net/url. -/
def shouldEscape (c : Nat) (mode : encoding) : Bool :=
  if isAlpha c || isDigit c then false
  else if (mode = encodeHost ∨ mode = encodeZone) ∧ c ∈ bytes "!$&'()*+,;=:[]<>\"" then false
  else if c ∈ bytes "-_.~" then false
  else if c ∈ bytes "$&+,/:;=?@" then
    match mode with
    | encodePath => c = 0x3F
    | encodePathSegment => c = 0x2F || c = 0x3B || c = 0x2C || c = 0x3F
    | encodeUserPassword => c = 0x40 || c = 0x2F || c = 0x3F || c = 0x3A
    | encodeQueryComponent => true
    | encodeFragment => false
    | _ => true
  else if mode = encodeFragment ∧ c ∈ bytes "!()*" then false
  else true

/-- The digit `"0123456789ABCDEF"[n]`. -/
def upperhex (n : Nat) : Nat := if n % 16 < 10 then 0x30 + n % 16 else 0x41 + (n % 16 - 10)

/-- `escape(s, mode)` of net/url. -/
def escape (s : GoString) (mode : encoding) : GoString :=
  s.flatMap (fun c =>
    if c = 0x20 ∧ mode = encodeQueryComponent then [0x2B]
    else if shouldEscape c mode then [0x25, upperhex (c / 16), upperhex (c % 16)]
    else [c])

/-- `unescape(s, mode)` of net/url. Go validates the whole string first and
builds the result in a second pass; the result, and the error reported for the
leftmost offending byte, are the same. -/
def unescape (mode : encoding) : GoString → Except Error GoString
  | [] => .ok []
  | c :: rest =>
    if c = 0x25 then
      match rest with
      | h1 :: h2 :: rest2 =>
        if ishex h1 && ishex h2 then
          if mode = encodeHost ∧ unhex h1 < 8 ∧ [c, h1, h2] ≠ bytes "%25" then
            .error (.text "invalid URL escape")
          else if mode = encodeZone ∧ [c, h1, h2] ≠ bytes "%25" ∧ unhex h1 * 16 + unhex h2 ≠ 0x20
              ∧ shouldEscape (unhex h1 * 16 + unhex h2) encodeHost then
            .error (.text "invalid URL escape")
          else
            match unescape mode rest2 with
            | .ok t => .ok ((unhex h1 * 16 + unhex h2) :: t)
            | .error e => .error e
        else .error (.text "invalid URL escape")
      | _ => .error (.text "invalid URL escape")
    else if c = 0x2B then
      match unescape mode rest with
      | .ok t => .ok ((if mode = encodeQueryComponent then 0x20 else 0x2B) :: t)
      | .error e => .error e
    else if (mode = encodeHost ∨ mode = encodeZone) ∧ c < 0x80 ∧ shouldEscape c encodeHost then
      .error (.text "invalid character in host name")
    else
      match unescape mode rest with
      | .ok t => .ok (c :: t)
      | .error e => .error e

/-- `QueryEscape`. -/
def QueryEscape (s : GoString) : GoString := escape s encodeQueryComponent

/-- `QueryUnescape`. -/
def QueryUnescape (s : GoString) : Except Error GoString := unescape encodeQueryComponent s

/-- `validEncoded(s, mode)` of net/url. -/
def validEncoded (s : GoString) (mode : encoding) : Bool :=
  s.all (fun c => c ∈ bytes "!$&'()*+,;=:@" || c ∈ bytes "[]" || c = 0x25 || !shouldEscape c mode)

/-- `(*URL).setPath`. -/
def URL.setPath (u : URL) (p : GoString) : Except Error URL :=
  match unescape encodePath p with
  | .error e => .error e
  | .ok path => .ok { u with Path := path, RawPath := if p = escape path encodePath then [] else p }

/-- `(*URL).EscapedPath`. -/
def URL.EscapedPath (u : URL) : GoString :=
  let same : Bool :=
    match unescape encodePath u.RawPath with
    | .ok p => p = u.Path
    | .error _ => false
  if u.RawPath ≠ [] ∧ validEncoded u.RawPath encodePath ∧ same then u.RawPath
  else if u.Path = bytes "*" then bytes "*"
  else escape u.Path encodePath

/-- `(*URL).setFragment`. -/
def URL.setFragment (u : URL) (f : GoString) : Except Error URL :=
  match unescape encodeFragment f with
  | .error e => .error e
  | .ok frag =>
    .ok { u with Fragment := frag, RawFragment := if f = escape frag encodeFragment then [] else f }

/-- `(*URL).EscapedFragment`. -/
def URL.EscapedFragment (u : URL) : GoString :=
  let same : Bool :=
    match unescape encodeFragment u.RawFragment with
    | .ok f => f = u.Fragment
    | .error _ => false
  if u.RawFragment ≠ [] ∧ validEncoded u.RawFragment encodeFragment ∧ same then u.RawFragment
  else escape u.Fragment encodeFragment

/-- `stringContainsCTLByte`. -/
def stringContainsCTLByte (s : GoString) : Bool := s.any (fun b => b < 0x20 || b = 0x7F)

/-- The loop of `getScheme`; `seen` is `rawURL[:i]`. -/
def getSchemeFrom (rawURL : GoString) : GoString → GoString → Except Error (GoString × GoString)
  | _, [] => .ok ([], rawURL)
  | seen, c :: rest =>
    if isAlpha c then getSchemeFrom rawURL (seen ++ [c]) rest
    else if isDigit c || c = 0x2B || c = 0x2D || c = 0x2E then
      if seen = [] then .ok ([], rawURL) else getSchemeFrom rawURL (seen ++ [c]) rest
    else if c = 0x3A then
      if seen = [] then .error (.text "missing protocol scheme") else .ok (seen, rest)
    else .ok ([], rawURL)

/-- `getScheme(rawURL)`: the scheme and what follows its colon. -/
def getScheme (rawURL : GoString) : Except Error (GoString × GoString) :=
  getSchemeFrom rawURL [] rawURL

/-- `validOptionalPort`. -/
def validOptionalPort (port : GoString) : Bool :=
  match port with
  | [] => true
  | c :: ds => c = 0x3A && ds.all isDigit

/-- `validUserinfo`. -/
def validUserinfo (s : GoString) : Bool :=
  s.all (fun r => isAlpha r || isDigit r || r ∈ bytes "-._:~!$&'()*+,;=%@")

/-- `parseHost`. -/
def parseHost (host : GoString) : Except Error GoString :=
  if (bytes "[").isPrefixOf host then
    match LastIndex 0x5D host with
    | none => .error (.text "missing ']' in host")
    | some i =>
      if !validOptionalPort (host.drop (i + 1)) then .error (.text "invalid port after host")
      else
        match IndexStr (bytes "%25") (host.take i) with
        | some zone =>
          match unescape encodeHost (host.take zone) with
          | .error e => .error e
          | .ok host1 =>
            match unescape encodeZone ((host.take i).drop zone) with
            | .error e => .error e
            | .ok host2 =>
              match unescape encodeHost (host.drop i) with
              | .error e => .error e
              | .ok host3 => .ok (host1 ++ host2 ++ host3)
        | none => unescape encodeHost host
  else
    match LastIndex 0x3A host with
    | some i =>
      if !validOptionalPort (host.drop i) then .error (.text "invalid port after host")
      else unescape encodeHost host
    | none => unescape encodeHost host

/-- `parseAuthority`. -/
def parseAuthority (authority : GoString) : Except Error (Option Userinfo × GoString) :=
  match LastIndex 0x40 authority with
  | none =>
    match parseHost authority with
    | .error e => .error e
    | .ok host => .ok (none, host)
  | some i =>
    match parseHost (authority.drop (i + 1)) with
    | .error e => .error e
    | .ok host =>
      let userinfo := authority.take i
      if !validUserinfo userinfo then .error (.text "net/url: invalid userinfo")
      else if 0x3A ∉ userinfo then
        match unescape encodeUserPassword userinfo with
        | .error e => .error e
        | .ok name => .ok (some ⟨name, [], false⟩, host)
      else
        match unescape encodeUserPassword (Cut 0x3A userinfo).1 with
        | .error e => .error e
        | .ok name =>
          match unescape encodeUserPassword (Cut 0x3A userinfo).2.1 with
          | .error e => .error e
          | .ok password => .ok (some ⟨name, password, true⟩, host)

/-- The function `parse(rawURL, viaRequest)` of net/url with `viaRequest = false`,
the only way `url.Parse` calls it. -/
def parse (rawURL : GoString) : Except Error URL :=
  if stringContainsCTLByte rawURL then
    .error (.text "net/url: invalid control character in URL")
  else if rawURL = bytes "*" then .ok { Path := bytes "*" }
  else
    match getScheme rawURL with
    | .error e => .error e
    | .ok (scheme, rest0) =>
      let force : Bool := (bytes "?").isSuffixOf rest0 && rest0.count 0x3F = 1
      let rest1 : GoString := if force then rest0.dropLast else (Cut 0x3F rest0).1
      let url : URL :=
        { Scheme := ToLower scheme, ForceQuery := force,
          RawQuery := if force then [] else (Cut 0x3F rest0).2.1 }
      if !(bytes "/").isPrefixOf rest1 ∧ url.Scheme ≠ [] then .ok { url with Opaque := rest1 }
      else if !(bytes "/").isPrefixOf rest1 ∧ 0x3A ∈ (Cut 0x2F rest1).1 then
        .error (.text "first path segment in URL cannot contain colon")
      else if (url.Scheme ≠ [] ∨ !(bytes "///").isPrefixOf rest1) ∧ (bytes "//").isPrefixOf rest1 then
        let auth := rest1.drop 2
        let authority := match Index 0x2F auth with
          | some i => auth.take i
          | none => auth
        let rest2 := match Index 0x2F auth with
          | some i => auth.drop i
          | none => []
        match parseAuthority authority with
        | .error e => .error e
        | .ok (user, host) => URL.setPath { url with User := user, Host := host } rest2
      else if url.Scheme ≠ [] ∧ (bytes "/").isPrefixOf rest1 then
        URL.setPath { url with OmitHost := true } rest1
      else URL.setPath url rest1

/-- `url.Parse`. -/
def Parse (rawURL : GoString) : Except Error URL :=
  match parse (Cut 0x23 rawURL).1 with
  | .error e => .error (.url "parse" e)
  | .ok url =>
    if (Cut 0x23 rawURL).2.1 = [] then .ok url
    else
      match url.setFragment (Cut 0x23 rawURL).2.1 with
      | .error e => .error (.url "parse" e)
      | .ok url2 => .ok url2

/-- The state of the loop of `resolvePath`: the builder `dst` and the flag `first`. -/
structure ResolveState where
  dst : GoString
  first : Bool

/-- One turn of the loop of `resolvePath` on the element `elem`. -/
def resolveStep (st : ResolveState) (elem : GoString) : ResolveState :=
  if elem = bytes "." then { st with first := false }
  else if elem = bytes ".." then
    let str := st.dst.drop 1
    match LastIndex 0x2F str with
    | none => { dst := bytes "/", first := true }
    | some index => { dst := bytes "/" ++ str.take index, first := st.first }
  else
    { dst := (if st.first then st.dst else st.dst ++ bytes "/") ++ elem, first := false }

/-- `resolvePath(base, ref)` of net/url. -/
def resolvePath (base ref : GoString) : GoString :=
  let full : GoString :=
    match ref with
    | [] => base
    | c :: _ =>
      if c ≠ 0x2F then
        (match LastIndex 0x2F base with
          | some i => base.take (i + 1)
          | none => []) ++ ref
      else ref
  if full = [] then []
  else
    let elems := Split 0x2F full
    let st := elems.foldl resolveStep { dst := bytes "/", first := true }
    let last := elems.getLast?.getD []
    let r := if last = bytes "." ∨ last = bytes ".." then st.dst ++ bytes "/" else st.dst
    if r.length > 1 ∧ r.getD 1 0 = 0x2F then r.drop 1 else r

/-- `(*URL).ResolveReference`, with the receiver a pointer that may be nil:
`none` is the nil-pointer fault at the first use of a nil receiver. -/
def ResolveReference (u : Option URL) (ref : URL) : Option URL :=
  let setPathOf (url : URL) (p : GoString) : URL :=
    match url.setPath p with
    | .ok url2 => url2
    | .error _ => url
  if ref.Scheme ≠ [] then some (setPathOf ref (resolvePath ref.EscapedPath []))
  else
    match u with
    | none => none
    | some u =>
      let url : URL := { ref with Scheme := u.Scheme }
      if ref.Host ≠ [] ∨ ref.User ≠ none then
        some (setPathOf url (resolvePath ref.EscapedPath []))
      else if ref.Opaque ≠ [] then some { url with User := none, Host := [], Path := [] }
      else
        let url : URL :=
          if ref.Path = [] ∧ !ref.ForceQuery ∧ ref.RawQuery = [] then
            if ref.Fragment = [] then
              { url with RawQuery := u.RawQuery, Fragment := u.Fragment,
                         RawFragment := u.RawFragment }
            else { url with RawQuery := u.RawQuery }
          else url
        if ref.Path = [] ∧ u.Opaque ≠ [] then
          some { url with Opaque := u.Opaque, User := none, Host := [], Path := [] }
        else
          some (setPathOf { url with Host := u.Host, User := u.User }
            (resolvePath u.EscapedPath ref.EscapedPath))

/-- The result of a call that may fault at run time. -/
inductive Faulting (α : Type) where
  /-- The call returned. -/
  | done (a : α)
  /-- The goroutine panicked. -/
  | fault (msg : String)
deriving DecidableEq, Repr

/-- `(*URL).Parse(ref)`: parse `ref` and resolve it against the receiver. -/
def URL.Parse (u : Option URL) (ref : GoString) : Faulting (Except Error URL) :=
  match Maplerad.Parse ref with
  | .error e => .done (.error e)
  | .ok refURL =>
    match ResolveReference u refURL with
    | none => .fault "invalid memory address or nil pointer dereference"
    | some url => .done (.ok url)

/-- `(*Userinfo).String`. -/
def Userinfo.String (u : Userinfo) : GoString :=
  escape u.username encodeUserPassword ++
    (if u.passwordSet then bytes ":" ++ escape u.password encodeUserPassword else [])

/-- `(*URL).String`. -/
def URL.String (u : URL) : GoString :=
  let buf0 : GoString := if u.Scheme ≠ [] then u.Scheme ++ bytes ":" else []
  let buf1 : GoString :=
    if u.Opaque ≠ [] then buf0 ++ u.Opaque
    else
      let buf2 : GoString :=
        if u.Scheme ≠ [] ∨ u.Host ≠ [] ∨ u.User ≠ none then
          if u.OmitHost ∧ u.Host = [] ∧ u.User = none then buf0
          else
            buf0 ++ (if u.Host ≠ [] ∨ u.Path ≠ [] ∨ u.User ≠ none then bytes "//" else [])
              ++ (match u.User with
                  | some ui => ui.String ++ bytes "@"
                  | none => [])
              ++ (if u.Host ≠ [] then escape u.Host encodeHost else [])
        else buf0
      let path := u.EscapedPath
      let buf3 : GoString :=
        if path ≠ [] ∧ path.head? ≠ some 0x2F ∧ u.Host ≠ [] then buf2 ++ bytes "/" else buf2
      let buf4 : GoString :=
        if buf3 = [] ∧ 0x3A ∈ (Cut 0x2F path).1 then buf3 ++ bytes "./" else buf3
      buf4 ++ path
  let buf5 : GoString :=
    if u.ForceQuery ∨ u.RawQuery ≠ [] then buf1 ++ bytes "?" ++ u.RawQuery else buf1
  if u.Fragment ≠ [] then buf5 ++ bytes "#" ++ u.EscapedFragment else buf5

/-- `url.Values`, also the shape of `http.Header`: a Go `map[string][]string`,
kept as an association list with one entry per key. -/
abbrev Values := List (GoString × List GoString)

/-- The map read `v[key]`: the values stored under `key`, nil when absent. -/
def Values.lookup (v : Values) (key : GoString) : List GoString :=
  match v with
  | [] => []
  | (k, vs) :: m => if k = key then vs else Values.lookup m key

/-- The map write `v[key] = vs`. -/
def Values.store (key : GoString) (vs : List GoString) : Values → Values
  | [] => [(key, vs)]
  | (k, old) :: m => if k = key then (key, vs) :: m else (k, old) :: Values.store key vs m

/-- `Values.Add`: `v[key] = append(v[key], value)`. -/
def Values.Add (v : Values) (key value : GoString) : Values :=
  Values.store key (v.lookup key ++ [value]) v

/-- The body of the loop of `parseQuery` for one `&`-separated piece; an
unparsable piece is skipped (`(*URL).Query` drops the error). -/
def parseQueryStep (m : Values) (piece : GoString) : Values :=
  if 0x3B ∈ piece then m
  else if piece = [] then m
  else
    match QueryUnescape (Cut 0x3D piece).1 with
    | .error _ => m
    | .ok key =>
      match QueryUnescape (Cut 0x3D piece).2.1 with
      | .error _ => m
      | .ok value => m.Add key value

/-- `(*URL).Query`: `ParseQuery(u.RawQuery)` with the error dropped. -/
def URL.Query (u : URL) : Values :=
  (Split 0x26 u.RawQuery).foldl parseQueryStep []

/-- Insertion of a key into a list sorted by Go's `<`. -/
def insertKey (k : GoString) : List GoString → List GoString
  | [] => [k]
  | a :: l => if strLess a k then a :: insertKey k l else k :: a :: l

/-- `slices.Sort` on a list of strings. -/
def sortKeys : List GoString → List GoString
  | [] => []
  | k :: l => insertKey k (sortKeys l)

/-- One key of `Values.Encode`: every value of `key` written to `buf`. -/
def encodeKey (v : Values) (buf : GoString) (key : GoString) : GoString :=
  (v.lookup key).foldl
    (fun buf value =>
      (if buf.length > 0 then buf ++ bytes "&" else buf)
        ++ QueryEscape key ++ bytes "=" ++ QueryEscape value)
    buf

/-- `Values.Encode`: the pairs in URL-encoded form, sorted by key. -/
def Values.Encode (v : Values) : GoString :=
  if v.length = 0 then []
  else (sortKeys (v.map Prod.fst)).foldl (encodeKey v) []

/-! ## unicode/utf8 and strings.TrimSpace -/

/-- `utf8.RuneError`. -/
def RuneError : Nat := 0xFFFD

/-- The low end of the range `acceptRanges` allows for the second byte after
the first byte `s0`. -/
def acceptLo (s0 : Nat) : Nat := if s0 = 0xE0 then 0xA0 else if s0 = 0xF0 then 0x90 else 0x80

/-- The high end of the range `acceptRanges` allows for the second byte after
the first byte `s0`. -/
def acceptHi (s0 : Nat) : Nat := if s0 = 0xED then 0x9F else if s0 = 0xF4 then 0x8F else 0xBF

/-- `utf8.DecodeRuneInString`: the first rune of `s` and its width; an invalid
encoding is `(RuneError, 1)`, the empty string `(RuneError, 0)`. -/
def DecodeRuneInString (s : GoString) : Nat × Nat :=
  match s with
  | [] => (RuneError, 0)
  | s0 :: t =>
    if s0 < 0x80 then (s0, 1)
    else if s0 < 0xC2 ∨ 0xF4 < s0 then (RuneError, 1)
    else
      match t with
      | [] => (RuneError, 1)
      | s1 :: t1 =>
        if s1 < acceptLo s0 ∨ acceptHi s0 < s1 then (RuneError, 1)
        else if s0 < 0xE0 then (s0 % 0x20 * 0x40 + s1 % 0x40, 2)
        else
          match t1 with
          | [] => (RuneError, 1)
          | s2 :: t2 =>
            if s2 < 0x80 ∨ 0xBF < s2 then (RuneError, 1)
            else if s0 < 0xF0 then (s0 % 0x10 * 0x1000 + s1 % 0x40 * 0x40 + s2 % 0x40, 3)
            else
              match t2 with
              | [] => (RuneError, 1)
              | s3 :: _ =>
                if s3 < 0x80 ∨ 0xBF < s3 then (RuneError, 1)
                else (s0 % 0x08 * 0x40000 + s1 % 0x40 * 0x1000 + s2 % 0x40 * 0x40 + s3 % 0x40, 4)

/-- `utf8.RuneStart`: the byte is not a continuation byte. -/
def RuneStart (b : Nat) : Bool := !(0x80 ≤ b && b ≤ 0xBF)

/-- `utf8.DecodeLastRuneInString`, on the bytes of `s` last byte first. Go walks
back from the last byte over at most three bytes to the nearest rune start,
decodes forward from there, and answers `(RuneError, 1)` unless that rune ends
exactly at the end of `s`. -/
def DecodeLastRune (rev : GoString) : Nat × Nat :=
  let ending (enc : GoString) : Nat × Nat :=
    if (DecodeRuneInString enc).2 = enc.length then DecodeRuneInString enc else (RuneError, 1)
  match rev with
  | [] => (RuneError, 0)
  | b0 :: r0 =>
    if b0 < 0x80 then (b0, 1)
    else
      match r0 with
      | [] => ending [b0]
      | b1 :: r1 =>
        if RuneStart b1 then ending [b1, b0]
        else
          match r1 with
          | [] => (RuneError, 1)
          | b2 :: r2 =>
            if RuneStart b2 then ending [b2, b1, b0]
            else
              match r2 with
              | [] => (RuneError, 1)
              | b3 :: _ => if RuneStart b3 then ending [b3, b2, b1, b0] else (RuneError, 1)

/-- `unicode.IsSpace`. -/
def IsSpace (r : Nat) : Bool :=
  if r ≤ 0xFF then
    r = 0x09 || r = 0x0A || r = 0x0B || r = 0x0C || r = 0x0D || r = 0x20 || r = 0x85 || r = 0xA0
  else
    r = 0x1680 || (0x2000 ≤ r && r ≤ 0x200A) || r = 0x2028 || r = 0x2029 || r = 0x202F
      || r = 0x205F || r = 0x3000

/-- The table `asciiSpace` of package strings. -/
def asciiSpace (c : Nat) : Bool :=
  c = 0x09 || c = 0x0A || c = 0x0B || c = 0x0C || c = 0x0D || c = 0x20

/-- `strings.TrimLeftFunc(s, f)`; `skip` counts the bytes of the current rune
still to be passed over. -/
def trimLeftLoop (f : Nat → Bool) : Nat → GoString → GoString
  | _, [] => []
  | skip + 1, _ :: t => trimLeftLoop f skip t
  | 0, c :: t =>
    if f (DecodeRuneInString (c :: t)).1 then
      trimLeftLoop f ((DecodeRuneInString (c :: t)).2 - 1) t
    else c :: t

/-- `strings.TrimLeftFunc`. -/
def TrimLeftFunc (s : GoString) (f : Nat → Bool) : GoString := trimLeftLoop f 0 s

/-- The loop of `lastIndexFunc(s, f, false)` on the bytes of `s[0:i]` last byte
first: what is left, last byte first, once every trailing rune satisfying `f`
is dropped, the rune found included. -/
def trimRightLoop (f : Nat → Bool) : Nat → GoString → GoString
  | _, [] => []
  | skip + 1, _ :: r => trimRightLoop f skip r
  | 0, b :: r =>
    if f (DecodeLastRune (b :: r)).1 then trimRightLoop f ((DecodeLastRune (b :: r)).2 - 1) r
    else b :: r

/-- `strings.TrimRightFunc(s, f)`: with `i` the start of the last rune not
satisfying `f`, the result is `s[0:i+wid]`, `wid` the width `DecodeRuneInString`
finds at `i` (1 for an ASCII byte). -/
def TrimRightFunc (s : GoString) (f : Nat → Bool) : GoString :=
  let kept := (trimRightLoop f 0 s.reverse).reverse
  if kept = [] then []
  else
    let i := kept.length - (DecodeLastRune kept.reverse).2
    if 0x80 ≤ s.getD i 0 then s.take (i + (DecodeRuneInString (s.drop i)).2) else s.take (i + 1)

/-- `strings.TrimFunc`. -/
def TrimFunc (s : GoString) (f : Nat → Bool) : GoString := TrimRightFunc (TrimLeftFunc s f) f

/-- The second loop of `strings.TrimSpace`, on `s[start:]` last byte first. -/
def trimSpaceBack : GoString → GoString
  | [] => []
  | c :: r =>
    if 0x80 ≤ c then TrimRightFunc (c :: r).reverse IsSpace
    else if asciiSpace c then trimSpaceBack r
    else (c :: r).reverse

/-- `strings.TrimSpace`: the first loop, then the second on what is left. -/
def TrimSpace : GoString → GoString
  | [] => []
  | c :: t =>
    if 0x80 ≤ c then TrimFunc (c :: t) IsSpace
    else if asciiSpace c then TrimSpace t
    else trimSpaceBack (c :: t).reverse

/-! ## encoding/json: the scanner behind `checkValid` -/

/-- The entries of the scanner's `parseState` stack. -/
inductive ParseState where
  | parseObjectKey
  | parseObjectValue
  | parseArrayValue
deriving DecidableEq, Repr

/-- The state functions of `scanner.go`, the value of `scanner.step`. -/
inductive Step where
  | stateBeginValueOrEmpty | stateBeginValue | stateBeginStringOrEmpty | stateBeginString
  | stateEndValue | stateEndTop
  | stateInString | stateInStringEsc | stateInStringEscU | stateInStringEscU1
  | stateInStringEscU12 | stateInStringEscU123
  | stateNeg | state1 | state0 | stateDot | stateDot0 | stateE | stateESign | stateE0
  | stateT | stateTr | stateTru | stateF | stateFa | stateFal | stateFals
  | stateN | stateNu | stateNul
  | stateError
deriving DecidableEq, Repr

/-- The fields of `json.scanner` that `checkValid` reads: the step function,
the stack (top first), whether an error is recorded, and `endTop`. -/
structure Scanner where
  step : Step
  parseState : List ParseState
  err : Bool
  endTop : Bool
deriving DecidableEq, Repr

open ParseState Step

/-- `maxNestingDepth` of package json. -/
def maxNestingDepth : Nat := 10000

/-- `isSpace` of package json. -/
def jsonIsSpace (c : Nat) : Bool := c = 0x20 || c = 0x09 || c = 0x0D || c = 0x0A

/-- `(*scanner).error`: record the error; the code returned is `scanError`. -/
def Scanner.error (s : Scanner) : Scanner × Bool :=
  ({ s with step := stateError, err := true }, true)

/-- `(*scanner).pushParseState`, moving to `next` on success. -/
def Scanner.pushParseState (s : Scanner) (p : ParseState) (next : Step) : Scanner × Bool :=
  let s2 : Scanner := { s with step := next, parseState := p :: s.parseState }
  if s2.parseState.length ≤ maxNestingDepth then (s2, false) else s2.error

/-- `(*scanner).popParseState`. -/
def Scanner.popParseState (s : Scanner) : Scanner :=
  match s.parseState.tail with
  | [] => { s with parseState := [], step := stateEndTop, endTop := true }
  | rest => { s with parseState := rest, step := stateEndValue }

/-- `stateEndTop`: a non-space byte records an error, reported at the next step. -/
def stepEndTop (s : Scanner) (c : Nat) : Scanner × Bool :=
  if !jsonIsSpace c then (s.error.1, false) else (s, false)

/-- `stateEndValue`. -/
def stepEndValue (s : Scanner) (c : Nat) : Scanner × Bool :=
  match s.parseState with
  | [] => stepEndTop { s with step := stateEndTop, endTop := true } c
  | ps :: rest =>
    if jsonIsSpace c then ({ s with step := stateEndValue }, false)
    else
      match ps with
      | parseObjectKey =>
        if c = 0x3A then
          ({ s with parseState := parseObjectValue :: rest, step := stateBeginValue }, false)
        else s.error
      | parseObjectValue =>
        if c = 0x2C then
          ({ s with parseState := parseObjectKey :: rest, step := stateBeginString }, false)
        else if c = 0x7D then (s.popParseState, false)
        else s.error
      | parseArrayValue =>
        if c = 0x2C then ({ s with step := stateBeginValue }, false)
        else if c = 0x5D then (s.popParseState, false)
        else s.error

/-- `stateBeginValue`. -/
def stepBeginValue (s : Scanner) (c : Nat) : Scanner × Bool :=
  if jsonIsSpace c then (s, false)
  else if c = 0x7B then s.pushParseState parseObjectKey stateBeginStringOrEmpty
  else if c = 0x5B then s.pushParseState parseArrayValue stateBeginValueOrEmpty
  else if c = 0x22 then ({ s with step := stateInString }, false)
  else if c = 0x2D then ({ s with step := stateNeg }, false)
  else if c = 0x30 then ({ s with step := state0 }, false)
  else if c = 0x74 then ({ s with step := stateT }, false)
  else if c = 0x66 then ({ s with step := stateF }, false)
  else if c = 0x6E then ({ s with step := stateN }, false)
  else if 0x31 ≤ c ∧ c ≤ 0x39 then ({ s with step := state1 }, false)
  else s.error

/-- `stateBeginString`. -/
def stepBeginString (s : Scanner) (c : Nat) : Scanner × Bool :=
  if jsonIsSpace c then (s, false)
  else if c = 0x22 then ({ s with step := stateInString }, false)
  else s.error

/-- `state0`. -/
def step0 (s : Scanner) (c : Nat) : Scanner × Bool :=
  if c = 0x2E then ({ s with step := stateDot }, false)
  else if c = 0x65 ∨ c = 0x45 then ({ s with step := stateE }, false)
  else stepEndValue s c

/-- `stateESign`. -/
def stepESign (s : Scanner) (c : Nat) : Scanner × Bool :=
  if isDigit c then ({ s with step := stateE0 }, false) else s.error

/-- The scanner fed one byte: `s.step(s, c)`, with whether it answered `scanError`. -/
def Scanner.feed (s : Scanner) (c : Nat) : Scanner × Bool :=
  let expect (want : Nat) (next : Step) : Scanner × Bool :=
    if c = want then ({ s with step := next }, false) else s.error
  let hexThen (next : Step) : Scanner × Bool :=
    if ishex c then ({ s with step := next }, false) else s.error
  match s.step with
  | stateBeginValueOrEmpty =>
    if jsonIsSpace c then (s, false)
    else if c = 0x5D then stepEndValue s c
    else stepBeginValue s c
  | stateBeginValue => stepBeginValue s c
  | stateBeginStringOrEmpty =>
    if jsonIsSpace c then (s, false)
    else if c = 0x7D then
      stepEndValue { s with parseState := parseObjectValue :: s.parseState.tail } c
    else stepBeginString s c
  | stateBeginString => stepBeginString s c
  | stateEndValue => stepEndValue s c
  | stateEndTop => stepEndTop s c
  | stateInString =>
    if c = 0x22 then ({ s with step := stateEndValue }, false)
    else if c = 0x5C then ({ s with step := stateInStringEsc }, false)
    else if c < 0x20 then s.error
    else (s, false)
  | stateInStringEsc =>
    if c ∈ bytes "bfnrt\\/\"" then ({ s with step := stateInString }, false)
    else if c = 0x75 then ({ s with step := stateInStringEscU }, false)
    else s.error
  | stateInStringEscU => hexThen stateInStringEscU1
  | stateInStringEscU1 => hexThen stateInStringEscU12
  | stateInStringEscU12 => hexThen stateInStringEscU123
  | stateInStringEscU123 => hexThen stateInString
  | stateNeg =>
    if c = 0x30 then ({ s with step := state0 }, false)
    else if 0x31 ≤ c ∧ c ≤ 0x39 then ({ s with step := state1 }, false)
    else s.error
  | state1 => if isDigit c then ({ s with step := state1 }, false) else step0 s c
  | state0 => step0 s c
  | stateDot => if isDigit c then ({ s with step := stateDot0 }, false) else s.error
  | stateDot0 =>
    if isDigit c then (s, false)
    else if c = 0x65 ∨ c = 0x45 then ({ s with step := stateE }, false)
    else stepEndValue s c
  | stateE =>
    if c = 0x2B ∨ c = 0x2D then ({ s with step := stateESign }, false) else stepESign s c
  | stateESign => stepESign s c
  | stateE0 => if isDigit c then (s, false) else stepEndValue s c
  | stateT => expect 0x72 stateTr
  | stateTr => expect 0x75 stateTru
  | stateTru => expect 0x65 stateEndValue
  | stateF => expect 0x61 stateFa
  | stateFa => expect 0x6C stateFal
  | stateFal => expect 0x73 stateFals
  | stateFals => expect 0x65 stateEndValue
  | stateN => expect 0x75 stateNu
  | stateNu => expect 0x6C stateNul
  | stateNul => expect 0x6C stateEndValue
  | stateError => (s, true)

/-- `(*scanner).eof`: whether it answers `scanError`. -/
def Scanner.eof (s : Scanner) : Bool :=
  if s.err then true
  else if s.endTop then false
  else !(s.feed 0x20).1.endTop

/-- The loop of `checkValid`: `true` when the data is not well-formed JSON. -/
def checkValidFrom (s : Scanner) : GoString → Bool
  | [] => s.eof
  | c :: data => if (s.feed c).2 then true else checkValidFrom (s.feed c).1 data

/-- `checkValid(data, scan)` after `scan.reset()`: the `*SyntaxError`, if any;
its message and offset are not modelled. -/
def checkValid (data : GoString) : Option Error :=
  if checkValidFrom { step := stateBeginValue, parseState := [], err := false, endTop := false } data
  then some (.text "json: syntax error")
  else none

/-! ## net/http: headers and request construction -/

/-- `http.Header`. -/
abbrev Header := Values

/-- The token bytes of RFC 7230 (`httpguts.IsTokenRune`,
`textproto.validHeaderFieldByte`). -/
def isToken (c : Nat) : Bool := isAlpha c || isDigit c || c ∈ bytes "!#$%&'*+-.^_\x60|~"

/-- `textproto.CanonicalMIMEHeaderKey`: a key with a byte that is not a token
byte is left alone; otherwise the first letter and every letter after a hyphen
is upper case and the rest lower case. -/
def CanonicalMIMEHeaderKey (s : GoString) : GoString :=
  let rec canon (upper : Bool) : GoString → GoString
    | [] => []
    | c :: t =>
      let c2 :=
        if upper ∧ 0x61 ≤ c ∧ c ≤ 0x7A then c - 0x20
        else if !upper ∧ 0x41 ≤ c ∧ c ≤ 0x5A then c + 0x20
        else c
      c2 :: canon (c2 = 0x2D) t
  if s.all isToken then canon true s else s

/-- `Header.Add`. -/
def Header.Add (h : Header) (key value : GoString) : Header :=
  Values.Add h (CanonicalMIMEHeaderKey key) value

/-- `Header.Set`. -/
def Header.Set (h : Header) (key value : GoString) : Header :=
  Values.store (CanonicalMIMEHeaderKey key) [value] h

/-- `Header.Values`. -/
def Header.Values (h : Header) (key : GoString) : List GoString :=
  Values.lookup h (CanonicalMIMEHeaderKey key)

/-- `Header.Get`: the first value stored under the key, `""` when there is none. -/
def Header.Get (h : Header) (key : GoString) : GoString :=
  match Values.lookup h (CanonicalMIMEHeaderKey key) with
  | [] => []
  | v :: _ => v

/-- `http.Request`, the fields `Call` and `(*http.Client).Do` set or read. `Body`
is the content the body delivers, `none` for a nil `Body`; a `Body` without
bytes is `http.NoBody`, the only empty body `http.NewRequest` and `Do` make.
`GetBody` is `none` for a nil `GetBody`, else the content of the reader it
returns. -/
structure Request where
  Method : GoString
  URL : URL
  Header : Header
  Body : Option GoString
  GetBody : Option GoString
  ContentLength : Int
  Host : GoString
deriving DecidableEq, Repr

/-- `http.Response` as `Do` and `decodeResponse` see it: the status code, the
header, the bytes `io.ReadAll` delivers from the body and the error it reports
with them. -/
structure Response where
  StatusCode : Int
  Header : Header
  Body : GoString
  ReadErr : Option Error
deriving DecidableEq, Repr

/-- `validMethod` of net/http. -/
def validMethod (method : GoString) : Bool := method.length > 0 && method.all isToken

/-- `removeEmptyPort` of net/http. -/
def removeEmptyPort (host : GoString) : GoString :=
  let idx (o : Option Nat) : Int :=
    match o with
    | some i => i
    | none => -1
  if idx (LastIndex 0x3A host) > idx (LastIndex 0x5D host) ∧ (bytes ":").isSuffixOf host
  then host.dropLast else host

/-- `http.NewRequest(method, url, body)`: `.error` is `(nil, err)`. `body` is
`none` for a nil reader and else the content of the `*bytes.Buffer` handed over,
for which `NewRequest` sets `ContentLength` and `GetBody`. The message of the
error for the method leaves out the quoted method. -/
def NewRequest (method url : GoString) (body : Option GoString) : Except Error Request :=
  let method := if method = [] then bytes "GET" else method
  if !validMethod method then .error (.text "net/http: invalid method")
  else
    match Parse url with
    | .error e => .error e
    | .ok u =>
      .ok { Method := method, URL := { u with Host := removeEmptyPort u.Host }, Header := [],
            Body := body, GetBody := body, ContentLength := (body.getD []).length,
            Host := removeEmptyPort u.Host }

/-- `(*Request).outgoingLength`. -/
def Request.outgoingLength (r : Request) : Int :=
  if r.Body = none ∨ r.Body = some [] then 0
  else if r.ContentLength ≠ 0 then r.ContentLength
  else -1

/-! ## net/http: `(*http.Client).Do` -/

/-- `strings.Replace(s, old, new, 1)`: the first `old` in `s` replaced by `new`. -/
def ReplaceFirst (old new : GoString) : GoString → GoString
  | [] => if old = [] then new else []
  | c :: s =>
    if old.isPrefixOf (c :: s) then new ++ (c :: s).drop old.length
    else c :: ReplaceFirst old new s

/-- The digits of `base64.StdEncoding`. -/
def encodeStd : GoString :=
  bytes "ABCDEFGHIJKLMNOPQRSTUVWXYZabcdefghijklmnopqrstuvwxyz0123456789+/"

/-- `base64.StdEncoding.EncodeToString`. -/
def EncodeToString : GoString → GoString
  | a :: b :: c :: rest =>
    encodeStd.getD (a / 4) 0 :: encodeStd.getD (a % 4 * 16 + b / 16) 0
      :: encodeStd.getD (b % 16 * 4 + c / 64) 0 :: encodeStd.getD (c % 64) 0
      :: EncodeToString rest
  | [a, b] =>
    [encodeStd.getD (a / 4) 0, encodeStd.getD (a % 4 * 16 + b / 16) 0,
     encodeStd.getD (b % 16 * 4) 0, 0x3D]
  | [a] => [encodeStd.getD (a / 4) 0, encodeStd.getD (a % 4 * 16) 0, 0x3D, 0x3D]
  | [] => []

/-- `basicAuth` of net/http. -/
def basicAuth (username password : GoString) : GoString :=
  EncodeToString (username ++ bytes ":" ++ password)

/-- `(*URL).Hostname`: the host without a valid port and without the square
brackets of an IPv6 literal. -/
def URL.Hostname (u : URL) : GoString :=
  let host : GoString :=
    match LastIndex 0x3A u.Host with
    | some colon => if validOptionalPort (u.Host.drop colon) then u.Host.take colon else u.Host
    | none => u.Host
  if (bytes "[").isPrefixOf host ∧ (bytes "]").isSuffixOf host then (host.drop 1).dropLast
  else host

/-- `isDomainOrSubdomain` of net/http. -/
def isDomainOrSubdomain (sub parent : GoString) : Bool :=
  if sub = parent then true
  else if sub.any (fun c => c = 0x3A || c = 0x25) then false
  else if !parent.isSuffixOf sub then false
  else sub.getD (sub.length - parent.length - 1) 0 = 0x2E

/-- `shouldCopyHeaderOnRedirect` of net/http. The two hosts are compared as
they are written: the conversion of a host name that is not ASCII to its ASCII
form, which net/http applies first, is left out. `Call` sets none of the four
headers concerned. -/
def shouldCopyHeaderOnRedirect (headerKey : GoString) (initial dest : URL) : Bool :=
  if CanonicalMIMEHeaderKey headerKey ∈
      [bytes "Authorization", bytes "Www-Authenticate", bytes "Cookie", bytes "Cookie2"] then
    isDomainOrSubdomain dest.Hostname initial.Hostname
  else true

/-- The function `makeHeadersCopier` returns, for a client without cookie jar:
the header of the next request, copied from `ireqhdr`, the header the first
request had when `Do` was called; `preq` is the URL of the previous request. -/
def copyHeaders (ireqhdr : Header) (preq dest : URL) : Header :=
  ireqhdr.foldl
    (fun h kv => if shouldCopyHeaderOnRedirect kv.1 preq dest then Values.store kv.1 kv.2 h else h)
    []

/-- `refererForURL` of net/http. -/
def refererForURL (lastReq newReq : URL) (explicitRef : GoString) : GoString :=
  if lastReq.Scheme = bytes "https" ∧ newReq.Scheme = bytes "http" then []
  else if explicitRef ≠ [] then explicitRef
  else
    match lastReq.User with
    | some ui => ReplaceFirst (ui.String ++ bytes "@") [] lastReq.String
    | none => lastReq.String

/-- `urlErrorOp` of net/http: `Post` for `POST`. -/
def urlErrorOp (method : GoString) : GoString :=
  if method = [] then bytes "Get"
  else if method.all (fun b => 0x20 ≤ b && b ≤ 0x7E) then method.take 1 ++ (ToLower method).drop 1
  else method

/-- `stripPassword` of net/http. -/
def stripPassword (u : URL) : GoString :=
  match u.User with
  | some ui =>
    if ui.passwordSet then
      ReplaceFirst (ui.String ++ bytes "@") (ui.username ++ bytes ":***@") u.String
    else u.String
  | none => u.String

/-- `redirectBehavior` of net/http: `(redirectMethod, shouldRedirect, includeBody)`;
`ireq` is the first request. -/
def redirectBehavior (reqMethod : GoString) (resp : Response) (ireq : Request) :
    GoString × Bool × Bool :=
  if resp.StatusCode = 301 ∨ resp.StatusCode = 302 ∨ resp.StatusCode = 303 then
    (if reqMethod ≠ bytes "GET" ∧ reqMethod ≠ bytes "HEAD" then bytes "GET" else reqMethod,
      true, false)
  else if resp.StatusCode = 307 ∨ resp.StatusCode = 308 then
    (reqMethod, !(ireq.GetBody = none && ireq.outgoingLength ≠ 0), true)
  else ([], false, false)

/-! ## The transport core: `lib/maplerad.go` -/

/-- The constant `sandboxUrl`. -/
def sandboxUrl : GoString := bytes "https://sandbox.api.maplerad.com"

/-- The constant `liveUrl`. -/
def liveUrl : GoString := bytes "https://api.maplerad.com"

/-- What `Call` reaches outside the process, for a body of type `β` and a
result container of type `σ`. -/
structure Env (β σ : Type) where
  /-- `json.NewEncoder(buf).Encode(body)`: the bytes written to `buf`, or the error. -/
  marshal : β → Except Error GoString
  /-- `http.DefaultTransport.RoundTrip`, the network and the remote server: the
  answer to the request handed to it as the `n`-th of the call, counting from 0. -/
  originalTransport : Nat → Request → Except Error Response
  /-- Whether the `Timeout` of the client had run out when the `n`-th round trip
  of the call failed: `didTimeout()`. -/
  didTimeout : Nat → Bool
  /-- The decoding step of `json.Unmarshal`, run on data that passed `checkValid`,
  into the value of type `σ` behind the pointer the caller hands to `Call`: that
  value afterwards and the error reported. -/
  decode : GoString → σ → σ × Option Error

/-- The struct `xAPIKeyAuthTransport`; its `originalTransport` is
`http.DefaultTransport`, the `originalTransport` of `Env`. -/
structure xAPIKeyAuthTransport where
  secret : GoString
deriving DecidableEq, Repr

/-- The `http.Client` built by `NewClient`: its transport and its timeout in
seconds. `CheckRedirect` and `Jar` are nil. -/
structure HTTPClient where
  Transport : xAPIKeyAuthTransport
  Timeout : Nat
deriving DecidableEq, Repr

/-- The struct `Client`; the service handles all point back to the client and
are the projections `Client.Institutions` and the like. -/
structure Client where
  c : Option HTTPClient := none
  baseURL : Option URL := none
  secret : GoString := []
deriving DecidableEq, Repr

/-- `IsStringEmpty`. -/
def IsStringEmpty (s : GoString) : Bool := (TrimSpace s).length = 0

/-- `(*xAPIKeyAuthTransport).RoundTrip` for the `n`-th round trip of a call: the
request as handed to the original transport, and that transport's answer. -/
def xAPIKeyAuthTransport.RoundTrip {β σ : Type} (env : Env β σ) (t : xAPIKeyAuthTransport)
    (n : Nat) (r : Request) : Request × Except Error Response :=
  let r1 : Request := { r with Header := r.Header.Add (bytes "Content-Type") (bytes "application/json") }
  let r2 : Request := { r1 with Header := r1.Header.Add (bytes "Authorization") (bytes "Bearer " ++ t.secret) }
  (r2, env.originalTransport n r2)

/-- The function `send(ireq, rt, deadline)` of net/http, which `(*Client).send`
calls for a client without cookie jar: the `Basic` authorization for user
information in the URL, then the round trip through the client's `Transport`.
The deadline acts through the answer of the transport. -/
def HTTPClient.send {β σ : Type} (env : Env β σ) (hc : HTTPClient) (n : Nat) (ireq : Request) :
    Request × Except Error Response :=
  let req : Request :=
    match ireq.URL.User with
    | some u =>
      if ireq.Header.Get (bytes "Authorization") = [] then
        { ireq with Header := ireq.Header.Set (bytes "Authorization")
                      (bytes "Basic " ++ basicAuth u.username u.password) }
      else ireq
    | none => ireq
  hc.Transport.RoundTrip env n req

/-- How one turn of the loop of `(*Client).do` ends once its request is sent. -/
inductive Turn where
  /-- The statement `return resp, err`. -/
  | ret (resp : Option Response) (err : Option Error)
  /-- The loop goes round again, with the request `req` for the next hop. -/
  | again (req : Request)
  /-- The goroutine panicked. -/
  | fault (msg : String)
deriving DecidableEq, Repr

/-- One turn of the loop of `(*Client).do`, from `reqs = append(reqs, req)` to
the check of the redirect at the top of the next turn. `n` is the number of
requests sent before `req`, `ireq` is `reqs[0]` and `ireqhdr` the header it had
when `Do` was called. `CheckRedirect` is nil, so the check is
`defaultCheckRedirect`. The `URL` of an error for a `Location` that does not
parse is that of `resp.Request`, which `http.DefaultTransport` sets to the
request it was handed. -/
def HTTPClient.turn {β σ : Type} (env : Env β σ) (hc : HTTPClient) (ireq : Request)
    (ireqhdr : Header) (n : Nat) (req : Request) : Turn :=
  match (hc.send env n req).2 with
  | .error err =>
    let err : Error := if hc.Timeout ≠ 0 ∧ env.didTimeout n then .timeout err else err
    .ret none (some (.client (urlErrorOp ireq.Method) (stripPassword req.URL) err))
  | .ok resp =>
    let redirectMethod := (redirectBehavior req.Method resp ireq).1
    let shouldRedirect := (redirectBehavior req.Method resp ireq).2.1
    let includeBody := (redirectBehavior req.Method resp ireq).2.2
    if !shouldRedirect then .ret (some resp) none
    else
      let loc := resp.Header.Get (bytes "Location")
      if loc = [] then .ret (some resp) none
      else
        match URL.Parse (some req.URL) loc with
        | .fault msg => .fault msg
        | .done (.error e) =>
          .ret none (some (.client (urlErrorOp ireq.Method) (stripPassword req.URL) (.location loc e)))
        | .done (.ok u) =>
          let host : GoString :=
            if req.Host ≠ [] ∧ req.Host ≠ req.URL.Host then
              match Parse loc with
              | .ok u2 => if u2.Scheme = [] then req.Host else []
              | .error _ => []
            else []
          let hdr : Header := copyHeaders ireqhdr req.URL u
          let ref := refererForURL req.URL u (hdr.Get (bytes "Referer"))
          let next : Request :=
            { Method := redirectMethod, URL := u,
              Header := if ref ≠ [] then hdr.Set (bytes "Referer") ref else hdr,
              Body := if includeBody then ireq.GetBody else none,
              GetBody := none,
              ContentLength := if includeBody ∧ ireq.GetBody ≠ none then ireq.ContentLength else 0,
              Host := host }
          if n + 1 ≥ 10 then
            .ret (some resp)
              (some (.client (urlErrorOp ireq.Method) loc (.text "stopped after 10 redirects")))
          else .again next

/-- What `(*http.Client).Do` did: the requests handed to the original
transport, in order, and the pair `(*Response, error)` it returned. -/
structure DoResult where
  sent : List Request
  outcome : Faulting (Option Response × Option Error)
deriving DecidableEq, Repr

/-- The loop of `(*Client).do`. It ends by itself, `defaultCheckRedirect`
refusing an eleventh request; `fuel` bounds the turns for the recursion, and
`Do_returns` shows that the 10 turns `Do` allows are never used up. -/
def HTTPClient.doLoop {β σ : Type} (env : Env β σ) (hc : HTTPClient) (ireq : Request)
    (ireqhdr : Header) : Nat → Nat → Request → DoResult
  | fuel, n, req =>
    match hc.turn env ireq ireqhdr n req with
    | .ret resp err => ⟨[(hc.send env n req).1], .done (resp, err)⟩
    | .fault msg => ⟨[(hc.send env n req).1], .fault msg⟩
    | .again next =>
      match fuel with
      | 0 => ⟨[(hc.send env n req).1], .done (none, none)⟩
      | fuel + 1 =>
        ⟨(hc.send env n req).1 :: (doLoop env hc ireq ireqhdr fuel (n + 1) next).sent,
          (doLoop env hc ireq ireqhdr fuel (n + 1) next).outcome⟩

/-- `(*http.Client).Do(req)`. -/
def HTTPClient.Do {β σ : Type} (env : Env β σ) (hc : HTTPClient) (req : Request) : DoResult :=
  hc.doLoop env req req.Header 10 0 req

/-- `NewClient(secret, environment)`: the pair `(*Client, error)`. -/
def NewClient (secret environment : GoString) : Option Client × Option Error :=
  let c : Client := {}
  if IsStringEmpty secret then (none, some (.text "please provide your secret key"))
  else
    let c : Client := { c with secret := secret }
    let c : Client :=
      if environment = bytes "live" then { c with baseURL := (Parse liveUrl).toOption } else c
    let c : Client := { c with baseURL := (Parse sandboxUrl).toOption }
    let c : Client :=
      if c.c = none then
        { c with c := some { Transport := { secret := c.secret }, Timeout := 10 } }
      else c
    (some c, none)

/-- Modelled from the spec: `utils.NewAPIError` is not among the sources. The
spec has it produce, from the raw response, "a structured API error that must
expose at minimum the numeric status code and whatever error message/body the
server returned". -/
def NewAPIError (httpResp : Response) : APIError :=
  { status := httpResp.StatusCode, body := httpResp.Body }

/-- `json.Unmarshal(data, &v)`: `checkValid` first, and only then the decoding
into the value behind `v`. The error and the container afterwards. -/
def Unmarshal {β σ : Type} (env : Env β σ) (data : GoString) (v : σ) : Option Error × σ :=
  match checkValid data with
  | some err => (some err, v)
  | none => ((env.decode data v).2, (env.decode data v).1)

/-- `(*Client).decodeResponse`: the error returned and the container afterwards. -/
def Client.decodeResponse {β σ : Type} (env : Env β σ) (_c : Client) (httpResp : Response)
    (v : σ) : Option Error × σ :=
  if httpResp.StatusCode ≥ 400 then (some (.api (NewAPIError httpResp)), v)
  else
    -- respBody, err := io.ReadAll(httpResp.Body); err is overwritten by the next line
    let respBody := httpResp.Body
    Unmarshal env respBody v

/-- What a call did: the requests handed to the original transport, in order,
and either the error returned with the container afterwards, or a panic. -/
structure CallResult (σ : Type) where
  sent : List Request
  outcome : Faulting (Option Error × σ)

/-- The loop "Adding Query Param" of `Call`; the entries of `queryParams` come
in the order the `range` visits them. -/
def addQueryParams (query : Values) (queryParams : Values) : Values :=
  queryParams.foldl (fun q kw => kw.2.foldl (fun q iv => q.Add kw.1 iv) q) query

/-- `Call` from `resp, err := c.c.Do(req)` on. -/
def Client.finish {β σ : Type} (env : Env β σ) (c : Client) (res : DoResult) (v : σ) :
    CallResult σ :=
  match res.outcome with
  | .fault msg => ⟨res.sent, .fault msg⟩
  | .done (_, some err) => ⟨res.sent, .done (some err, v)⟩
  | .done (some resp, none) => ⟨res.sent, .done (c.decodeResponse env resp v)⟩
  | .done (none, none) =>
    -- resp is nil and the deferred call reads resp.Body
    ⟨res.sent, .fault "invalid memory address or nil pointer dereference"⟩

/-- `Call` from `http.NewRequest` on, for the resolved URL `u` whose `RawQuery`
is already set. -/
def Client.send {β σ : Type} (env : Env β σ) (c : Client) (method : GoString) (u : URL)
    (buf : Option GoString) (hasBody : Bool) (v : σ) : CallResult σ :=
  match NewRequest method u.String buf with
  | .error _ =>
    -- req is nil and log.Print(method, ": ", req.URL) reads req.URL
    ⟨[], .fault "invalid memory address or nil pointer dereference"⟩
  | .ok req =>
    let req : Request :=
      if hasBody then
        { req with Header := req.Header.Set (bytes "Content-Type") (bytes "application/json") }
      else req
    match c.c with
    | none => ⟨[], .fault "invalid memory address or nil pointer dereference"⟩
    | some hc => c.finish env (hc.Do env req) v

/-- The first lines of `Call`: `buf` stays nil for a nil `body`, and holds the
JSON text of any other. -/
def encodeBody {β σ : Type} (env : Env β σ) (body : Option β) : Except Error (Option GoString) :=
  match body with
  | none => .ok none
  | some b =>
    match env.marshal b with
    | .ok buf => .ok (some buf)
    | .error err => .error err

/-- `(*Client).Call(method, path, queryParams, body, v)`; a nil `body` is `none`. -/
def Client.Call {β σ : Type} (env : Env β σ) (c : Client) (method path : GoString)
    (queryParams : Values) (body : Option β) (v : σ) : CallResult σ :=
  match encodeBody env body with
  | .error err => ⟨[], .done (some err, v)⟩
  | .ok buf =>
    match URL.Parse c.baseURL (bytes "v1" ++ path) with
    | .fault msg => ⟨[], .fault msg⟩
    | .done (.error err) => ⟨[], .done (some err, v)⟩
    | .done (.ok u) =>
      let query := addQueryParams u.Query queryParams
      c.send env method { u with RawQuery := query.Encode } buf body.isSome v

/-! ## The institution service: `lib/institution.go` -/

/-- The type `InstitutionService`, a `service`: the back pointer to the client. -/
structure InstitutionService where
  client : Client

/-- The handle `c.Institutions` that `NewClient` sets. -/
def Client.Institutions (c : Client) : InstitutionService := ⟨c⟩

/-- A Go `map[string]string`; `none` is the nil map a bare `var` declares. -/
abbrev GoMap := Option (List (GoString × GoString))

/-- The statement `m[key] = value`, which panics on a nil map. -/
def GoMap.assign (m : GoMap) (key value : GoString) : Faulting GoMap :=
  match m with
  | none => .fault "assignment to entry in nil map"
  | some entries => .done (some ((entries.filter (fun kv => kv.1 ≠ key)) ++ [(key, value)]))

/-- `(*InstitutionService).GetInstitutions`; `empty` is the zero value of the
response struct. -/
def InstitutionService.GetInstitutions {β σ : Type} (env : Env β σ) (c : InstitutionService)
    (empty : σ) : CallResult σ :=
  let u := bytes "/institutions"
  c.client.Call env (bytes "POST") u [] none empty

/-- `(*InstitutionService).ResolveInstitution`; `empty` is the zero value of
the response struct. -/
def InstitutionService.ResolveInstitution {σ : Type} (env : Env GoMap σ)
    (c : InstitutionService) (empty : σ) (account_number bank_code : GoString) : CallResult σ :=
  let u := bytes "/institutions/resolve"
  let body : GoMap := none
  match body.assign (bytes "account_number") account_number with
  | .fault msg => ⟨[], .fault msg⟩
  | .done body1 =>
    match body1.assign (bytes "bank_code") bank_code with
    | .fault msg => ⟨[], .fault msg⟩
    | .done body2 => c.client.Call env (bytes "POST") u [] (some body2) empty

/-! ## encoding/json: decoding into a `[2]bool` -/

/-- The scan past the rest of a JSON value in well-formed data: `depth` counts
the arrays and objects still open, `inString` and `escaped` follow the string
being read. The text after the value. -/
def afterValueLoop : Nat → Bool → Bool → GoString → GoString
  | _, _, _, [] => []
  | depth, inString, escaped, c :: t =>
    if inString then
      if escaped then afterValueLoop depth true false t
      else if c = 0x5C then afterValueLoop depth true true t
      else if c = 0x22 then (if depth = 0 then t else afterValueLoop depth false false t)
      else afterValueLoop depth true false t
    else if c = 0x22 then afterValueLoop depth true false t
    else if c = 0x5B ∨ c = 0x7B then afterValueLoop (depth + 1) false false t
    else if c = 0x5D ∨ c = 0x7D then
      (if depth ≤ 1 then t else afterValueLoop (depth - 1) false false t)
    else afterValueLoop depth false false t

/-- What `(*decodeState).skip` and `rescanLiteral` leave unread: the text after
the JSON value that `s` starts with, in well-formed data. -/
def afterValue (s : GoString) : GoString :=
  match s with
  | [] => []
  | c :: t =>
    if c = 0x22 then afterValueLoop 0 true false t
    else if c = 0x5B ∨ c = 0x7B then afterValueLoop 1 false false t
    else s.dropWhile (fun b => !(jsonIsSpace b || b = 0x2C || b = 0x5D || b = 0x7D))

/-- `(*decodeState).value` into an element of kind `bool` that holds `old`, for
the JSON value whose first byte is `first`: the element afterwards and the
`*UnmarshalTypeError` handed to `saveError`. `true` and `false` are stored,
`null` is ignored, any other value is a mismatch and leaves the element alone. -/
def storeBool (first : Nat) (old : Bool) : Bool × Option Error :=
  if first = 0x74 then (true, none)
  else if first = 0x66 then (false, none)
  else if first = 0x6E then (old, none)
  else if first = 0x22 then
    (old, some (.text "json: cannot unmarshal string into Go value of type bool"))
  else if first = 0x5B then
    (old, some (.text "json: cannot unmarshal array into Go value of type bool"))
  else if first = 0x7B then
    (old, some (.text "json: cannot unmarshal object into Go value of type bool"))
  else (old, some (.text "json: cannot unmarshal number into Go value of type bool"))

/-- The loop of `(*decodeState).array` on a `[2]bool`: `s` is the text after the
`[` or after a comma, `i` the index of the next element, `v` the array and
`err` the error saved so far. Elements past the second are skipped. The array,
the saved error and the number of elements read. -/
def arrayLoop : Nat → Nat → GoString → Bool × Bool → Option Error →
    (Bool × Bool) × Option Error × Nat
  | 0, i, _, v, err => (v, err, i)
  | fuel + 1, i, s, v, err =>
    match s.dropWhile jsonIsSpace with
    | [] => (v, err, i)
    | c :: t =>
      if c = 0x5D then (v, err, i)
      else
        let st := storeBool c (if i = 0 then v.1 else v.2)
        let v2 : Bool × Bool := if i = 0 then (st.1, v.2) else if i = 1 then (v.1, st.1) else v
        let err2 : Option Error :=
          match err with
          | some e => some e
          | none => if i < 2 then st.2 else none
        match (afterValue (c :: t)).dropWhile jsonIsSpace with
        | [] => (v2, err2, i + 1)
        | c2 :: s3 => if c2 = 0x2C then arrayLoop fuel (i + 1) s3 v2 err2 else (v2, err2, i + 1)

/-- The decoding step of `json.Unmarshal(data, &v)` in `decodeResponse` when the
caller handed `Call` a `*[2]bool`, on well-formed `data`: the array behind the
pointer afterwards and the error returned. An array is decoded element by
element, the elements it does not reach are set to `false`; `null` sets the
interface `v` of `decodeResponse` to nil and leaves the array alone; any other
value is a mismatch. -/
def decodeBoolPair (data : GoString) (v : Bool × Bool) : (Bool × Bool) × Option Error :=
  match data.dropWhile jsonIsSpace with
  | [] => (v, none)
  | c :: t =>
    if c = 0x5B then
      let r := arrayLoop (t.length + 1) 0 t v none
      (if r.2.2 = 0 then (false, false) else if r.2.2 = 1 then (r.1.1, false) else r.1, r.2.1)
    else if c = 0x6E then (v, none)
    else if c = 0x7B then
      (v, some (.text "json: cannot unmarshal object into Go value of type [2]bool"))
    else if c = 0x22 then
      (v, some (.text "json: cannot unmarshal string into Go value of type [2]bool"))
    else if c = 0x74 ∨ c = 0x66 then
      (v, some (.text "json: cannot unmarshal bool into Go value of type [2]bool"))
    else (v, some (.text "json: cannot unmarshal number into Go value of type [2]bool"))

/-! ## Predicates and worked examples for the statements -/

/-- The JSON value in `data` without the white space around it. -/
def trimJSON (data : GoString) : GoString :=
  ((data.dropWhile jsonIsSpace).reverse.dropWhile jsonIsSpace).reverse

/-- An environment for worked examples: the server answers every request with
`resp`, a body is an empty struct, written as the JSON text of an empty object
and a newline, no round trip runs into the timeout, and the container is a
`json.RawMessage`, which decoding fills with the text of the value; `null`
leaves it alone. -/
def exampleEnv (resp : Response) : Env Unit GoString :=
  { marshal := fun _ => .ok (bytes "\x7b\x7d\n"),
    originalTransport := fun _ _ => .ok resp,
    didTimeout := fun _ => false,
    decode := fun data v => if trimJSON data = bytes "null" then (v, none) else (trimJSON data, none) }

/-- An environment whose server gives the `n`-th request of a call the answer
`answers n`, with the same bodies, and whose container is a `[2]bool`. -/
def pairEnv (answers : Nat → Response) : Env Unit (Bool × Bool) :=
  { marshal := fun _ => .ok (bytes "\x7b\x7d\n"),
    originalTransport := fun n _ => .ok (answers n),
    didTimeout := fun _ => false,
    decode := decodeBoolPair }

/-- The client `NewClient` builds for the secret `sk_test`. -/
def exampleClient : Client :=
  { c := some { Transport := { secret := bytes "sk_test" }, Timeout := 10 },
    baseURL := (Parse sandboxUrl).toOption, secret := bytes "sk_test" }

/-- The JSON text `{"message":"not found"}`. -/
def notFoundBody : GoString := bytes "\x7b\"message\":\"not found\"\x7d"

/-- The text `{"message":`, which is not well-formed JSON. -/
def truncatedBody : GoString := bytes "\x7b\"message\":"

/-- The order `a ≤ b` of Go strings. -/
def keyLE (a b : GoString) : Prop := strLess b a = false

instance keyLE_decidable : DecidableRel keyLE := fun a b => by
  unfold keyLE
  exact inferInstance

/-- The values `queryParams` supplies for `key`, entry after entry. -/
def supplied (queryParams : Values) (key : GoString) : List GoString :=
  (queryParams.filter (fun kw => kw.1 = key)).flatMap Prod.snd

/-- The string is the UTF-8 encoding of white space runes only (of none, when
it is empty). -/
def whitespaceOnly (s : GoString) : Prop :=
  ∃ rs : List Nat, (∀ r ∈ rs, IsSpace r = true) ∧ s = rs.flatMap EncodeRune

/-- A byte that may stand in an escaped path: the test `validEncoded` makes of
each byte in the mode `encodePath`. These are the letters, the digits, the
bytes of `-_.~$&+,/:;=@!'()*[]` and the percent sign. -/
def pathByte (c : Nat) : Bool :=
  c ∈ bytes "!$&'()*+,;=:@" || c ∈ bytes "[]" || c = 0x25 || !shouldEscape c encodePath

/-- A path that `net/url` keeps as it is written: every byte may stand in an
escaped path, every percent sign starts an escape of two hexadecimal digits, no
segment after the first slash is `.` or `..`, and there is no colon before the
first slash. -/
def verbatimPath (path : GoString) : Bool :=
  validEncoded path encodePath
    && (unescape encodePath path).toOption.isSome
    && (Split 0x2F path).tail.all (fun seg => seg ≠ bytes "." && seg ≠ bytes "..")
    && decide (0x3A ∉ (Cut 0x2F path).1)

/-- The fields `Path` and `RawPath` that `setPath` stores for the text `p`. -/
def storedPath (p : GoString) : GoString × GoString :=
  match unescape encodePath p with
  | .ok path => (path, if p = escape path encodePath then [] else p)
  | .error _ => ([], [])

/-- A path element that is neither `.` nor `..`. -/
def plainElem (e : GoString) : Prop := e ≠ bytes "." ∧ e ≠ bytes ".."

/-- The base URL every client has: the parse of `sandboxUrl`. -/
def sandboxBase : URL := { Scheme := bytes "https", Host := bytes "sandbox.api.maplerad.com" }

/-- A byte `Values.Encode` may write: a letter, a digit or one of `-_.~+%=&`. -/
def querySafe (c : Nat) : Bool := isAlpha c || isDigit c || c ∈ bytes "-_.~+%=&"

/-- The host of the sandbox endpoint. -/
def sandboxHost : GoString := bytes "sandbox.api.maplerad.com"

/-- The text of the request URL: the endpoint, the path and, when there is
one, the query after a question mark. -/
def requestText (p q : GoString) : GoString :=
  sandboxUrl ++ p ++ (if q = [] then [] else 0x3F :: q)

/-- A response that `(*http.Client).Do` takes for a redirect to follow: the
status is 301, 302, 303, 307 or 308 and there is a `Location` header. -/
def redirects (resp : Response) : Bool :=
  (resp.StatusCode = 301 || resp.StatusCode = 302 || resp.StatusCode = 303
    || resp.StatusCode = 307 || resp.StatusCode = 308)
  && resp.Header.Get (bytes "Location") ≠ []

/-- Whether `GET path` with the parameters `queryParams`, on the client for
`sk_test`, sends one request whose URL is the base, `/v1`, the path and, when
the encoding of the parameters is not empty, a question mark and the encoding. -/
def formulaHolds (path : GoString) (queryParams : Values) : Bool :=
  (exampleClient.Call (exampleEnv ⟨200, [], bytes "[]", none⟩) (bytes "GET") path queryParams
      none []).sent.map (fun r => r.URL.String)
    = [sandboxUrl ++ bytes "/v1" ++ path ++
        (if Values.Encode queryParams = [] then [] else bytes "?" ++ Values.Encode queryParams)]

/-- Paths to try the formula on: sixteen that `net/url` keeps as written, and
twenty with a `.` or `..` segment, a colon in front, a query, a fragment, a
malformed escape or a byte that has to be escaped. -/
def samplePaths : List GoString :=
  [bytes "", bytes "/", bytes "/institutions", bytes "/customers/a:b", bytes "/a!b",
   bytes "/a%20b", bytes "/x[1]", bytes "/a%2fb", bytes "/%2e%2e/a", bytes "/a;b=c,d",
   bytes "/(a)*'+", bytes "/a~b_c-d.e", bytes "/a$&=@", bytes "//a//", bytes "..", bytes "/...",
   bytes "/a/./b", bytes "/a/../b", bytes "/..", bytes "/a/.", bytes "a:b", bytes ":x",
   bytes "/a b", bytes "/a?b", bytes "/a?x=1", bytes "/a#b", bytes "/a%zz", bytes "/a%2",
   bytes "/é", bytes "/a\nb", bytes "/a\\b", bytes "/a\"b", bytes "/a<b", bytes "/a|b",
   bytes "/a^b", bytes "/a\x7bb\x7d"]

/-! ## Association lists as Go maps -/

theorem lookup_store_same (key : GoString) (vs : List GoString) (m : Values) :
    Values.lookup (Values.store key vs m) key = vs := by
  induction m with
  | nil => simp [Values.store, Values.lookup]
  | cons e m ih =>
    obtain ⟨k, old⟩ := e
    by_cases h : k = key
    · simp [Values.store, Values.lookup, h]
    · simp [Values.store, Values.lookup, h, ih]

theorem lookup_store_other (key k2 : GoString) (vs : List GoString) (m : Values) (h : key ≠ k2) :
    Values.lookup (Values.store key vs m) k2 = Values.lookup m k2 := by
  induction m with
  | nil => simp [Values.store, Values.lookup, h]
  | cons e m ih =>
    obtain ⟨k, old⟩ := e
    by_cases hk : k = key
    · subst hk; simp [Values.store, Values.lookup, h]
    · by_cases hk2 : k = k2
      · subst hk2; simp [Values.store, Values.lookup, hk]
      · simp [Values.store, Values.lookup, hk, hk2, ih]

theorem mem_lookup_Add (m : Values) (key value : GoString) :
    value ∈ Values.lookup (Values.Add m key value) key := by
  simp [Values.Add, lookup_store_same]

theorem mem_lookup_Add_of_mem (m : Values) (key k2 value x : GoString)
    (h : x ∈ Values.lookup m k2) : x ∈ Values.lookup (Values.Add m key value) k2 := by
  by_cases hk : key = k2
  · subst hk; simp [Values.Add, lookup_store_same, h]
  · simp [Values.Add, lookup_store_other _ _ _ _ hk, h]

theorem canonical_content_type :
    CanonicalMIMEHeaderKey (bytes "Content-Type") = bytes "Content-Type" := by decide

theorem canonical_authorization :
    CanonicalMIMEHeaderKey (bytes "Authorization") = bytes "Authorization" := by decide

/-- The request that `RoundTrip` hands on carries both headers. -/
theorem RoundTrip_headers {β σ : Type} (env : Env β σ) (t : xAPIKeyAuthTransport) (n : Nat)
    (r : Request) :
    (bytes "Bearer " ++ t.secret) ∈ (t.RoundTrip env n r).1.Header.Values (bytes "Authorization")
    ∧ bytes "application/json" ∈ (t.RoundTrip env n r).1.Header.Values (bytes "Content-Type") := by
  constructor
  · simp only [xAPIKeyAuthTransport.RoundTrip, Header.Values, Header.Add]
    exact mem_lookup_Add _ _ _
  · simp only [xAPIKeyAuthTransport.RoundTrip, Header.Values, Header.Add]
    exact mem_lookup_Add_of_mem _ _ _ _ _ (mem_lookup_Add _ _ _)

theorem NewClient_some {secret environment : GoString} {c : Client}
    (h : NewClient secret environment = (some c, none)) :
    IsStringEmpty secret = false ∧
    c = { c := some { Transport := { secret := secret }, Timeout := 10 },
          baseURL := (Parse sandboxUrl).toOption, secret := secret } := by
  unfold NewClient at h
  by_cases hs : IsStringEmpty secret = true
  · simp [hs] at h
  · refine ⟨by simpa using hs, ?_⟩
    by_cases he : environment = bytes "live" <;> simp [hs, he] at h <;> rw [← h]

/-! ## The trace of a call -/

theorem exampleClient_new : NewClient (bytes "sk_test") (bytes "sandbox") = (some exampleClient, none) := by
  decide

/-- What `send` hands to the transport went through `RoundTrip`, with the URL,
the method and the body of the request it was given. -/
theorem send_fst {β σ : Type} (env : Env β σ) (hc : HTTPClient) (n : Nat) (req : Request) :
    ∃ req2, (hc.send env n req).1 = (hc.Transport.RoundTrip env n req2).1
      ∧ (hc.send env n req).1.URL = req.URL ∧ (hc.send env n req).1.Method = req.Method
      ∧ (hc.send env n req).1.Body = req.Body := by
  unfold HTTPClient.send
  cases req.URL.User with
  | none => exact ⟨req, rfl, rfl, rfl, rfl⟩
  | some u =>
    by_cases h : req.Header.Get (bytes "Authorization") = []
    · simp only [h, if_true]
      exact ⟨_, rfl, rfl, rfl, rfl⟩
    · simp only [h, if_false]
      exact ⟨req, rfl, rfl, rfl, rfl⟩

/-- The answer `send` returns is the answer of the original transport to the
request handed to it. -/
theorem send_snd {β σ : Type} (env : Env β σ) (hc : HTTPClient) (n : Nat) (req : Request) :
    (hc.send env n req).2 = env.originalTransport n (hc.send env n req).1 := by
  unfold HTTPClient.send
  rfl

theorem ResolveReference_some (u ref : URL) : ∃ url, ResolveReference (some u) ref = some url := by
  unfold ResolveReference
  simp only
  split_ifs <;> exact ⟨_, rfl⟩

theorem URL_Parse_no_fault (u : URL) (loc : GoString) (msg : String) :
    URL.Parse (some u) loc ≠ .fault msg := by
  unfold URL.Parse
  cases Parse loc with
  | error e => simp
  | ok ref =>
    obtain ⟨url, h⟩ := ResolveReference_some u ref
    simp [h]

theorem redirectBehavior_of_not_redirects (m : GoString) (resp : Response) (ireq : Request)
    (h : redirects resp = false) :
    (redirectBehavior m resp ireq).2.1 = false ∨ resp.Header.Get (bytes "Location") = [] := by
  unfold redirects at h
  unfold redirectBehavior
  by_cases hl : resp.Header.Get (bytes "Location") = []
  · exact Or.inr hl
  · left
    simp only [hl, ne_eq, not_false_eq_true, decide_True, Bool.and_true, Bool.or_eq_false_iff,
      decide_eq_false_iff_not] at h
    obtain ⟨⟨⟨⟨h1, h2⟩, h3⟩, h4⟩, h5⟩ := h
    simp [h1, h2, h3, h4, h5]

/-- A turn whose round trip fails returns the error, as a `*url.Error`. -/
theorem turn_of_error {β σ : Type} (env : Env β σ) (hc : HTTPClient) (ireq : Request)
    (ireqhdr : Header) (n : Nat) (req : Request) (e : Error)
    (h : (hc.send env n req).2 = .error e) :
    hc.turn env ireq ireqhdr n req
      = .ret none (some (.client (urlErrorOp ireq.Method) (stripPassword req.URL)
          (if hc.Timeout ≠ 0 ∧ env.didTimeout n then .timeout e else e))) := by
  unfold HTTPClient.turn
  rw [h]

/-- A turn whose answer is not a redirect to follow returns that answer. -/
theorem turn_of_ok {β σ : Type} (env : Env β σ) (hc : HTTPClient) (ireq : Request)
    (ireqhdr : Header) (n : Nat) (req : Request) (resp : Response)
    (h : (hc.send env n req).2 = .ok resp) (hr : redirects resp = false) :
    hc.turn env ireq ireqhdr n req = .ret (some resp) none := by
  unfold HTTPClient.turn
  rw [h]
  rcases redirectBehavior_of_not_redirects req.Method resp ireq hr with h1 | h1
  · simp [h1]
  · by_cases h2 : (redirectBehavior req.Method resp ireq).2.1 = true
    · simp [h1, h2]
    · simp [h2]

/-- A turn never panics, never returns neither a response nor an error, and
goes round again only before the tenth request. -/
theorem turn_cases {β σ : Type} (env : Env β σ) (hc : HTTPClient) (ireq : Request)
    (ireqhdr : Header) (n : Nat) (req : Request) :
    (∃ resp err, hc.turn env ireq ireqhdr n req = .ret resp err ∧ (resp ≠ none ∨ err ≠ none))
    ∨ (∃ next, hc.turn env ireq ireqhdr n req = .again next ∧ n + 1 < 10) := by
  unfold HTTPClient.turn
  cases hs : (hc.send env n req).2 with
  | error e => exact Or.inl ⟨_, _, rfl, Or.inr (by simp)⟩
  | ok resp =>
    simp only
    by_cases h1 : (redirectBehavior req.Method resp ireq).2.1 = true
    · simp only [h1, Bool.not_true, Bool.false_eq_true, if_false]
      by_cases h2 : resp.Header.Get (bytes "Location") = []
      · simp only [h2, if_true]
        exact Or.inl ⟨_, _, rfl, Or.inl (by simp)⟩
      · simp only [h2, if_false]
        cases hp : URL.Parse (some req.URL) (resp.Header.Get (bytes "Location")) with
        | fault msg => exact absurd hp (URL_Parse_no_fault _ _ _)
        | done r =>
          cases r with
          | error e => exact Or.inl ⟨_, _, rfl, Or.inr (by simp)⟩
          | ok u =>
            simp only
            by_cases h3 : n + 1 ≥ 10
            · simp only [h3, if_true]
              exact Or.inl ⟨_, _, rfl, Or.inl (by simp)⟩
            · simp only [h3, if_false]
              exact Or.inr ⟨_, rfl, by omega⟩
    · simp only [h1, Bool.not_false, if_true]
      exact Or.inl ⟨_, _, rfl, Or.inl (by simp)⟩

/-- The first request of the loop is the one it was given, after `send`. -/
theorem doLoop_head {β σ : Type} (env : Env β σ) (hc : HTTPClient) (ireq : Request)
    (ireqhdr : Header) (fuel n : Nat) (req : Request) :
    ∃ rest, (hc.doLoop env ireq ireqhdr fuel n req).sent = (hc.send env n req).1 :: rest := by
  cases fuel with
  | zero =>
    unfold HTTPClient.doLoop
    cases hc.turn env ireq ireqhdr n req <;> exact ⟨_, rfl⟩
  | succ f =>
    unfold HTTPClient.doLoop
    cases hc.turn env ireq ireqhdr n req <;> exact ⟨_, rfl⟩

/-- Every request of the loop went through `RoundTrip`. -/
theorem doLoop_sent {β σ : Type} (env : Env β σ) (hc : HTTPClient) (ireq : Request)
    (ireqhdr : Header) (fuel : Nat) : ∀ (n : Nat) (req r : Request),
    r ∈ (hc.doLoop env ireq ireqhdr fuel n req).sent →
    ∃ m req2, r = (hc.Transport.RoundTrip env m req2).1 := by
  induction fuel with
  | zero =>
    intro n req r hr
    obtain ⟨req2, h2, _⟩ := send_fst env hc n req
    unfold HTTPClient.doLoop at hr
    cases ht : hc.turn env ireq ireqhdr n req <;> simp only [ht, List.mem_singleton] at hr <;>
      exact ⟨n, req2, by rw [hr, h2]⟩
  | succ f ih =>
    intro n req r hr
    obtain ⟨req2, h2, _⟩ := send_fst env hc n req
    unfold HTTPClient.doLoop at hr
    cases ht : hc.turn env ireq ireqhdr n req with
    | ret resp err =>
      simp only [ht, List.mem_singleton] at hr
      exact ⟨n, req2, by rw [hr, h2]⟩
    | fault msg =>
      simp only [ht, List.mem_singleton] at hr
      exact ⟨n, req2, by rw [hr, h2]⟩
    | again next =>
      simp only [ht, List.mem_cons] at hr
      rcases hr with hr | hr
      · exact ⟨n, req2, by rw [hr, h2]⟩
      · exact ih _ _ _ hr

/-- The loop returns as soon as a round trip fails or is answered by something
other than a redirect to follow: with the error, or with that answer. -/
theorem doLoop_answer {β σ : Type} (env : Env β σ) (hc : HTTPClient) (ireq : Request)
    (ireqhdr : Header) (fuel : Nat) : ∀ (n : Nat) (req : Request) (k : Nat) (r : Request),
    (hc.doLoop env ireq ireqhdr fuel n req).sent[k]? = some r →
    (∀ resp, env.originalTransport (n + k) r = .ok resp → redirects resp = false →
        (hc.doLoop env ireq ireqhdr fuel n req).outcome = .done (some resp, none)
        ∧ (hc.doLoop env ireq ireqhdr fuel n req).sent.length = k + 1)
    ∧ (∀ e, env.originalTransport (n + k) r = .error e →
        (∃ url, (hc.doLoop env ireq ireqhdr fuel n req).outcome
          = .done (none, some (.client (urlErrorOp ireq.Method) url
              (if hc.Timeout ≠ 0 ∧ env.didTimeout (n + k) then .timeout e else e))))
        ∧ (hc.doLoop env ireq ireqhdr fuel n req).sent.length = k + 1) := by
  induction fuel with
  | zero =>
    intro n req k r hk
    have hlen : (hc.doLoop env ireq ireqhdr 0 n req).sent = [(hc.send env n req).1] := by
      unfold HTTPClient.doLoop
      cases hc.turn env ireq ireqhdr n req <;> rfl
    rw [hlen] at hk
    cases k with
    | succ k => simp at hk
    | zero =>
      simp only [List.getElem?_cons_zero, Option.some.injEq] at hk
      subst hk
      rw [Nat.add_zero, ← send_snd]
      constructor
      · intro resp h1 h2
        have ht := turn_of_ok env hc ireq ireqhdr n req resp h1 h2
        unfold HTTPClient.doLoop
        simp [ht]
      · intro e h1
        have ht := turn_of_error env hc ireq ireqhdr n req e h1
        unfold HTTPClient.doLoop
        simp only [ht]
        exact ⟨⟨_, rfl⟩, rfl⟩
  | succ f ih =>
    intro n req k r hk
    cases k with
    | zero =>
      obtain ⟨rest, hrest⟩ := doLoop_head env hc ireq ireqhdr (f + 1) n req
      rw [hrest] at hk
      simp only [List.getElem?_cons_zero, Option.some.injEq] at hk
      subst hk
      rw [Nat.add_zero, ← send_snd]
      constructor
      · intro resp h1 h2
        have ht := turn_of_ok env hc ireq ireqhdr n req resp h1 h2
        unfold HTTPClient.doLoop
        simp [ht]
      · intro e h1
        have ht := turn_of_error env hc ireq ireqhdr n req e h1
        unfold HTTPClient.doLoop
        simp only [ht]
        exact ⟨⟨_, rfl⟩, rfl⟩
    | succ k =>
      unfold HTTPClient.doLoop at hk ⊢
      cases ht : hc.turn env ireq ireqhdr n req with
      | ret resp err => simp [ht] at hk
      | fault msg => simp [ht] at hk
      | again next =>
        simp only [ht, List.getElem?_cons_succ] at hk ⊢
        have := ih (n + 1) next k r hk
        rw [show n + 1 + k = n + (k + 1) from by omega] at this
        simpa using this

/-- With the turns `Do` allows the loop returns a response or an error, after
ten requests at most: it does not panic and does not run out of turns. -/
theorem doLoop_returns {β σ : Type} (env : Env β σ) (hc : HTTPClient) (ireq : Request)
    (ireqhdr : Header) (fuel : Nat) : ∀ (n : Nat) (req : Request), 9 ≤ fuel + n → n ≤ 9 →
    (∃ resp err, (hc.doLoop env ireq ireqhdr fuel n req).outcome = .done (resp, err)
      ∧ (resp ≠ none ∨ err ≠ none))
    ∧ (hc.doLoop env ireq ireqhdr fuel n req).sent.length + n ≤ 10 := by
  induction fuel with
  | zero =>
    intro n req hn hn9
    unfold HTTPClient.doLoop
    rcases turn_cases env hc ireq ireqhdr n req with ⟨resp, err, ht, hne⟩ | ⟨next, ht, hlt⟩
    · simp only [ht]
      refine ⟨⟨resp, err, rfl, hne⟩, ?_⟩
      simp only [List.length_singleton]
      omega
    · omega
  | succ f ih =>
    intro n req hn hn9
    unfold HTTPClient.doLoop
    rcases turn_cases env hc ireq ireqhdr n req with ⟨resp, err, ht, hne⟩ | ⟨next, ht, hlt⟩
    · simp only [ht]
      refine ⟨⟨resp, err, rfl, hne⟩, ?_⟩
      simp only [List.length_singleton]
      omega
    · simp only [ht]
      obtain ⟨h1, h2⟩ := ih (n + 1) next (by omega) (by omega)
      refine ⟨h1, ?_⟩
      simp only [List.length_cons]
      omega

theorem redirectBehavior_of_redirects (m : GoString) (resp : Response) (ireq : Request)
    (h : redirects resp = true) (hi : ireq.GetBody = ireq.Body) :
    (redirectBehavior m resp ireq).2.1 = true ∧ resp.Header.Get (bytes "Location") ≠ [] := by
  unfold redirects at h
  simp only [Bool.and_eq_true, Bool.or_eq_true, decide_eq_true_eq] at h
  obtain ⟨hs, hl⟩ := h
  refine ⟨?_, hl⟩
  unfold redirectBehavior
  by_cases h3 : resp.StatusCode = 301 ∨ resp.StatusCode = 302 ∨ resp.StatusCode = 303
  · simp [h3]
  · have h7 : resp.StatusCode = 307 ∨ resp.StatusCode = 308 := by
      rcases hs with (((hs | hs) | hs) | hs) | hs
      · exact absurd (Or.inl hs) h3
      · exact absurd (Or.inr (Or.inl hs)) h3
      · exact absurd (Or.inr (Or.inr hs)) h3
      · exact Or.inl hs
      · exact Or.inr hs
    simp only [h3, if_false, h7, if_true]
    cases hb : ireq.Body with
    | none =>
      have : ireq.outgoingLength = 0 := by simp [Request.outgoingLength, hb]
      simp [hi, hb, this]
    | some b => simp [hi, hb]

/-- A turn whose answer is a redirect to follow does not return that answer
alone: the loop goes round again, or the turn returns an error. -/
theorem turn_of_redirect {β σ : Type} (env : Env β σ) (hc : HTTPClient) (ireq : Request)
    (ireqhdr : Header) (n : Nat) (req : Request) (resp : Response)
    (h : (hc.send env n req).2 = .ok resp) (hr : redirects resp = true)
    (hi : ireq.GetBody = ireq.Body) :
    (∃ next, hc.turn env ireq ireqhdr n req = .again next)
    ∨ (∃ r e, hc.turn env ireq ireqhdr n req = .ret r (some e)) := by
  obtain ⟨h1, h2⟩ := redirectBehavior_of_redirects req.Method resp ireq hr hi
  unfold HTTPClient.turn
  rw [h]
  simp only [h1, Bool.not_true, Bool.false_eq_true, if_false, h2]
  cases hp : URL.Parse (some req.URL) (resp.Header.Get (bytes "Location")) with
  | fault msg => exact absurd hp (URL_Parse_no_fault _ _ _)
  | done r =>
    cases r with
    | error e => exact Or.inr ⟨_, _, rfl⟩
    | ok u =>
      simp only
      by_cases h3 : n + 1 ≥ 10
      · simp only [h3, if_true]
        exact Or.inr ⟨_, _, rfl⟩
      · simp only [h3, if_false]
        exact Or.inl ⟨_, rfl⟩

/-- After a redirect to follow the loop sends another request or returns an
error: the answer is not what `Do` returns without error. -/
theorem doLoop_redirect {β σ : Type} (env : Env β σ) (hc : HTTPClient) (ireq : Request)
    (ireqhdr : Header) (hi : ireq.GetBody = ireq.Body) (fuel : Nat) :
    ∀ (n : Nat) (req : Request) (k : Nat) (r : Request) (resp : Response), 9 ≤ fuel + n →
    (hc.doLoop env ireq ireqhdr fuel n req).sent[k]? = some r →
    env.originalTransport (n + k) r = .ok resp → redirects resp = true →
    k + 1 < (hc.doLoop env ireq ireqhdr fuel n req).sent.length
    ∨ ∃ x e, (hc.doLoop env ireq ireqhdr fuel n req).outcome = .done (x, some e) := by
  induction fuel with
  | zero =>
    intro n req k r resp hn hk ht hr
    have hlen : (hc.doLoop env ireq ireqhdr 0 n req).sent = [(hc.send env n req).1] := by
      unfold HTTPClient.doLoop
      cases hc.turn env ireq ireqhdr n req <;> rfl
    rw [hlen] at hk
    cases k with
    | succ k => simp at hk
    | zero =>
      simp only [List.getElem?_cons_zero, Option.some.injEq] at hk
      subst hk
      rw [Nat.add_zero, ← send_snd] at ht
      right
      rcases turn_of_redirect env hc ireq ireqhdr n req resp ht hr hi with ⟨next, h1⟩ | ⟨x, e, h1⟩
      · rcases turn_cases env hc ireq ireqhdr n req with ⟨_, _, h2, _⟩ | ⟨_, _, h3⟩
        · rw [h1] at h2; cases h2
        · omega
      · unfold HTTPClient.doLoop
        simp only [h1]
        exact ⟨_, _, rfl⟩
  | succ f ih =>
    intro n req k r resp hn hk ht hr
    cases k with
    | zero =>
      obtain ⟨rest, hrest⟩ := doLoop_head env hc ireq ireqhdr (f + 1) n req
      rw [hrest] at hk
      simp only [List.getElem?_cons_zero, Option.some.injEq] at hk
      subst hk
      rw [Nat.add_zero, ← send_snd] at ht
      rcases turn_of_redirect env hc ireq ireqhdr n req resp ht hr hi with ⟨next, h1⟩ | ⟨x, e, h1⟩
      · left
        obtain ⟨rest2, hrest2⟩ := doLoop_head env hc ireq ireqhdr f (n + 1) next
        unfold HTTPClient.doLoop
        simp only [h1, hrest2, List.length_cons]
        omega
      · right
        unfold HTTPClient.doLoop
        simp only [h1]
        exact ⟨_, _, rfl⟩
    | succ k =>
      unfold HTTPClient.doLoop at hk ⊢
      cases h1 : hc.turn env ireq ireqhdr n req with
      | ret x err => simp [h1] at hk
      | fault msg => simp [h1] at hk
      | again next =>
        simp only [h1, List.getElem?_cons_succ] at hk ⊢
        have := ih (n + 1) next k r resp (by omega) hk
          (by rw [show n + 1 + k = n + (k + 1) from by omega]; exact ht) hr
        simpa using this

/-- `Do` returns a response or an error, after ten requests at most. -/
theorem Do_returns {β σ : Type} (env : Env β σ) (hc : HTTPClient) (req : Request) :
    (∃ resp err, (hc.Do env req).outcome = .done (resp, err) ∧ (resp ≠ none ∨ err ≠ none))
    ∧ (hc.Do env req).sent.length ≤ 10 := by
  have h := doLoop_returns env hc req req.Header 10 0 req (by omega) (by omega)
  exact ⟨h.1, by simpa using h.2⟩

/-- The first request `Do` sends is the request it was given, whatever `send`
and `RoundTrip` add to its header; it is the only one unless it is answered by
a redirect to follow, and fewer than ten follow it. -/
theorem Do_first {β σ : Type} (env : Env β σ) (hc : HTTPClient) (req : Request) :
    ∃ r rest, (hc.Do env req).sent = r :: rest
      ∧ r.URL = req.URL ∧ r.Method = req.Method ∧ r.Body = req.Body
      ∧ (∀ resp, env.originalTransport 0 r = .ok resp → redirects resp = false → rest = [])
      ∧ (∀ e, env.originalTransport 0 r = .error e → rest = [])
      ∧ rest.length < 10 := by
  obtain ⟨rest, hrest⟩ := doLoop_head env hc req req.Header 10 0 req
  obtain ⟨_, _, h1, h2, h3⟩ := send_fst env hc 0 req
  have hk : (hc.doLoop env req req.Header 10 0 req).sent[0]? = some (hc.send env 0 req).1 := by
    rw [hrest]; simp
  have hd := doLoop_answer env hc req req.Header 10 0 req 0 _ hk
  have hlen := (Do_returns env hc req).2
  unfold HTTPClient.Do at hlen ⊢
  rw [hrest] at hd hlen
  refine ⟨_, rest, hrest, h1, h2, h3, ?_, ?_, ?_⟩
  · intro resp hr1 hr2
    have := (hd.1 resp hr1 hr2).2
    simpa using this
  · intro e he
    have := (hd.2 e he).2
    simpa using this
  · simp only [List.length_cons] at hlen
    omega

theorem finish_sent {β σ : Type} (env : Env β σ) (c : Client) (res : DoResult) (v : σ) :
    (c.finish env res v).sent = res.sent := by
  unfold Client.finish
  split <;> rfl

theorem finish_of_resp {β σ : Type} (env : Env β σ) (c : Client) (res : DoResult) (v : σ)
    (resp : Response) (h : res.outcome = .done (some resp, none)) :
    (c.finish env res v).outcome = .done (c.decodeResponse env resp v) := by
  unfold Client.finish
  rw [h]

theorem finish_of_err {β σ : Type} (env : Env β σ) (c : Client) (res : DoResult) (v : σ)
    (resp : Option Response) (e : Error) (h : res.outcome = .done (resp, some e)) :
    (c.finish env res v).outcome = .done (some e, v) := by
  unfold Client.finish
  rw [h]
  cases resp <;> rfl

theorem NewRequest_GetBody (method url : GoString) (body : Option GoString) (req : Request)
    (h : NewRequest method url body = .ok req) : req.GetBody = req.Body := by
  unfold NewRequest at h
  by_cases hv : validMethod (if method = [] then bytes "GET" else method) = true
  · cases hp : Parse url with
    | error e => simp [hv, hp] at h
    | ok u =>
      simp only [hv, hp, Bool.not_true, Bool.false_eq_true, if_false, Except.ok.injEq] at h
      rw [← h]
  · simp [hv] at h

/-- A call that sends anything runs `Do` on a request of the client's
`http.Client`, whose `GetBody` returns its body, and ends as `Do` ends. -/
theorem send_cases {β σ : Type} (env : Env β σ) (c : Client) (method : GoString) (u : URL)
    (buf : Option GoString) (hasBody : Bool) (v : σ) :
    (c.send env method u buf hasBody v).sent = []
    ∨ ∃ hc req, c.c = some hc ∧ req.GetBody = req.Body
        ∧ c.send env method u buf hasBody v = c.finish env (hc.Do env req) v := by
  unfold Client.send
  cases hreq : NewRequest method u.String buf with
  | error e => exact Or.inl rfl
  | ok req =>
    have hg := NewRequest_GetBody _ _ _ _ hreq
    cases hcc : c.c with
    | none => exact Or.inl rfl
    | some hc =>
      refine Or.inr ⟨hc, _, rfl, ?_, rfl⟩
      by_cases hb : hasBody = true
      · simp only [hb, if_true]
        exact hg
      · simp only [hb, Bool.false_eq_true, if_false]
        exact hg

theorem Call_cases {β σ : Type} (env : Env β σ) (c : Client) (method path : GoString)
    (queryParams : Values) (body : Option β) (v : σ) :
    (c.Call env method path queryParams body v).sent = []
    ∨ ∃ hc req, c.c = some hc ∧ req.GetBody = req.Body
        ∧ c.Call env method path queryParams body v = c.finish env (hc.Do env req) v := by
  unfold Client.Call
  cases h1 : encodeBody env body with
  | error e => exact Or.inl rfl
  | ok buf =>
    cases h2 : URL.Parse c.baseURL (bytes "v1" ++ path) with
    | fault msg => exact Or.inl rfl
    | done res =>
      cases res with
      | error e => exact Or.inl rfl
      | ok u => exact send_cases env c method _ buf body.isSome v

/-- Every request of a call went through `RoundTrip` of the client's transport. -/
theorem Call_sent {β σ : Type} (env : Env β σ) (c : Client) (method path : GoString)
    (queryParams : Values) (body : Option β) (v : σ) (r : Request)
    (hr : r ∈ (c.Call env method path queryParams body v).sent) :
    ∃ hc m req, c.c = some hc ∧ r = (hc.Transport.RoundTrip env m req).1 := by
  rcases Call_cases env c method path queryParams body v with h | ⟨hc, req, hcc, _, h⟩
  · rw [h] at hr; cases hr
  · rw [h, finish_sent] at hr
    obtain ⟨m, req2, h2⟩ := doLoop_sent env hc req req.Header 10 0 req r hr
    exact ⟨hc, m, req2, hcc, h2⟩

/-- How a call ends once a round trip fails or is answered by something other
than a redirect to follow: it was the last round trip, and `Call` returns the
error of the transport wrapped in a `*url.Error`, or what `decodeResponse`
makes of the answer. -/
theorem Call_answer {β σ : Type} (env : Env β σ) (c : Client) (method path : GoString)
    (queryParams : Values) (body : Option β) (v : σ) (k : Nat) (r : Request)
    (hk : (c.Call env method path queryParams body v).sent[k]? = some r) :
    (∀ resp, env.originalTransport k r = .ok resp → redirects resp = false →
        (c.Call env method path queryParams body v).outcome = .done (c.decodeResponse env resp v)
        ∧ (c.Call env method path queryParams body v).sent.length = k + 1)
    ∧ (∀ e, env.originalTransport k r = .error e →
        (∃ hc op url, c.c = some hc ∧ (c.Call env method path queryParams body v).outcome
          = .done (some (.client op url
              (if hc.Timeout ≠ 0 ∧ env.didTimeout k then .timeout e else e)), v))
        ∧ (c.Call env method path queryParams body v).sent.length = k + 1) := by
  rcases Call_cases env c method path queryParams body v with h | ⟨hc, req, hcc, _, h⟩
  · rw [h] at hk; simp at hk
  · rw [h, finish_sent] at hk ⊢
    have hd := doLoop_answer env hc req req.Header 10 0 req k r hk
    rw [Nat.zero_add] at hd
    constructor
    · intro resp h1 h2
      obtain ⟨h3, h4⟩ := hd.1 resp h1 h2
      exact ⟨finish_of_resp env c _ v resp h3, h4⟩
    · intro e h1
      obtain ⟨⟨url, h3⟩, h4⟩ := hd.2 e h1
      exact ⟨⟨hc, _, url, hcc, finish_of_err env c _ v none _ h3⟩, h4⟩

/-! ## White space and `strings.TrimSpace` -/

theorem IsSpace_shape {r : Nat} (h : IsSpace r = true) :
    (r < 0x80 ∧ asciiSpace r = true) ∨ (r = 0x85 ∨ r = 0xA0) ∨ (0x1680 ≤ r ∧ r ≤ 0x3000) := by
  unfold IsSpace at h
  split at h
  · simp only [Bool.or_eq_true, decide_eq_true_eq] at h
    simp only [asciiSpace, Bool.or_eq_true, decide_eq_true_eq]
    omega
  · simp only [Bool.or_eq_true, decide_eq_true_eq, Bool.and_eq_true] at h
    omega

theorem asciiSpace_IsSpace {c : Nat} (h : asciiSpace c = true) : IsSpace c = true ∧ c < 0x80 := by
  simp only [asciiSpace, Bool.or_eq_true, decide_eq_true_eq] at h
  have hc : c ≤ 0xFF := by omega
  refine ⟨?_, by omega⟩
  simp only [IsSpace, hc, if_true, Bool.or_eq_true, decide_eq_true_eq]
  omega

/-- Decoding what `EncodeRune` wrote for a white space rune gives the rune back. -/
theorem Decode_Encode_space {r : Nat} (h : IsSpace r = true) (t : GoString) :
    DecodeRuneInString (EncodeRune r ++ t) = (r, (EncodeRune r).length)
    ∧ 1 ≤ (EncodeRune r).length := by
  rcases IsSpace_shape h with ⟨h1, _⟩ | h2 | ⟨h3, h4⟩
  · simp [EncodeRune, h1, DecodeRuneInString]
  · rcases h2 with rfl | rfl <;> simp [EncodeRune, DecodeRuneInString, acceptLo, acceptHi]
  · have e1 : ¬ r < 0x80 := by omega
    have e2 : ¬ r < 0x800 := by omega
    have e3 : ¬ (0x10FFFF < r ∨ (0xD800 ≤ r ∧ r ≤ 0xDFFF)) := by omega
    have e4 : r < 0x10000 := by omega
    simp only [EncodeRune, e1, e2, e3, e4, if_true, if_false, List.cons_append, List.nil_append,
      DecodeRuneInString, List.length_cons, List.length_nil]
    have a1 : ¬ (0xE0 + r / 0x1000 < 0x80) := by omega
    have a2 : ¬ (0xE0 + r / 0x1000 < 0xC2 ∨ 0xF4 < 0xE0 + r / 0x1000) := by omega
    have a3 : ¬ (0xE0 + r / 0x1000 < 0xE0) := by omega
    have a4 : 0xE0 + r / 0x1000 < 0xF0 := by omega
    have a5 : acceptLo (0xE0 + r / 0x1000) = 0x80 := by
      unfold acceptLo; split
      · omega
      · split
        · omega
        · rfl
    have a6 : acceptHi (0xE0 + r / 0x1000) = 0xBF := by
      unfold acceptHi; split
      · omega
      · split
        · omega
        · rfl
    simp only [a1, a2, a3, a4, a5, a6, if_true, if_false]
    have b1 : ¬ (0x80 + r / 0x40 % 0x40 < 0x80 ∨ 0xBF < 0x80 + r / 0x40 % 0x40) := by omega
    have b2 : ¬ (0x80 + r % 0x40 < 0x80 ∨ 0xBF < 0x80 + r % 0x40) := by omega
    simp only [b1, b2, if_false]
    refine ⟨?_, by omega⟩
    congr 1
    omega

theorem IsSpace_RuneError : IsSpace RuneError = false := by decide

theorem accept_bounds (s0 s1 : Nat) (h : ¬ (s1 < acceptLo s0 ∨ acceptHi s0 < s1)) :
    0x80 ≤ s1 ∧ s1 ≤ 0xBF ∧ (s0 = 0xE0 → 0xA0 ≤ s1) ∧ (s0 = 0xF0 → 0x90 ≤ s1)
    ∧ (s0 = 0xED → s1 ≤ 0x9F) ∧ (s0 = 0xF4 → s1 ≤ 0x8F) := by
  unfold acceptLo acceptHi at h
  split at h <;> split at h <;> (try split at h) <;> (try split at h) <;> omega

/-- A decoding is an error, or its bytes are what `EncodeRune` writes for the rune. -/
theorem Encode_Decode (x : GoString) :
    (DecodeRuneInString x).1 = RuneError
    ∨ (x = EncodeRune (DecodeRuneInString x).1 ++ x.drop (DecodeRuneInString x).2
       ∧ (DecodeRuneInString x).2 = (EncodeRune (DecodeRuneInString x).1).length) := by
  match x with
  | [] => left; rfl
  | s0 :: t =>
    by_cases h0 : s0 < 0x80
    · right; simp [DecodeRuneInString, h0, EncodeRune]
    by_cases h1 : s0 < 0xC2 ∨ 0xF4 < s0
    · left; simp [DecodeRuneInString, h0, h1]
    match t with
    | [] => left; simp [DecodeRuneInString, h0, h1]
    | s1 :: t1 =>
      by_cases h2 : s1 < acceptLo s0 ∨ acceptHi s0 < s1
      · left; simp [DecodeRuneInString, h0, h1, h2]
      have hb := accept_bounds s0 s1 h2
      by_cases h3 : s0 < 0xE0
      · right
        simp only [DecodeRuneInString, h0, h1, h2, h3, if_true, if_false]
        have r1 : ¬ (s0 % 0x20 * 0x40 + s1 % 0x40 < 0x80) := by omega
        have r2 : s0 % 0x20 * 0x40 + s1 % 0x40 < 0x800 := by omega
        simp only [EncodeRune, r1, r2, if_true, if_false, List.drop_succ_cons, List.drop_zero,
          List.cons_append, List.nil_append, List.length_cons, List.length_nil]
        refine ⟨?_, trivial⟩
        congr 1
        · omega
        · congr 1
          omega
      match t1 with
      | [] => left; simp [DecodeRuneInString, h0, h1, h2, h3]
      | s2 :: t2 =>
        by_cases h4 : s2 < 0x80 ∨ 0xBF < s2
        · left; simp [DecodeRuneInString, h0, h1, h2, h3, h4]
        by_cases h5 : s0 < 0xF0
        · right
          simp only [DecodeRuneInString, h0, h1, h2, h3, h4, h5, if_true, if_false]
          have r1 : ¬ (s0 % 0x10 * 0x1000 + s1 % 0x40 * 0x40 + s2 % 0x40 < 0x80) := by omega
          have r2 : ¬ (s0 % 0x10 * 0x1000 + s1 % 0x40 * 0x40 + s2 % 0x40 < 0x800) := by omega
          have r3 : ¬ (0x10FFFF < s0 % 0x10 * 0x1000 + s1 % 0x40 * 0x40 + s2 % 0x40
              ∨ (0xD800 ≤ s0 % 0x10 * 0x1000 + s1 % 0x40 * 0x40 + s2 % 0x40
                ∧ s0 % 0x10 * 0x1000 + s1 % 0x40 * 0x40 + s2 % 0x40 ≤ 0xDFFF)) := by omega
          have r4 : s0 % 0x10 * 0x1000 + s1 % 0x40 * 0x40 + s2 % 0x40 < 0x10000 := by omega
          simp only [EncodeRune, r1, r2, r3, r4, if_true, if_false, List.drop_succ_cons,
            List.drop_zero, List.cons_append, List.nil_append, List.length_cons, List.length_nil]
          refine ⟨?_, trivial⟩
          congr 1
          · omega
          · congr 1
            · omega
            · congr 1
              omega
        match t2 with
        | [] => left; simp [DecodeRuneInString, h0, h1, h2, h3, h4, h5]
        | s3 :: t3 =>
          by_cases h6 : s3 < 0x80 ∨ 0xBF < s3
          · left; simp [DecodeRuneInString, h0, h1, h2, h3, h4, h5, h6]
          right
          simp only [DecodeRuneInString, h0, h1, h2, h3, h4, h5, h6, if_true, if_false]
          generalize hr : s0 % 0x08 * 0x40000 + s1 % 0x40 * 0x1000 + s2 % 0x40 * 0x40 + s3 % 0x40 = r
          have r1 : ¬ (r < 0x80) := by omega
          have r2 : ¬ (r < 0x800) := by omega
          have r3 : ¬ (0x10FFFF < r ∨ (0xD800 ≤ r ∧ r ≤ 0xDFFF)) := by omega
          have r4 : ¬ (r < 0x10000) := by omega
          simp only [EncodeRune, r1, r2, r3, r4, if_true, if_false, List.drop_succ_cons,
            List.drop_zero, List.cons_append, List.nil_append, List.length_cons, List.length_nil]
          refine ⟨?_, trivial⟩
          congr 1
          · omega
          · congr 1
            · omega
            · congr 1
              · omega
              · congr 1
                omega

theorem Encode_Decode_space (x : GoString) (h : IsSpace (DecodeRuneInString x).1 = true) :
    x = EncodeRune (DecodeRuneInString x).1 ++ x.drop (DecodeRuneInString x).2
    ∧ (DecodeRuneInString x).2 = (EncodeRune (DecodeRuneInString x).1).length := by
  rcases Encode_Decode x with he | hv
  · rw [he, IsSpace_RuneError] at h
    exact absurd h (by simp)
  · exact hv

theorem whitespaceOnly_nil : whitespaceOnly [] := ⟨[], by simp, by simp⟩

theorem whitespaceOnly_rune {r : Nat} {t : GoString} (hr : IsSpace r = true)
    (ht : whitespaceOnly t) : whitespaceOnly (EncodeRune r ++ t) := by
  obtain ⟨rs, h1, h2⟩ := ht
  refine ⟨r :: rs, ?_, by simp [h2]⟩
  intro x hx
  rcases List.mem_cons.1 hx with rfl | hx
  · exact hr
  · exact h1 x hx

theorem whitespaceOnly_append {a b : GoString} (ha : whitespaceOnly a) (hb : whitespaceOnly b) :
    whitespaceOnly (a ++ b) := by
  obtain ⟨ra, h1, h2⟩ := ha
  obtain ⟨rb, h3, h4⟩ := hb
  refine ⟨ra ++ rb, ?_, by simp [h2, h4]⟩
  intro x hx
  rcases List.mem_append.1 hx with hx | hx
  · exact h1 x hx
  · exact h3 x hx

theorem whitespaceOnly_ascii {c : Nat} {t : GoString} (hc : asciiSpace c = true)
    (ht : whitespaceOnly t) : whitespaceOnly (c :: t) := by
  have h := whitespaceOnly_rune (asciiSpace_IsSpace hc).1 ht
  have hlt := (asciiSpace_IsSpace hc).2
  simpa [EncodeRune, hlt] using h

theorem whitespaceOnly_first {u : GoString} (h : whitespaceOnly u) (hu : u ≠ []) :
    IsSpace (DecodeRuneInString u).1 = true := by
  obtain ⟨rs, h1, h2⟩ := h
  match rs with
  | [] => simp at h2; exact absurd h2 hu
  | r :: rs =>
    have hr : IsSpace r = true := h1 r (by simp)
    rw [h2, List.flatMap_cons, (Decode_Encode_space hr _).1]
    exact hr

theorem Decode_size_pos (s0 : Nat) (t : GoString) : 1 ≤ (DecodeRuneInString (s0 :: t)).2 := by
  match t with
  | [] => simp only [DecodeRuneInString]; split_ifs <;> simp
  | [s1] => simp only [DecodeRuneInString]; split_ifs <;> simp
  | [s1, s2] => simp only [DecodeRuneInString]; split_ifs <;> simp
  | s1 :: s2 :: s3 :: _ => simp only [DecodeRuneInString]; split_ifs <;> simp

/-! ### `TrimLeftFunc` -/

theorem trimLeftLoop_skip (f : Nat → Bool) (k : Nat) (s : GoString) :
    trimLeftLoop f k s = trimLeftLoop f 0 (s.drop k) := by
  induction s generalizing k with
  | nil => cases k <;> simp [trimLeftLoop]
  | cons c t ih =>
    cases k with
    | zero => simp
    | succ k => simp [trimLeftLoop, ih k]

theorem trimLeftLoop_space (x : GoString) (h : IsSpace (DecodeRuneInString x).1 = true) :
    trimLeftLoop IsSpace 0 x = trimLeftLoop IsSpace 0 (x.drop (DecodeRuneInString x).2) := by
  match x with
  | [] => simp [DecodeRuneInString, IsSpace_RuneError] at h
  | c :: t =>
    have hp := Decode_size_pos c t
    rw [trimLeftLoop, if_pos h, trimLeftLoop_skip]
    congr 1
    generalize (DecodeRuneInString (c :: t)).2 = n at hp
    cases n with
    | zero => omega
    | succ n => simp

theorem TrimLeftFunc_whitespaceOnly {s : GoString} (h : whitespaceOnly s) :
    TrimLeftFunc s IsSpace = [] := by
  obtain ⟨rs, h1, h2⟩ := h
  subst h2
  unfold TrimLeftFunc
  induction rs with
  | nil => simp [trimLeftLoop]
  | cons r rs ih =>
    have hr : IsSpace r = true := h1 r (by simp)
    have hd := Decode_Encode_space hr (rs.flatMap EncodeRune)
    rw [List.flatMap_cons, trimLeftLoop_space _ (by rw [hd.1]; exact hr), hd.1]
    simp only [List.drop_left]
    exact ih (fun x hx => h1 x (by simp [hx]))

theorem TrimLeftFunc_spec_aux (n : Nat) : ∀ s : GoString, s.length ≤ n →
    ∃ p, whitespaceOnly p ∧ s = p ++ trimLeftLoop IsSpace 0 s
      ∧ (trimLeftLoop IsSpace 0 s = []
          ∨ IsSpace (DecodeRuneInString (trimLeftLoop IsSpace 0 s)).1 = false) := by
  induction n with
  | zero =>
    intro s hs
    have : s = [] := List.length_eq_zero.1 (by omega)
    subst this
    exact ⟨[], whitespaceOnly_nil, by simp [trimLeftLoop], Or.inl (by simp [trimLeftLoop])⟩
  | succ n ih =>
    intro s hs
    match s with
    | [] => exact ⟨[], whitespaceOnly_nil, by simp [trimLeftLoop], Or.inl (by simp [trimLeftLoop])⟩
    | c :: t =>
      by_cases hsp : IsSpace (DecodeRuneInString (c :: t)).1 = true
      · have he := Encode_Decode_space (c :: t) hsp
        have hp := Decode_size_pos c t
        rw [trimLeftLoop_space _ hsp]
        have hlen : ((c :: t).drop (DecodeRuneInString (c :: t)).2).length ≤ n := by
          rw [List.length_drop]
          simp only [List.length_cons] at hs ⊢
          omega
        obtain ⟨p, hp1, hp2, hp3⟩ := ih _ hlen
        refine ⟨EncodeRune (DecodeRuneInString (c :: t)).1 ++ p, whitespaceOnly_rune hsp hp1, ?_, hp3⟩
        rw [List.append_assoc, ← hp2]
        exact he.1
      · have hf : IsSpace (DecodeRuneInString (c :: t)).1 = false := by simpa using hsp
        refine ⟨[], whitespaceOnly_nil, ?_, Or.inr ?_⟩
        · simp [trimLeftLoop, hf]
        · simp [trimLeftLoop, hf]

/-- What `TrimLeftFunc` removes is white space, and what it leaves does not
start with white space. -/
theorem TrimLeftFunc_spec (s : GoString) :
    ∃ p, whitespaceOnly p ∧ s = p ++ TrimLeftFunc s IsSpace
      ∧ (TrimLeftFunc s IsSpace = []
          ∨ IsSpace (DecodeRuneInString (TrimLeftFunc s IsSpace)).1 = false) :=
  TrimLeftFunc_spec_aux s.length s (Nat.le_refl _)

/-! ### `TrimRightFunc` -/

theorem trimRightLoop_skip (f : Nat → Bool) (k : Nat) (s : GoString) :
    trimRightLoop f k s = trimRightLoop f 0 (s.drop k) := by
  induction s generalizing k with
  | nil => cases k <;> simp [trimRightLoop]
  | cons c t ih =>
    cases k with
    | zero => simp
    | succ k => simp [trimRightLoop, ih k]

/-- The helper `ending` of `DecodeLastRune`, when it finds white space. -/
theorem ending_space (enc : GoString)
    (h : IsSpace (if (DecodeRuneInString enc).2 = enc.length then DecodeRuneInString enc
      else (RuneError, 1)).1 = true) :
    (if (DecodeRuneInString enc).2 = enc.length then DecodeRuneInString enc else (RuneError, 1))
      = (DecodeRuneInString enc)
    ∧ IsSpace (DecodeRuneInString enc).1 = true
    ∧ enc = EncodeRune (DecodeRuneInString enc).1
    ∧ (DecodeRuneInString enc).2 = enc.length := by
  by_cases hl : (DecodeRuneInString enc).2 = enc.length
  · rw [if_pos hl] at h
    have he := Encode_Decode_space enc h
    refine ⟨by rw [if_pos hl], h, ?_, hl⟩
    have hd : enc.drop (DecodeRuneInString enc).2 = [] := by rw [hl]; simp
    rw [hd, List.append_nil] at he
    exact he.1
  · rw [if_neg hl] at h
    simp [IsSpace_RuneError] at h

/-- A last rune that is white space was written by `EncodeRune`. -/
theorem DecodeLast_space (rev : GoString) (h : IsSpace (DecodeLastRune rev).1 = true) :
    rev = (EncodeRune (DecodeLastRune rev).1).reverse ++ rev.drop (DecodeLastRune rev).2
    ∧ 1 ≤ (DecodeLastRune rev).2 := by
  match rev with
  | [] => simp [DecodeLastRune, IsSpace_RuneError] at h
  | b0 :: r0 =>
    by_cases h0 : b0 < 0x80
    · simp [DecodeLastRune, h0, EncodeRune]
    match r0 with
    | [] =>
      simp only [DecodeLastRune, h0, if_false] at h ⊢
      obtain ⟨e1, _, e3, e4⟩ := ending_space _ h
      rw [e1, ← e3, e4]
      simp
    | b1 :: r1 =>
      by_cases h1 : RuneStart b1 = true
      · simp only [DecodeLastRune, h0, h1, if_true, if_false] at h ⊢
        obtain ⟨e1, _, e3, e4⟩ := ending_space _ h
        rw [e1, ← e3, e4]
        simp
      match r1 with
      | [] => simp [DecodeLastRune, h0, h1, IsSpace_RuneError] at h
      | b2 :: r2 =>
        by_cases h2 : RuneStart b2 = true
        · simp only [DecodeLastRune, h0, h1, h2, if_true, if_false, Bool.false_eq_true] at h ⊢
          obtain ⟨e1, _, e3, e4⟩ := ending_space _ h
          rw [e1, ← e3, e4]
          simp
        match r2 with
        | [] => simp [DecodeLastRune, h0, h1, h2, IsSpace_RuneError] at h
        | b3 :: r3 =>
          by_cases h3 : RuneStart b3 = true
          · simp only [DecodeLastRune, h0, h1, h2, h3, if_true, if_false, Bool.false_eq_true] at h ⊢
            obtain ⟨e1, _, e3, e4⟩ := ending_space _ h
            rw [e1, ← e3, e4]
            simp
          · simp [DecodeLastRune, h0, h1, h2, h3, IsSpace_RuneError] at h

theorem trimRightLoop_nil_aux (n : Nat) : ∀ rev : GoString, rev.length ≤ n →
    trimRightLoop IsSpace 0 rev = [] → whitespaceOnly rev.reverse := by
  induction n with
  | zero =>
    intro rev hs _
    have : rev = [] := List.length_eq_zero.1 (by omega)
    subst this
    exact whitespaceOnly_nil
  | succ n ih =>
    intro rev hs ht
    match rev with
    | [] => exact whitespaceOnly_nil
    | b :: r =>
      by_cases hsp : IsSpace (DecodeLastRune (b :: r)).1 = true
      · have he := DecodeLast_space (b :: r) hsp
        rw [trimRightLoop, if_pos hsp, trimRightLoop_skip] at ht
        have hd : r.drop ((DecodeLastRune (b :: r)).2 - 1)
            = (b :: r).drop (DecodeLastRune (b :: r)).2 := by
          generalize (DecodeLastRune (b :: r)).2 = k at he
          cases k with
          | zero => omega
          | succ k => simp
        rw [hd] at ht
        have hlen : ((b :: r).drop (DecodeLastRune (b :: r)).2).length ≤ n := by
          rw [List.length_drop]
          simp only [List.length_cons] at hs ⊢
          omega
        have hw := ih _ hlen ht
        have hrev : (b :: r).reverse = ((b :: r).drop (DecodeLastRune (b :: r)).2).reverse
            ++ EncodeRune (DecodeLastRune (b :: r)).1 := by
          conv_lhs => rw [he.1]
          simp
        rw [hrev]
        have hone : whitespaceOnly (EncodeRune (DecodeLastRune (b :: r)).1) := by
          simpa using whitespaceOnly_rune hsp whitespaceOnly_nil
        exact whitespaceOnly_append hw hone
      · have hf : IsSpace (DecodeLastRune (b :: r)).1 = false := by simpa using hsp
        simp [trimRightLoop, hf] at ht

/-- `TrimRightFunc` leaves something of a string that does not start with white space. -/
theorem TrimRightFunc_ne_nil (u : GoString) (hu : u ≠ [])
    (hf : IsSpace (DecodeRuneInString u).1 = false) : TrimRightFunc u IsSpace ≠ [] := by
  have hk : trimRightLoop IsSpace 0 u.reverse ≠ [] := by
    intro hnil
    have hw := trimRightLoop_nil_aux u.reverse.length u.reverse (Nat.le_refl _) hnil
    rw [List.reverse_reverse] at hw
    rw [whitespaceOnly_first hw hu] at hf
    exact absurd hf (by simp)
  unfold TrimRightFunc
  simp only [List.reverse_eq_nil_iff, hk, if_false]
  match u with
  | [] => exact absurd rfl hu
  | c :: t =>
    split
    · intro hnil
      rw [List.take_eq_nil_iff] at hnil
      rcases hnil with hz | hz
      · have hi : (trimRightLoop IsSpace 0 (c :: t).reverse).reverse.length
            - (DecodeLastRune (trimRightLoop IsSpace 0 (c :: t).reverse).reverse.reverse).2 = 0 := by
          omega
        rw [hi] at hz
        have := Decode_size_pos c t
        simp only [List.drop_zero] at hz
        omega
      · simp at hz
    · simp

/-- The second loop of `TrimSpace` leaves something when the string starts with
an ASCII byte that is not white space. -/
theorem trimSpaceBack_ne_nil (c : Nat) (hc : c < 0x80) (hs : asciiSpace c = false) :
    ∀ l : GoString, trimSpaceBack (l ++ [c]) ≠ [] := by
  have hcs : IsSpace c = false := by
    simp only [asciiSpace, Bool.or_eq_false_iff, decide_eq_false_iff_not] at hs
    have h1 : c ≤ 0xFF := by omega
    simp only [IsSpace, h1, if_true, Bool.or_eq_false_iff, decide_eq_false_iff_not]
    omega
  intro l
  induction l with
  | nil =>
    have h1 : ¬ 0x80 ≤ c := by omega
    simp [trimSpaceBack, h1, hs]
  | cons d l ih =>
    rw [List.cons_append, trimSpaceBack]
    split
    · apply TrimRightFunc_ne_nil
      · simp
      · have : (d :: (l ++ [c])).reverse = c :: (l.reverse ++ [d]) := by simp
        rw [this]
        simp [DecodeRuneInString, hc, hcs]
    · split
      · exact ih
      · simp

theorem TrimSpace_nil_iff (s : GoString) : TrimSpace s = [] ↔ whitespaceOnly s := by
  constructor
  · intro h
    induction s with
    | nil => exact whitespaceOnly_nil
    | cons c t ih =>
      rw [TrimSpace] at h
      split at h
      · obtain ⟨p, hp1, hp2, hp3⟩ := TrimLeftFunc_spec (c :: t)
        unfold TrimFunc at h
        by_cases hnil : TrimLeftFunc (c :: t) IsSpace = []
        · rw [hnil, List.append_nil] at hp2
          rw [hp2]; exact hp1
        · rcases hp3 with hp3 | hp3
          · exact absurd hp3 hnil
          · exact absurd h (TrimRightFunc_ne_nil _ hnil hp3)
      · split at h
        · rename_i hsp
          exact whitespaceOnly_ascii hsp (ih h)
        · rename_i h80 hsp
          have : (c :: t).reverse = t.reverse ++ [c] := by simp
          rw [this] at h
          exact absurd h (trimSpaceBack_ne_nil c (by omega) (by simpa using hsp) _)
  · rintro ⟨rs, h1, h2⟩
    subst h2
    induction rs with
    | nil => rfl
    | cons r rs ih =>
      have hr : IsSpace r = true := h1 r (by simp)
      have ih2 := ih (fun x hx => h1 x (by simp [hx]))
      rw [List.flatMap_cons]
      rcases IsSpace_shape hr with ⟨hlt, hsp⟩ | hbig
      · have h80 : ¬ 0x80 ≤ r := by omega
        simp [EncodeRune, hlt, TrimSpace, h80, hsp, ih2]
      · have hws : whitespaceOnly (EncodeRune r ++ rs.flatMap EncodeRune) :=
          whitespaceOnly_rune hr ⟨rs, fun x hx => h1 x (by simp [hx]), rfl⟩
        have htl := TrimLeftFunc_whitespaceOnly hws
        have hhead : ∃ b t, EncodeRune r = b :: t ∧ 0x80 ≤ b := by
          unfold EncodeRune
          split
          · omega
          · split
            · exact ⟨_, _, rfl, by omega⟩
            · split
              · exact ⟨_, _, rfl, by omega⟩
              · split
                · exact ⟨_, _, rfl, by omega⟩
                · exact ⟨_, _, rfl, by omega⟩
        obtain ⟨b, t, hbt, hb⟩ := hhead
        rw [hbt] at htl ⊢
        rw [List.cons_append] at htl ⊢
        rw [TrimSpace, if_pos hb, TrimFunc, htl]
        simp [TrimRightFunc, trimRightLoop]

/-- `IsStringEmpty` holds of exactly the strings made of white space only. -/
theorem IsStringEmpty_iff (s : GoString) : IsStringEmpty s = true ↔ whitespaceOnly s := by
  rw [← TrimSpace_nil_iff]
  simp [IsStringEmpty]

/-! ## C1, C2, C3: `NewClient` -/

theorem sandboxUrl_parsed : (Parse sandboxUrl).toOption.map URL.String = some sandboxUrl := by
  decide

theorem sandboxUrl_ne_liveUrl : sandboxUrl ≠ liveUrl := by decide

theorem NewClient_of_not_empty (secret environment : GoString) (h : IsStringEmpty secret = false) :
    NewClient secret environment =
      (some { c := some { Transport := { secret := secret }, Timeout := 10 },
              baseURL := (Parse sandboxUrl).toOption, secret := secret }, none) := by
  unfold NewClient
  by_cases he : environment = bytes "live" <;> simp [h, he]

/-- C1. For a secret that is empty or made of white space only, and any
environment, `NewClient` returns no client and a non-nil error. -/
theorem NewClient_rejects_blank (secret environment : GoString) (h : whitespaceOnly secret) :
    NewClient secret environment = (none, some (.text "please provide your secret key")) := by
  have he : IsStringEmpty secret = true := (IsStringEmpty_iff secret).2 h
  simp [NewClient, he]

/-- C1 at the secret made of a space, a tab and a no-break space. -/
theorem NewClient_rejects_blank_witness :
    whitespaceOnly (bytes " \t ")
    ∧ NewClient (bytes " \t ") (bytes "live")
        = (none, some (.text "please provide your secret key")) :=
  ⟨⟨[0x20, 0x09, 0xA0], by decide, by decide⟩,
   NewClient_rejects_blank (bytes " \t ") (bytes "live") ⟨[0x20, 0x09, 0xA0], by decide, by decide⟩⟩

/-- C2, what the code does. For a secret that is not blank, `NewClient(secret, "live")`
succeeds and stores the secret, but the base URL it leaves is the sandbox
endpoint, not the live one: the assignment of the sandbox URL follows the `if`
unconditionally. -/
theorem NewClient_live_is_sandbox (secret : GoString) (h : ¬ whitespaceOnly secret) :
    ∃ c, NewClient secret (bytes "live") = (some c, none) ∧ c.secret = secret
      ∧ c.baseURL.map URL.String = some sandboxUrl
      ∧ c.baseURL.map URL.String ≠ some liveUrl := by
  have he : IsStringEmpty secret = false := by
    cases hb : IsStringEmpty secret
    · rfl
    · exact absurd ((IsStringEmpty_iff secret).1 hb) h
  refine ⟨_, NewClient_of_not_empty secret (bytes "live") he, rfl, sandboxUrl_parsed, ?_⟩
  show (Parse sandboxUrl).toOption.map URL.String ≠ some liveUrl
  rw [sandboxUrl_parsed]
  intro hc
  exact sandboxUrl_ne_liveUrl (Option.some.inj hc)

/-- C2 at the secret `sk_live_1`. -/
theorem NewClient_live_is_sandbox_witness :
    ¬ whitespaceOnly (bytes "sk_live_1")
    ∧ ∃ c, NewClient (bytes "sk_live_1") (bytes "live") = (some c, none)
      ∧ c.secret = bytes "sk_live_1"
      ∧ c.baseURL.map URL.String = some sandboxUrl
      ∧ c.baseURL.map URL.String ≠ some liveUrl :=
  ⟨fun h => absurd ((IsStringEmpty_iff _).2 h) (by decide),
   NewClient_live_is_sandbox (bytes "sk_live_1")
     (fun h => absurd ((IsStringEmpty_iff _).2 h) (by decide))⟩

/-- C3. For a secret that is not blank and an environment other than `live`,
`NewClient` succeeds, the client stores the secret, and its base URL is the
sandbox endpoint `https://sandbox.api.maplerad.com`. -/
theorem NewClient_sandbox (secret environment : GoString) (h : ¬ whitespaceOnly secret)
    (_henv : environment ≠ bytes "live") :
    ∃ c, NewClient secret environment = (some c, none) ∧ c.secret = secret
      ∧ c.baseURL.map URL.String = some (bytes "https://sandbox.api.maplerad.com") := by
  have he : IsStringEmpty secret = false := by
    cases hb : IsStringEmpty secret
    · rfl
    · exact absurd ((IsStringEmpty_iff secret).1 hb) h
  exact ⟨_, NewClient_of_not_empty secret environment he, rfl, sandboxUrl_parsed⟩

/-- C3 at the secret `sk_test` and the empty environment. -/
theorem NewClient_sandbox_witness :
    (¬ whitespaceOnly (bytes "sk_test") ∧ ([] : GoString) ≠ bytes "live")
    ∧ ∃ c, NewClient (bytes "sk_test") [] = (some c, none) ∧ c.secret = bytes "sk_test"
      ∧ c.baseURL.map URL.String = some (bytes "https://sandbox.api.maplerad.com") :=
  ⟨⟨fun h => absurd ((IsStringEmpty_iff _).2 h) (by decide), by decide⟩,
   NewClient_sandbox (bytes "sk_test") []
     (fun h => absurd ((IsStringEmpty_iff _).2 h) (by decide)) (by decide)⟩

/-! ## The order of keys -/

theorem strLess_irrefl (a : GoString) : strLess a a = false := by
  induction a with
  | nil => rfl
  | cons x a ih => simp [strLess, ih]

theorem strLess_asymm : ∀ (a b : GoString), strLess a b = true → strLess b a = false
  | _, [] => by simp [strLess]
  | [], _ :: _ => by simp [strLess]
  | x :: a, y :: b => by
    intro h
    simp only [strLess, Bool.or_eq_true, decide_eq_true_eq, Bool.and_eq_true, beq_iff_eq] at h
    simp only [strLess, Bool.or_eq_false_iff, decide_eq_false_iff_not, Bool.and_eq_false_imp,
      beq_iff_eq]
    rcases h with h | ⟨h1, h2⟩
    · exact ⟨by omega, fun he => by omega⟩
    · exact ⟨by omega, fun _ => strLess_asymm a b h2⟩

theorem strLess_connected : ∀ (a b : GoString), strLess a b = false → strLess b a = false → a = b
  | [], [] => by simp
  | [], _ :: _ => by simp [strLess]
  | _ :: _, [] => by simp [strLess]
  | x :: a, y :: b => by
    intro h1 h2
    simp only [strLess, Bool.or_eq_false_iff, decide_eq_false_iff_not, Bool.and_eq_false_imp,
      beq_iff_eq] at h1 h2
    have hxy : x = y := by omega
    subst hxy
    rw [strLess_connected a b (h1.2 rfl) (h2.2 rfl)]

theorem strLess_negtrans : ∀ (a b c : GoString),
    strLess b a = false → strLess c b = false → strLess c a = false
  | [], _, _ => by
    intro _ _
    cases ‹GoString› <;> simp [strLess]
  | x :: a, [], c => by
    intro h
    simp [strLess] at h
  | x :: a, y :: b, [] => by
    intro _ h
    simp [strLess] at h
  | x :: a, y :: b, z :: c => by
    intro h1 h2
    simp only [strLess, Bool.or_eq_false_iff, decide_eq_false_iff_not, Bool.and_eq_false_imp,
      beq_iff_eq] at h1 h2 ⊢
    refine ⟨by omega, fun he => ?_⟩
    have hxy : y = x := by omega
    have hyz : z = y := by omega
    exact strLess_negtrans a b c (h1.2 hxy) (h2.2 hyz)

instance keyLE_total : IsTotal GoString keyLE :=
  ⟨fun a b => by
    unfold keyLE
    cases h : strLess b a
    · exact Or.inl rfl
    · exact Or.inr (strLess_asymm b a h)⟩

instance keyLE_trans : IsTrans GoString keyLE :=
  ⟨fun a b c hab hbc => strLess_negtrans a b c hab hbc⟩

instance keyLE_antisymm : IsAntisymm GoString keyLE :=
  ⟨fun a b hab hba => strLess_connected a b hba hab⟩

theorem insertKey_eq (k : GoString) (l : List GoString) :
    insertKey k l = List.orderedInsert keyLE k l := by
  induction l with
  | nil => rfl
  | cons a l ih =>
    simp only [insertKey, List.orderedInsert, keyLE]
    by_cases h : strLess a k = true <;> simp [h, ih]

theorem sortKeys_eq (l : List GoString) : sortKeys l = List.insertionSort keyLE l := by
  induction l with
  | nil => rfl
  | cons a l ih => simp [sortKeys, List.insertionSort, ih, insertKey_eq]

theorem sortKeys_perm {l1 l2 : List GoString} (h : l1.Perm l2) : sortKeys l1 = sortKeys l2 := by
  rw [sortKeys_eq, sortKeys_eq]
  exact List.eq_of_perm_of_sorted
    (((List.perm_insertionSort keyLE l1).trans h).trans (List.perm_insertionSort keyLE l2).symm)
    (List.sorted_insertionSort keyLE l1) (List.sorted_insertionSort keyLE l2)

/-! ## The keys of a map -/

theorem keys_store (key : GoString) (vs : List GoString) (m : Values) :
    (Values.store key vs m).map Prod.fst
      = if key ∈ m.map Prod.fst then m.map Prod.fst else m.map Prod.fst ++ [key] := by
  induction m with
  | nil => simp [Values.store]
  | cons e m ih =>
    obtain ⟨k, old⟩ := e
    by_cases h : k = key
    · subst h; simp [Values.store]
    · have h2 : ¬ key = k := fun e => h e.symm
      simp only [Values.store, h, if_false, List.map_cons, ih, List.mem_cons, h2, false_or]
      split <;> simp

theorem keys_store_nodup (key : GoString) (vs : List GoString) (m : Values)
    (h : (m.map Prod.fst).Nodup) : ((Values.store key vs m).map Prod.fst).Nodup := by
  rw [keys_store]
  split
  · exact h
  · rename_i hk
    exact List.Nodup.append h (List.nodup_singleton key) (by simpa using hk)

theorem mem_keys_store (key x : GoString) (vs : List GoString) (m : Values) :
    x ∈ (Values.store key vs m).map Prod.fst ↔ x = key ∨ x ∈ m.map Prod.fst := by
  rw [keys_store]
  split
  · rename_i hk
    constructor
    · exact Or.inr
    · rintro (h | h)
      · rw [h]; exact hk
      · exact h
  · simp only [List.mem_append, List.mem_singleton]
    tauto

/-! ## The query a call accumulates -/

theorem keys_Add_nodup (m : Values) (key value : GoString) (h : (m.map Prod.fst).Nodup) :
    ((Values.Add m key value).map Prod.fst).Nodup :=
  keys_store_nodup _ _ _ h

theorem lookup_addValues (q : Values) (k key : GoString) (w : List GoString) :
    Values.lookup (w.foldl (fun q iv => Values.Add q k iv) q) key
      = Values.lookup q key ++ (if k = key then w else []) := by
  induction w generalizing q with
  | nil => simp
  | cons iv w ih =>
    simp only [List.foldl_cons, ih]
    by_cases h : k = key
    · subst h; simp [Values.Add, lookup_store_same]
    · simp [Values.Add, lookup_store_other _ _ _ _ h, h]

theorem keys_addValues_nodup (q : Values) (k : GoString) (w : List GoString)
    (h : (q.map Prod.fst).Nodup) :
    ((w.foldl (fun q iv => Values.Add q k iv) q).map Prod.fst).Nodup := by
  induction w generalizing q with
  | nil => exact h
  | cons iv w ih => exact ih _ (keys_Add_nodup q k iv h)

theorem mem_keys_addValues (q : Values) (k x : GoString) (w : List GoString) :
    x ∈ (w.foldl (fun q iv => Values.Add q k iv) q).map Prod.fst
      ↔ x ∈ q.map Prod.fst ∨ (x = k ∧ w ≠ []) := by
  induction w generalizing q with
  | nil => simp
  | cons iv w ih =>
    rw [List.foldl_cons, ih, Values.Add, mem_keys_store]
    constructor
    · rintro ((h | h) | ⟨h, _⟩)
      · exact Or.inr ⟨h, by simp⟩
      · exact Or.inl h
      · exact Or.inr ⟨h, by simp⟩
    · rintro (h | ⟨h, _⟩)
      · exact Or.inl (Or.inr h)
      · exact Or.inl (Or.inl h)

theorem lookup_addQueryParams (q queryParams : Values) (key : GoString) :
    Values.lookup (addQueryParams q queryParams) key
      = Values.lookup q key ++ supplied queryParams key := by
  induction queryParams generalizing q with
  | nil => simp [addQueryParams, supplied]
  | cons kw rest ih =>
    have ih2 := ih (kw.2.foldl (fun q iv => Values.Add q kw.1 iv) q)
    simp only [addQueryParams, List.foldl_cons] at ih2 ⊢
    rw [ih2, lookup_addValues]
    by_cases h : kw.1 = key
    · simp [supplied, List.filter_cons, h]
    · simp [supplied, List.filter_cons, h]

theorem keys_addQueryParams_nodup (q queryParams : Values) (h : (q.map Prod.fst).Nodup) :
    ((addQueryParams q queryParams).map Prod.fst).Nodup := by
  induction queryParams generalizing q with
  | nil => exact h
  | cons kw rest ih =>
    simp only [addQueryParams, List.foldl_cons]
    exact ih _ (keys_addValues_nodup q kw.1 kw.2 h)

theorem mem_keys_addQueryParams (q queryParams : Values) (x : GoString) :
    x ∈ (addQueryParams q queryParams).map Prod.fst
      ↔ x ∈ q.map Prod.fst ∨ ∃ kw ∈ queryParams, kw.1 = x ∧ kw.2 ≠ [] := by
  induction queryParams generalizing q with
  | nil => simp [addQueryParams]
  | cons kw rest ih =>
    have ih2 := ih (kw.2.foldl (fun q iv => Values.Add q kw.1 iv) q)
    simp only [addQueryParams, List.foldl_cons] at ih2 ⊢
    rw [ih2, mem_keys_addValues]
    constructor
    · rintro ((h | ⟨h, hw⟩) | ⟨e, he, h⟩)
      · exact Or.inl h
      · exact Or.inr ⟨kw, by simp, h.symm, hw⟩
      · exact Or.inr ⟨e, by simp [he], h⟩
    · rintro (h | ⟨e, he, h1, h2⟩)
      · exact Or.inl (Or.inl h)
      · rcases List.mem_cons.1 he with rfl | he
        · exact Or.inl (Or.inr ⟨h1.symm, h2⟩)
        · exact Or.inr ⟨e, he, h1, h2⟩

theorem filter_key_length_le_one (m : Values) (key : GoString) (h : (m.map Prod.fst).Nodup) :
    (m.filter (fun kw => kw.1 = key)).length ≤ 1 := by
  induction m with
  | nil => simp
  | cons e m ih =>
    rw [List.map_cons, List.nodup_cons] at h
    by_cases he : e.1 = key
    · have hnone : m.filter (fun kw => kw.1 = key) = [] := by
        rw [List.filter_eq_nil_iff]
        intro a ha hk
        apply h.1
        rw [he]
        simp only [decide_eq_true_eq] at hk
        rw [← hk]
        exact List.mem_map_of_mem Prod.fst ha
      simp [List.filter_cons, he, hnone]
    · simp only [List.filter_cons, he, decide_False]
      exact ih h.2

theorem supplied_perm {qp1 qp2 : Values} (hp : qp1.Perm qp2) (hn : (qp1.map Prod.fst).Nodup)
    (key : GoString) : supplied qp1 key = supplied qp2 key := by
  have hf : (qp1.filter (fun kw => kw.1 = key)).Perm (qp2.filter (fun kw => kw.1 = key)) :=
    hp.filter _
  have hl := filter_key_length_le_one qp1 key hn
  have heq : qp1.filter (fun kw => kw.1 = key) = qp2.filter (fun kw => kw.1 = key) := by
    generalize qp1.filter (fun kw => kw.1 = key) = f1 at hf hl
    match f1, hl with
    | [], _ => exact (List.nil_perm.1 hf).symm
    | [a], _ => exact List.singleton_perm.1 hf
    | _ :: _ :: _, hl => simp at hl
  simp [supplied, heq]

/-- `Encode` reads a map through its keys and the values under each key only. -/
theorem Encode_congr {v1 v2 : Values} (hk : (v1.map Prod.fst).Perm (v2.map Prod.fst))
    (hl : ∀ key, Values.lookup v1 key = Values.lookup v2 key) :
    Values.Encode v1 = Values.Encode v2 := by
  have hlen : v1.length = v2.length := by simpa using hk.length_eq
  have hf : encodeKey v1 = encodeKey v2 := by
    funext buf key
    simp [encodeKey, hl]
  simp [Values.Encode, hlen, sortKeys_perm hk, hf]

theorem Encode_addQueryParams_perm (q : Values) {qp1 qp2 : Values} (hq : (q.map Prod.fst).Nodup)
    (hp : qp1.Perm qp2) (hn : (qp1.map Prod.fst).Nodup) :
    Values.Encode (addQueryParams q qp1) = Values.Encode (addQueryParams q qp2) := by
  apply Encode_congr
  · rw [List.perm_ext_iff_of_nodup (keys_addQueryParams_nodup q qp1 hq)
      (keys_addQueryParams_nodup q qp2 hq)]
    intro x
    rw [mem_keys_addQueryParams, mem_keys_addQueryParams]
    constructor
    · rintro (h | ⟨e, he, h⟩)
      · exact Or.inl h
      · exact Or.inr ⟨e, hp.mem_iff.1 he, h⟩
    · rintro (h | ⟨e, he, h⟩)
      · exact Or.inl h
      · exact Or.inr ⟨e, hp.mem_iff.2 he, h⟩
  · intro key
    rw [lookup_addQueryParams, lookup_addQueryParams, supplied_perm hp hn]

theorem parseQueryStep_nodup (m : Values) (piece : GoString) (h : (m.map Prod.fst).Nodup) :
    ((parseQueryStep m piece).map Prod.fst).Nodup := by
  unfold parseQueryStep
  split
  · exact h
  · split
    · exact h
    · split
      · exact h
      · split
        · exact h
        · exact keys_Add_nodup _ _ _ h

theorem Query_nodup (u : URL) : ((URL.Query u).map Prod.fst).Nodup := by
  unfold URL.Query
  generalize Split 0x26 u.RawQuery = pieces
  have : ∀ (m : Values), (m.map Prod.fst).Nodup →
      ((pieces.foldl parseQueryStep m).map Prod.fst).Nodup := by
    induction pieces with
    | nil => intro m h; exact h
    | cons p ps ih => intro m h; exact ih _ (parseQueryStep_nodup m p h)
  exact this [] (by simp)

theorem supplied_eq_lookup (m : Values) (key : GoString) (h : (m.map Prod.fst).Nodup) :
    supplied m key = Values.lookup m key := by
  induction m with
  | nil => simp [supplied, Values.lookup]
  | cons e m ih =>
    obtain ⟨k, vs⟩ := e
    rw [List.map_cons, List.nodup_cons] at h
    by_cases he : k = key
    · have hnone : m.filter (fun kw => kw.1 = key) = [] := by
        rw [List.filter_eq_nil_iff]
        intro a ha hk
        apply h.1
        simp only [decide_eq_true_eq] at hk
        have hmem : a.1 ∈ m.map Prod.fst := List.mem_map_of_mem Prod.fst ha
        rw [hk, ← he] at hmem
        exact hmem
      simp [supplied, Values.lookup, List.filter_cons, he, hnone]
    · have := ih h.2
      simp only [supplied] at this
      simp [supplied, Values.lookup, List.filter_cons, he, this]

/-! ## Strings: cutting and searching -/

theorem Cut_not_mem (sep : Nat) (s : GoString) (h : sep ∉ s) : Cut sep s = (s, [], false) := by
  induction s with
  | nil => rfl
  | cons c t ih =>
    have hc : c ≠ sep := fun e => h (by simp [e])
    have ht : sep ∉ t := fun e => h (by simp [e])
    simp [Cut, hc, ih ht]

theorem Cut_append (sep : Nat) (a b : GoString) (h : sep ∉ a) :
    Cut sep (a ++ sep :: b) = (a, b, true) := by
  induction a with
  | nil => simp [Cut]
  | cons c t ih =>
    have hc : c ≠ sep := fun e => h (by simp [e])
    have ht : sep ∉ t := fun e => h (by simp [e])
    simp [Cut, hc, ih ht]

theorem mem_Cut_fst (sep x : Nat) (s : GoString) (h : x ∈ (Cut sep s).1) : x ∈ s := by
  induction s with
  | nil => simp [Cut] at h
  | cons c t ih =>
    by_cases hc : c = sep
    · simp [Cut, hc] at h
    · simp only [Cut, hc, if_false, List.mem_cons] at h ⊢
      rcases h with h | h
      · exact Or.inl h
      · exact Or.inr (ih h)

theorem Index_append (sep : Nat) (a b : GoString) (h : sep ∉ a) :
    Index sep (a ++ sep :: b) = some a.length := by
  induction a with
  | nil => simp [Index]
  | cons c t ih =>
    have hc : c ≠ sep := fun e => h (by simp [e])
    have ht : sep ∉ t := fun e => h (by simp [e])
    simp [Index, hc, ih ht]

theorem count_eq_zero_of_not_mem (sep : Nat) (s : GoString) (h : sep ∉ s) : s.count sep = 0 :=
  List.count_eq_zero_of_not_mem h

theorem isSuffixOf_singleton_append (x : Nat) (a q : GoString) (hq : q ≠ []) (hx : x ∉ q) :
    ([x] : GoString).isSuffixOf (a ++ q) = false := by
  cases hb : ([x] : GoString).isSuffixOf (a ++ q) with
  | false => rfl
  | true =>
    rw [List.isSuffixOf_iff_suffix] at hb
    obtain ⟨t, ht⟩ := hb
    have hlast : (a ++ q).getLast? = some x := by rw [← ht]; simp
    rw [List.getLast?_append_of_ne_nil _ hq] at hlast
    exact absurd (List.mem_of_getLast?_eq_some hlast) hx

theorem isSuffixOf_singleton_not_mem (x : Nat) (s : GoString) (hx : x ∉ s) :
    ([x] : GoString).isSuffixOf s = false := by
  cases hb : ([x] : GoString).isSuffixOf s with
  | false => rfl
  | true =>
    rw [List.isSuffixOf_iff_suffix] at hb
    obtain ⟨t, ht⟩ := hb
    exact absurd (by rw [← ht]; simp) hx

/-! ## Paths that `net/url` keeps as written -/

theorem bytes_marks : bytes "-_.~" = [0x2D, 0x5F, 0x2E, 0x7E] := by decide
theorem bytes_reserved : bytes "$&+,/:;=?@" = [0x24, 0x26, 0x2B, 0x2C, 0x2F, 0x3A, 0x3B, 0x3D, 0x3F, 0x40] := by
  decide
theorem bytes_subdelims :
    bytes "!$&'()*+,;=:@"
      = [0x21, 0x24, 0x26, 0x27, 0x28, 0x29, 0x2A, 0x2B, 0x2C, 0x3B, 0x3D, 0x3A, 0x40] := by
  decide
theorem bytes_brackets : bytes "[]" = [0x5B, 0x5D] := by decide

theorem alnum_range {c : Nat} (h : (isAlpha c || isDigit c) = true) : 0x30 ≤ c ∧ c ≤ 0x7A ∧
    c ≠ 0x3A ∧ c ≠ 0x3F := by
  simp only [isAlpha, isDigit, Bool.or_eq_true, Bool.and_eq_true, decide_eq_true_eq] at h
  omega

theorem shouldEscape_path_facts {c : Nat} (h : shouldEscape c encodePath = false) :
    0x20 < c ∧ c < 0x7F ∧ c ≠ 0x23 ∧ c ≠ 0x25 ∧ c ≠ 0x3F := by
  unfold shouldEscape at h
  split at h
  · rename_i ha
    have := alnum_range (by simpa using ha)
    omega
  · split at h
    · rename_i hx
      simp at hx
    · split at h
      · rename_i hx
        rw [bytes_marks] at hx
        simp only [List.mem_cons, List.mem_singleton, List.not_mem_nil, or_false] at hx
        omega
      · split at h
        · rename_i hx
          rw [bytes_reserved] at hx
          simp only [List.mem_cons, List.mem_singleton, List.not_mem_nil, or_false] at hx
          simp only [decide_eq_false_iff_not] at h
          omega
        · split at h
          · rename_i hx
            simp at hx
          · simp at h

theorem pathByte_facts {c : Nat} (h : pathByte c = true) :
    0x20 < c ∧ c < 0x7F ∧ c ≠ 0x23 ∧ c ≠ 0x3F := by
  simp only [pathByte, bytes_subdelims, bytes_brackets, Bool.or_eq_true, decide_eq_true_eq,
    Bool.not_eq_true'] at h
  rcases h with ((h | h) | h) | h
  · simp only [List.mem_cons, List.mem_singleton, List.not_mem_nil, or_false] at h
    omega
  · simp only [List.mem_cons, List.mem_singleton, List.not_mem_nil, or_false] at h
    omega
  · omega
  · have := shouldEscape_path_facts h
    omega

theorem validEncoded_path (s : GoString) :
    validEncoded s encodePath = true ↔ ∀ c ∈ s, pathByte c = true := by
  simp only [validEncoded, List.all_eq_true, pathByte]

theorem unescape_path_cons (c : Nat) (t : GoString) (hc : c ≠ 0x25) :
    unescape encodePath (c :: t)
      = (match unescape encodePath t with
         | .ok t2 => .ok (c :: t2)
         | .error e => .error e) := by
  have key : unescape encodePath (c :: t) =
      (if c = 0x2B then
        match unescape encodePath t with
        | .ok t2 => .ok (0x2B :: t2)
        | .error e => .error e
      else
        match unescape encodePath t with
        | .ok t2 => .ok (c :: t2)
        | .error e => .error e) := by
    match t with
    | [] => simp [unescape, hc]
    | [a] => by_cases hp : c = 0x2B <;> simp [unescape, hc, hp]
    | a :: b :: r => by_cases hp : c = 0x2B <;> simp [unescape, hc, hp]
  rw [key]
  by_cases hp : c = 0x2B
  · simp [hp]
  · simp [hp]

theorem escape_path_cons (c : Nat) (t : GoString) (hc : shouldEscape c encodePath = false) :
    escape (c :: t) encodePath = c :: escape t encodePath := by
  simp [escape, hc]

/-- What `setPath` stores. -/
theorem setPath_stored (u : URL) (p q : GoString) (h : unescape encodePath p = .ok q) :
    u.setPath p = .ok { u with Path := (storedPath p).1, RawPath := (storedPath p).2 } := by
  simp [URL.setPath, storedPath, h]

/-- `EscapedPath` gives back the text `setPath` was given. -/
theorem EscapedPath_stored (u : URL) (p q : GoString) (hv : validEncoded p encodePath = true)
    (hq : unescape encodePath p = .ok q) (hstar : q ≠ bytes "*")
    (hP : u.Path = (storedPath p).1) (hR : u.RawPath = (storedPath p).2) :
    u.EscapedPath = p := by
  simp only [storedPath, hq] at hP hR
  unfold URL.EscapedPath
  by_cases he : p = escape q encodePath
  · rw [if_pos he] at hR
    simp only [hR, hP, ne_eq, not_true_eq_false, false_and, if_false, hstar]
    exact he.symm
  · rw [if_neg he] at hR
    have hne : p ≠ [] := by
      intro h0
      subst h0
      simp [unescape] at hq
      subst hq
      exact he rfl
    simp [hR, hP, hne, hv, hq]

theorem storedPath_cons (c : Nat) (p q : GoString) (hc : shouldEscape c encodePath = false)
    (hq : unescape encodePath p = .ok q) :
    unescape encodePath (c :: p) = .ok (c :: q) := by
  rw [unescape_path_cons c p (shouldEscape_path_facts hc).2.2.2.1, hq]

theorem getSchemeFrom_segment (raw : GoString) : ∀ (rest seen : GoString),
    0x3A ∉ (Cut 0x2F rest).1 → getSchemeFrom raw seen rest = .ok ([], raw) := by
  intro rest
  induction rest with
  | nil => intro seen _; rfl
  | cons c t ih =>
    intro seen h
    by_cases hs : c = 0x2F
    · subst hs
      simp [getSchemeFrom, isAlpha, isDigit]
    · have hcut : (Cut 0x2F (c :: t)).1 = c :: (Cut 0x2F t).1 := by simp [Cut, hs]
      rw [hcut] at h
      have hc : c ≠ 0x3A := fun e => h (by simp [e])
      have ht : 0x3A ∉ (Cut 0x2F t).1 := fun e => h (by simp [e])
      rw [getSchemeFrom]
      split
      · exact ih _ ht
      · split
        · split
          · rfl
          · exact ih _ ht
        · simp [hc]

/-! ## Parsing the reference `v1` + path -/

theorem bytes_v1 : bytes "v1" = [0x76, 0x31] := by decide
theorem bytes_question : bytes "?" = [0x3F] := by decide
theorem bytes_slash : bytes "/" = [0x2F] := by decide
theorem bytes_slash2 : bytes "//" = [0x2F, 0x2F] := by decide
theorem bytes_slash3 : bytes "///" = [0x2F, 0x2F, 0x2F] := by decide
theorem bytes_star : bytes "*" = [0x2A] := by decide
theorem bytes_dot : bytes "." = [0x2E] := by decide
theorem bytes_dotdot : bytes ".." = [0x2E, 0x2E] := by decide

theorem pathByte_v1 (path : GoString) (h : ∀ c ∈ path, pathByte c = true) :
    ∀ c ∈ (0x76 :: 0x31 :: path), pathByte c = true := by
  intro c hc
  simp only [List.mem_cons] at hc
  rcases hc with rfl | rfl | hc
  · decide
  · decide
  · exact h c hc

theorem unescape_v1 (path q : GoString) (hq : unescape encodePath path = .ok q) :
    unescape encodePath (0x76 :: 0x31 :: path) = .ok (0x76 :: 0x31 :: q)
    ∧ unescape encodePath (0x2F :: 0x76 :: 0x31 :: path) = .ok (0x2F :: 0x76 :: 0x31 :: q) := by
  have h1 := storedPath_cons 0x31 path q (by decide) hq
  have h2 := storedPath_cons 0x76 _ _ (by decide) h1
  exact ⟨h2, storedPath_cons 0x2F _ _ (by decide) h2⟩

theorem not_CTL_of_pathBytes (s : GoString) (h : ∀ c ∈ s, pathByte c = true) :
    stringContainsCTLByte s = false := by
  unfold stringContainsCTLByte
  rw [List.any_eq_false]
  intro c hc
  have := pathByte_facts (h c hc)
  simp only [Bool.or_eq_true, decide_eq_true_eq, not_or]
  omega

theorem parse_relative (path q : GoString) (h : ∀ c ∈ path, pathByte c = true)
    (hq : unescape encodePath path = .ok q) (hcol : 0x3A ∉ (Cut 0x2F path).1) :
    parse (0x76 :: 0x31 :: path)
      = .ok { Path := (storedPath (0x76 :: 0x31 :: path)).1,
              RawPath := (storedPath (0x76 :: 0x31 :: path)).2 } := by
  have hs := pathByte_v1 path h
  have hctl := not_CTL_of_pathBytes _ hs
  have hqm : 0x3F ∉ (0x76 :: 0x31 :: path) := fun hm => (pathByte_facts (hs _ hm)).2.2.2 rfl
  have hcut2 : (Cut 0x2F (0x76 :: 0x31 :: path)).1 = 0x76 :: 0x31 :: (Cut 0x2F path).1 := by
    simp [Cut]
  have hseg : 0x3A ∉ (Cut 0x2F (0x76 :: 0x31 :: path)).1 := by
    rw [hcut2]
    intro hm
    simp only [List.mem_cons] at hm
    rcases hm with hm | hm | hm
    · omega
    · omega
    · exact hcol hm
  have hscheme : getScheme (0x76 :: 0x31 :: path) = .ok ([], 0x76 :: 0x31 :: path) :=
    getSchemeFrom_segment _ _ _ hseg
  have hsuf : ([0x3F] : GoString).isSuffixOf (0x76 :: 0x31 :: path) = false :=
    isSuffixOf_singleton_not_mem _ _ hqm
  have hcut : Cut 0x3F (0x76 :: 0x31 :: path) = (0x76 :: 0x31 :: path, [], false) :=
    Cut_not_mem _ _ hqm
  unfold parse
  simp only [hctl, hscheme, bytes_question, bytes_slash, bytes_slash2, bytes_slash3, bytes_star,
    hsuf, hcut, Bool.false_and, Bool.false_eq_true, if_false]
  simp [hseg, ToLower]
  exact setPath_stored _ _ _ (unescape_v1 path q hq).1

theorem Parse_relative (path q : GoString) (h : ∀ c ∈ path, pathByte c = true)
    (hq : unescape encodePath path = .ok q) (hcol : 0x3A ∉ (Cut 0x2F path).1) :
    Parse (bytes "v1" ++ path)
      = .ok { Path := (storedPath (0x76 :: 0x31 :: path)).1,
              RawPath := (storedPath (0x76 :: 0x31 :: path)).2 } := by
  have hs := pathByte_v1 path h
  have hhash : 0x23 ∉ (0x76 :: 0x31 :: path) := fun hm => (pathByte_facts (hs _ hm)).2.2.1 rfl
  rw [bytes_v1]
  show Parse (0x76 :: 0x31 :: path) = _
  unfold Parse
  simp [Cut_not_mem _ _ hhash, parse_relative path q h hq hcol]

/-! ## Resolving the reference against the base -/

theorem Split_join (sep : Nat) (s : GoString) :
    ∃ e es, Split sep s = e :: es ∧ e ++ es.flatMap (fun x => sep :: x) = s := by
  induction s with
  | nil => exact ⟨[], [], rfl, rfl⟩
  | cons c t ih =>
    obtain ⟨e, es, h1, h2⟩ := ih
    by_cases hc : c = sep
    · refine ⟨[], e :: es, by simp [Split, hc, h1], ?_⟩
      simp [h2, hc]
    · exact ⟨c :: e, es, by simp [Split, hc, h1], by simp [h2]⟩

theorem Split_cons_ne (sep c : Nat) (s : GoString) (hc : c ≠ sep) (e : GoString)
    (es : List GoString) (h : Split sep s = e :: es) : Split sep (c :: s) = (c :: e) :: es := by
  simp [Split, hc, h]

theorem resolveStep_plain (st : ResolveState) (e : GoString) (h : plainElem e) :
    resolveStep st e
      = { dst := (if st.first then st.dst else st.dst ++ bytes "/") ++ e, first := false } := by
  simp [resolveStep, h.1, h.2]

theorem resolve_fold_rest (es : List GoString) (h : ∀ e ∈ es, plainElem e) (dst : GoString) :
    es.foldl resolveStep { dst := dst, first := false }
      = { dst := dst ++ es.flatMap (fun x => 0x2F :: x), first := false } := by
  induction es generalizing dst with
  | nil => simp
  | cons e es ih =>
    rw [List.foldl_cons, resolveStep_plain _ _ (h e (by simp))]
    simp only [Bool.false_eq_true, if_false]
    rw [ih (fun x hx => h x (by simp [hx]))]
    simp [bytes_slash]

theorem resolvePath_plain (path : GoString)
    (hseg : ∀ e ∈ (Split 0x2F path).tail, plainElem e) :
    resolvePath [] (0x76 :: 0x31 :: path) = 0x2F :: 0x76 :: 0x31 :: path := by
  obtain ⟨e, es, h1, h2⟩ := Split_join 0x2F path
  have hsplit : Split 0x2F (0x76 :: 0x31 :: path) = (0x76 :: 0x31 :: e) :: es :=
    Split_cons_ne _ _ _ (by decide) _ _ (Split_cons_ne _ _ _ (by decide) _ _ h1)
  have hes : ∀ x ∈ es, plainElem x := fun x hx => hseg x (by rw [h1]; simpa using hx)
  have hfirst : plainElem (0x76 :: 0x31 :: e) := by
    constructor
    · rw [bytes_dot]; simp
    · rw [bytes_dotdot]; simp
  have hlast : plainElem (((0x76 :: 0x31 :: e) :: es).getLast?.getD []) := by
    cases hl : ((0x76 :: 0x31 :: e) :: es).getLast? with
    | none => simp at hl
    | some x =>
      have hx := List.mem_of_getLast?_eq_some hl
      rcases List.mem_cons.1 hx with rfl | hx
      · exact hfirst
      · exact hes x hx
  have hne : ((0x76 : Nat) = 0x2F) = False := eq_false (by decide)
  unfold resolvePath
  simp only [ne_eq, hne, not_false_eq_true, if_true, LastIndex, List.nil_append, hsplit,
    List.foldl_cons]
  rw [resolveStep_plain _ _ hfirst]
  simp only [if_true, resolve_fold_rest es hes]
  simp only [reduceCtorEq, hlast.1, hlast.2, or_self, if_false]
  simp [bytes_slash, h2]

theorem Parse_sandboxUrl : Parse sandboxUrl = .ok sandboxBase := by decide

theorem sandboxBase_String : sandboxBase.String = sandboxUrl := by decide

theorem facts_of_verbatimPath {path : GoString} (h : verbatimPath path = true) :
    (∀ c ∈ path, pathByte c = true) ∧ (∃ q, unescape encodePath path = .ok q)
      ∧ (∀ e ∈ (Split 0x2F path).tail, plainElem e) ∧ 0x3A ∉ (Cut 0x2F path).1 := by
  simp only [verbatimPath, Bool.and_eq_true, List.all_eq_true, decide_eq_true_eq] at h
  obtain ⟨⟨⟨h1, h2⟩, h3⟩, h4⟩ := h
  refine ⟨(validEncoded_path path).1 h1, ?_, fun e he => by simpa [plainElem] using h3 e he, h4⟩
  cases hu : unescape encodePath path with
  | ok q => exact ⟨q, rfl⟩
  | error e => simp [hu, Except.toOption] at h2

/-- The URL `Call` resolves for a path kept as written, before the query is set. -/
theorem URL_Parse_verbatim (path : GoString) (h : verbatimPath path = true) :
    URL.Parse (some sandboxBase) (bytes "v1" ++ path)
      = .done (.ok { Scheme := bytes "https", Host := bytes "sandbox.api.maplerad.com",
                     Path := (storedPath (0x2F :: 0x76 :: 0x31 :: path)).1,
                     RawPath := (storedPath (0x2F :: 0x76 :: 0x31 :: path)).2 }) := by
  obtain ⟨hb, ⟨q, hq⟩, hseg, hcol⟩ := facts_of_verbatimPath h
  have hs := pathByte_v1 path hb
  obtain ⟨hu1, hu2⟩ := unescape_v1 path q hq
  have href : (({ Path := (storedPath (0x76 :: 0x31 :: path)).1,
                  RawPath := (storedPath (0x76 :: 0x31 :: path)).2 } : URL)).EscapedPath
      = 0x76 :: 0x31 :: path :=
    EscapedPath_stored _ _ _ ((validEncoded_path _).2 hs) hu1 (by rw [bytes_star]; simp) rfl rfl
  have hbase : sandboxBase.EscapedPath = [] := by decide
  have hpne : (storedPath (0x76 :: 0x31 :: path)).1 ≠ [] := by
    simp [storedPath, hu1]
  unfold URL.Parse
  rw [Parse_relative path q hb hq hcol]
  simp only
  unfold ResolveReference
  simp only [href, hbase, resolvePath_plain path hseg, setPath_stored _ _ _ hu2]
  simp [sandboxBase, hpne]

/-! ## Parsing the request URL again in `http.NewRequest` -/

theorem querySafe_facts {c : Nat} (h : querySafe c = true) :
    0x20 < c ∧ c < 0x7F ∧ c ≠ 0x23 ∧ c ≠ 0x3F := by
  have hb : bytes "-_.~+%=&" = [0x2D, 0x5F, 0x2E, 0x7E, 0x2B, 0x25, 0x3D, 0x26] := by decide
  simp only [querySafe, hb, Bool.or_eq_true, decide_eq_true_eq] at h
  rcases h with h | h
  · have := alnum_range (by simpa using h)
    omega
  · simp only [List.mem_cons, List.mem_singleton, List.not_mem_nil, or_false] at h
    omega

theorem sandboxUrl_split :
    sandboxUrl = 0x68 :: 0x74 :: 0x74 :: 0x70 :: 0x73 :: 0x3A :: 0x2F :: 0x2F :: sandboxHost := by
  decide

theorem sandboxHost_facts :
    (∀ c ∈ sandboxHost, 0x20 < c ∧ c < 0x7F ∧ c ≠ 0x23 ∧ c ≠ 0x3F ∧ c ≠ 0x2F)
    ∧ sandboxHost.length = 24
    ∧ parseAuthority sandboxHost = .ok (none, sandboxHost)
    ∧ removeEmptyPort sandboxHost = sandboxHost
    ∧ escape sandboxHost encodeHost = sandboxHost
    ∧ sandboxHost ≠ [] := by
  decide

theorem getScheme_https (rest : GoString) :
    getScheme (0x68 :: 0x74 :: 0x74 :: 0x70 :: 0x73 :: 0x3A :: rest)
      = .ok ([0x68, 0x74, 0x74, 0x70, 0x73], rest) := by
  simp [getScheme, getSchemeFrom, isAlpha, isDigit]

theorem parse_absolute (p q pq : GoString) (hp : ∀ c ∈ (0x2F :: p), pathByte c = true)
    (hu : unescape encodePath (0x2F :: p) = .ok pq) (hq : ∀ c ∈ q, querySafe c = true) :
    parse (requestText (0x2F :: p) q)
      = .ok { Scheme := bytes "https", Host := sandboxHost, Path := (storedPath (0x2F :: p)).1,
              RawPath := (storedPath (0x2F :: p)).2, RawQuery := q } := by
  obtain ⟨hh, hlen, hauth, _, _, _⟩ := sandboxHost_facts
  -- the text after the scheme, and its part before the query
  have htext : requestText (0x2F :: p) q
      = 0x68 :: 0x74 :: 0x74 :: 0x70 :: 0x73 :: 0x3A
          :: ((0x2F :: 0x2F :: (sandboxHost ++ 0x2F :: p)) ++ (if q = [] then [] else 0x3F :: q)) := by
    simp [requestText, sandboxUrl_split]
  have hAq : 0x3F ∉ (0x2F :: 0x2F :: (sandboxHost ++ 0x2F :: p)) := by
    intro hm
    simp only [List.mem_cons, List.mem_append] at hm
    rcases hm with hm | hm | hm | hm | hm
    · omega
    · omega
    · exact (hh _ hm).2.2.2.1 rfl
    · omega
    · exact (pathByte_facts (hp _ (List.mem_cons_of_mem _ hm))).2.2.2 rfl
  have hqq : 0x3F ∉ q := fun hm => (querySafe_facts (hq _ hm)).2.2.2 rfl
  have hctl : stringContainsCTLByte (requestText (0x2F :: p) q) = false := by
    unfold stringContainsCTLByte
    rw [List.any_eq_false]
    intro c hc
    simp only [Bool.or_eq_true, decide_eq_true_eq, not_or]
    rw [htext] at hc
    simp only [List.mem_cons, List.mem_append] at hc
    rcases hc with hc | hc | hc | hc | hc | hc | (hc | hc | hc | hc | hc) | hc
    · omega
    · omega
    · omega
    · omega
    · omega
    · omega
    · omega
    · omega
    · have := hh _ hc; omega
    · omega
    · have := pathByte_facts (hp _ (List.mem_cons_of_mem _ hc)); omega
    · by_cases hqe : q = []
      · simp [hqe] at hc
      · simp only [hqe, if_false, List.mem_cons] at hc
        rcases hc with hc | hc
        · omega
        · have := querySafe_facts (hq _ hc); omega
  have hstar : requestText (0x2F :: p) q ≠ bytes "*" := by
    rw [htext, bytes_star]; simp
  have hforce : (([0x3F] : GoString).isSuffixOf
        ((0x2F :: 0x2F :: (sandboxHost ++ 0x2F :: p)) ++ (if q = [] then [] else 0x3F :: q))
      && ((0x2F :: 0x2F :: (sandboxHost ++ 0x2F :: p)) ++ (if q = [] then [] else 0x3F :: q)).count 0x3F
          = 1) = false := by
    by_cases hqe : q = []
    · have : ([0x3F] : GoString).isSuffixOf (0x2F :: 0x2F :: (sandboxHost ++ 0x2F :: p)) = false :=
        isSuffixOf_singleton_not_mem _ _ hAq
      simp [hqe, this]
    · have : ([0x3F] : GoString).isSuffixOf
          ((0x2F :: 0x2F :: (sandboxHost ++ 0x2F :: p) ++ [0x3F]) ++ q) = false :=
        isSuffixOf_singleton_append _ _ _ hqe hqq
      simp only [hqe, if_false]
      rw [show (0x2F :: 0x2F :: (sandboxHost ++ 0x2F :: p)) ++ 0x3F :: q
          = (0x2F :: 0x2F :: (sandboxHost ++ 0x2F :: p) ++ [0x3F]) ++ q from by simp]
      rw [this]
      rfl
  have hcut : Cut 0x3F ((0x2F :: 0x2F :: (sandboxHost ++ 0x2F :: p)) ++ (if q = [] then [] else 0x3F :: q))
      = (0x2F :: 0x2F :: (sandboxHost ++ 0x2F :: p), q, !decide (q = [])) := by
    by_cases hqe : q = []
    · simp only [hqe, if_true, List.append_nil]
      rw [Cut_not_mem _ _ hAq]
      simp
    · simp only [hqe, if_false]
      rw [Cut_append _ _ _ hAq]
      simp
  have hslash : 0x2F ∉ sandboxHost := fun hm => (hh _ hm).2.2.2.2 rfl
  have hidx : Index 0x2F (sandboxHost ++ 0x2F :: p) = some 24 := by
    rw [Index_append _ _ _ hslash, hlen]
  have htake : (sandboxHost ++ 0x2F :: p).take 24 = sandboxHost := by
    rw [← hlen]; simp
  have hdrop : (sandboxHost ++ 0x2F :: p).drop 24 = 0x2F :: p := by
    rw [← hlen]; simp
  have hlower : ToLower [0x68, 0x74, 0x74, 0x70, 0x73] = bytes "https" := by decide
  unfold parse
  rw [if_neg (by simp [hctl]), if_neg hstar, htext, getScheme_https]
  simp only [bytes_question, hforce, hcut, hlower, Bool.false_eq_true, if_false]
  simp only [bytes_slash, bytes_slash2, bytes_slash3]
  simp only [List.isPrefixOf, beq_self_eq_true, Bool.true_and, Bool.not_true, Bool.false_eq_true,
    false_and, if_false, List.drop_succ_cons, List.drop_zero, hidx, htake, hdrop, hauth]
  have hne : bytes "https" ≠ [] := by decide
  simp only [ne_eq, hne, not_false_eq_true, true_or, true_and, if_true]
  exact setPath_stored _ _ _ hu

theorem Parse_absolute (p q pq : GoString) (hp : ∀ c ∈ (0x2F :: p), pathByte c = true)
    (hu : unescape encodePath (0x2F :: p) = .ok pq) (hq : ∀ c ∈ q, querySafe c = true) :
    Parse (requestText (0x2F :: p) q)
      = .ok { Scheme := bytes "https", Host := sandboxHost, Path := (storedPath (0x2F :: p)).1,
              RawPath := (storedPath (0x2F :: p)).2, RawQuery := q } := by
  obtain ⟨hh, _⟩ := sandboxHost_facts
  have hhash : 0x23 ∉ requestText (0x2F :: p) q := by
    intro hm
    simp only [requestText, sandboxUrl_split, List.cons_append, List.mem_cons, List.mem_append] at hm
    rcases hm with hm | hm | hm | hm | hm | hm | hm | hm | (hm | hm | hm) | hm
    · omega
    · omega
    · omega
    · omega
    · omega
    · omega
    · omega
    · omega
    · exact (hh _ hm).2.2.1 rfl
    · omega
    · exact (pathByte_facts (hp _ (List.mem_cons_of_mem _ hm))).2.2.1 rfl
    · by_cases hqe : q = []
      · simp [hqe] at hm
      · simp only [hqe, if_false, List.mem_cons] at hm
        rcases hm with hm | hm
        · omega
        · exact (querySafe_facts (hq _ hm)).2.2.1 rfl
  unfold Parse
  simp [Cut_not_mem _ _ hhash, parse_absolute p q pq hp hu hq]

theorem String_request (p q pq : GoString) (hp : ∀ c ∈ (0x2F :: p), pathByte c = true)
    (hu : unescape encodePath (0x2F :: p) = .ok pq) (hstar : pq ≠ bytes "*") :
    URL.String { Scheme := bytes "https", Host := sandboxHost, Path := (storedPath (0x2F :: p)).1,
                 RawPath := (storedPath (0x2F :: p)).2, RawQuery := q }
      = requestText (0x2F :: p) q := by
  obtain ⟨_, _, _, _, hesc, hne⟩ := sandboxHost_facts
  have hpath : URL.EscapedPath
      { Scheme := bytes "https", Host := sandboxHost, Path := (storedPath (0x2F :: p)).1,
        RawPath := (storedPath (0x2F :: p)).2, RawQuery := q }
      = 0x2F :: p :=
    EscapedPath_stored _ _ _ ((validEncoded_path _).2 hp) hu hstar rfl rfl
  have hs : bytes "https" ≠ [] := by decide
  have hurl : sandboxUrl = bytes "https" ++ bytes ":" ++ bytes "//" ++ sandboxHost := by decide
  unfold URL.String
  simp only [hpath, hesc, hurl, requestText]
  by_cases hqe : q = []
  · simp [hs, hne, hqe]
  · simp [hs, hne, hqe, bytes_question]

theorem NewRequest_verbatim (method p q pq : GoString) (buf : Option GoString)
    (hm : method = [] ∨ validMethod method = true)
    (hp : ∀ c ∈ (0x2F :: p), pathByte c = true)
    (hu : unescape encodePath (0x2F :: p) = .ok pq) (hq : ∀ c ∈ q, querySafe c = true) :
    ∃ req, NewRequest method (requestText (0x2F :: p) q) buf = .ok req
      ∧ req.URL = { Scheme := bytes "https", Host := sandboxHost,
                    Path := (storedPath (0x2F :: p)).1, RawPath := (storedPath (0x2F :: p)).2,
                    RawQuery := q }
      ∧ req.Method = (if method = [] then bytes "GET" else method) := by
  obtain ⟨_, _, _, hport, _, _⟩ := sandboxHost_facts
  have hv : validMethod (if method = [] then bytes "GET" else method) = true := by
    rcases hm with hm | hm
    · rw [if_pos hm]; decide
    · by_cases he : method = []
      · rw [if_pos he]; decide
      · rw [if_neg he]; exact hm
  refine ⟨{ Method := (if method = [] then bytes "GET" else method),
            URL := { Scheme := bytes "https", Host := sandboxHost,
                     Path := (storedPath (0x2F :: p)).1, RawPath := (storedPath (0x2F :: p)).2,
                     RawQuery := q },
            Header := [], Body := buf, GetBody := buf, ContentLength := (buf.getD []).length,
            Host := sandboxHost }, ?_, rfl, rfl⟩
  unfold NewRequest
  simp only [hv, Bool.not_true, Bool.false_eq_true, if_false, Parse_absolute p q pq hp hu hq]
  simp [hport]

/-! ## What `Values.Encode` writes -/

theorem upperhex_safe (n : Nat) : querySafe (upperhex n) = true := by
  have h : n % 16 < 16 := Nat.mod_lt _ (by decide)
  unfold upperhex
  generalize n % 16 = k at h
  interval_cases k <;> decide

theorem shouldEscape_query_safe {c : Nat} (h : shouldEscape c encodeQueryComponent = false) :
    querySafe c = true := by
  have hb : bytes "-_.~+%=&" = [0x2D, 0x5F, 0x2E, 0x7E, 0x2B, 0x25, 0x3D, 0x26] := by decide
  unfold shouldEscape at h
  simp only [querySafe, hb, Bool.or_eq_true, decide_eq_true_eq]
  split at h
  · rename_i ha
    exact Or.inl (by simpa using ha)
  · split at h
    · rename_i hx
      simp at hx
    · split at h
      · rename_i hx
        rw [bytes_marks] at hx
        right
        simp only [List.mem_cons, List.mem_singleton, List.not_mem_nil, or_false] at hx ⊢
        omega
      · split at h
        · simp at h
        · split at h
          · rename_i hx
            simp at hx
          · simp at h

theorem QueryEscape_safe (s : GoString) : ∀ c ∈ QueryEscape s, querySafe c = true := by
  intro c hc
  simp only [QueryEscape, escape, List.mem_flatMap] at hc
  obtain ⟨x, _, hx⟩ := hc
  split at hx
  · simp only [List.mem_singleton] at hx
    subst hx; decide
  · split at hx
    · simp only [List.mem_cons, List.mem_singleton, List.not_mem_nil, or_false] at hx
      rcases hx with rfl | rfl | rfl
      · decide
      · exact upperhex_safe _
      · exact upperhex_safe _
    · rename_i hne
      simp only [List.mem_singleton] at hx
      subst hx
      exact shouldEscape_query_safe (by simpa using hne)

theorem encodeKey_safe (v : Values) (key : GoString) (buf : GoString)
    (hb : ∀ c ∈ buf, querySafe c = true) : ∀ c ∈ encodeKey v buf key, querySafe c = true := by
  unfold encodeKey
  generalize Values.lookup v key = vals
  induction vals generalizing buf with
  | nil => simpa using hb
  | cons value vals ih =>
    rw [List.foldl_cons]
    apply ih
    intro c hc
    have hamp : bytes "&" = [0x26] := by decide
    have heq : bytes "=" = [0x3D] := by decide
    simp only [hamp, heq, List.mem_append, List.mem_singleton] at hc
    rcases hc with (((hc | hc) | hc) | hc)
    · split at hc
      · simp only [List.mem_append, List.mem_singleton] at hc
        rcases hc with hc | rfl
        · exact hb c hc
        · decide
      · exact hb c hc
    · exact QueryEscape_safe _ c hc
    · subst hc; decide
    · exact QueryEscape_safe _ c hc

theorem Encode_safe (v : Values) : ∀ c ∈ Values.Encode v, querySafe c = true := by
  unfold Values.Encode
  split
  · simp
  · generalize sortKeys (v.map Prod.fst) = keys
    have : ∀ (buf : GoString), (∀ c ∈ buf, querySafe c = true) →
        ∀ c ∈ keys.foldl (encodeKey v) buf, querySafe c = true := by
      induction keys with
      | nil => intro buf hb; simpa using hb
      | cons k ks ih => intro buf hb; exact ih _ (encodeKey_safe v k buf hb)
    exact this [] (by simp)

/-! ## The query of a call whose path has none -/

theorem Encode_eq_fold (v : Values) :
    Values.Encode v = (sortKeys (v.map Prod.fst)).foldl (encodeKey v) [] := by
  cases v with
  | nil => rfl
  | cons e m => simp [Values.Encode]

theorem sortKeys_filter (p : GoString → Bool) (l : List GoString) :
    sortKeys (l.filter p) = (sortKeys l).filter p := by
  rw [sortKeys_eq, sortKeys_eq]
  apply List.eq_of_perm_of_sorted (r := keyLE)
  · exact (List.perm_insertionSort keyLE _).trans
      ((List.perm_insertionSort keyLE l).filter p).symm
  · exact List.sorted_insertionSort keyLE _
  · exact List.Pairwise.filter p (List.sorted_insertionSort keyLE l)

theorem foldl_filter_skip {α β : Type} (f : β → α → β) (p : α → Bool) (l : List α)
    (h : ∀ b x, p x = false → f b x = b) (b : β) :
    (l.filter p).foldl f b = l.foldl f b := by
  induction l generalizing b with
  | nil => rfl
  | cons x l ih =>
    cases hp : p x
    · simp [List.filter_cons, hp, h b x hp, ih]
    · simp [List.filter_cons, hp, ih]

theorem lookup_of_mem (m : Values) (kw : GoString × List GoString) (hn : (m.map Prod.fst).Nodup)
    (h : kw ∈ m) : Values.lookup m kw.1 = kw.2 := by
  induction m with
  | nil => simp at h
  | cons e m ih =>
    obtain ⟨k, vs⟩ := e
    rw [List.map_cons, List.nodup_cons] at hn
    rcases List.mem_cons.1 h with rfl | h
    · simp [Values.lookup]
    · have hne : k ≠ kw.1 := by
        intro he
        have hmem : kw.1 ∈ m.map Prod.fst := List.mem_map_of_mem Prod.fst h
        rw [← he] at hmem
        exact hn.1 hmem
      simp [Values.lookup, hne, ih hn.2 h]

/-- On an empty query the loop of `Call` builds a map that encodes as
`queryParams` itself does. -/
theorem Encode_addQueryParams_nil (qp : Values) (hn : (qp.map Prod.fst).Nodup) :
    Values.Encode (addQueryParams [] qp) = Values.Encode qp := by
  have hlook : ∀ key, Values.lookup (addQueryParams [] qp) key = Values.lookup qp key := by
    intro key
    rw [lookup_addQueryParams, supplied_eq_lookup qp key hn]
    simp [Values.lookup]
  have hf : encodeKey (addQueryParams [] qp) = encodeKey qp := by
    funext buf key
    simp [encodeKey, hlook]
  have hkeys : ((addQueryParams [] qp).map Prod.fst).Perm
      ((qp.map Prod.fst).filter (fun k => decide (Values.lookup qp k ≠ []))) := by
    rw [List.perm_ext_iff_of_nodup (keys_addQueryParams_nodup [] qp (by simp)) (hn.filter _)]
    intro x
    rw [mem_keys_addQueryParams, List.mem_filter]
    simp only [List.map_nil, List.not_mem_nil, false_or, decide_eq_true_eq]
    constructor
    · rintro ⟨kw, hkw, h1, h2⟩
      refine ⟨?_, ?_⟩
      · rw [← h1]; exact List.mem_map_of_mem Prod.fst hkw
      · rw [← h1, lookup_of_mem qp kw hn hkw]; exact h2
    · rintro ⟨h1, h2⟩
      obtain ⟨kw, hkw, hk⟩ := List.mem_map.1 h1
      refine ⟨kw, hkw, hk, ?_⟩
      rw [← lookup_of_mem qp kw hn hkw, hk]
      exact h2
  rw [Encode_eq_fold, Encode_eq_fold, hf, sortKeys_perm hkeys, sortKeys_filter]
  apply foldl_filter_skip
  intro b x hx
  have hnil : Values.lookup qp x = [] := by simpa using hx
  simp [encodeKey, hnil]

/-! ## C4: the URL of the request -/

/-- C4 fails at the path `/customers/../institutions`: `net/url` resolves the
`..` segment away, so the URL of the request is the base and `/v1/institutions`.
It fails at the path `/customers/a b` too: the space is escaped, and the URL is
the base and `/v1/customers/a%20b`. Neither URL is the base, `/v1`, the path, a
question mark and the encoded query, nor the base, `/v1` and the path. -/
theorem Call_url_not_as_written :
    (((exampleClient.Call (exampleEnv ⟨200, [], bytes "[]", none⟩) (bytes "GET")
        (bytes "/customers/../institutions") [] none []).sent.map (fun r => r.URL.String)
      = [bytes "https://sandbox.api.maplerad.com/v1/institutions"])
    ∧ bytes "https://sandbox.api.maplerad.com/v1/institutions"
        ≠ sandboxUrl ++ bytes "/v1" ++ bytes "/customers/../institutions" ++ bytes "?"
            ++ Values.Encode []
    ∧ bytes "https://sandbox.api.maplerad.com/v1/institutions"
        ≠ sandboxUrl ++ bytes "/v1" ++ bytes "/customers/../institutions")
    ∧ (((exampleClient.Call (exampleEnv ⟨200, [], bytes "[]", none⟩) (bytes "GET")
        (bytes "/customers/a b") [(bytes "page", [bytes "2"])] none []).sent.map
          (fun r => r.URL.String)
      = [bytes "https://sandbox.api.maplerad.com/v1/customers/a%20b?page=2"])
    ∧ bytes "https://sandbox.api.maplerad.com/v1/customers/a%20b?page=2"
        ≠ sandboxUrl ++ bytes "/v1" ++ bytes "/customers/a b" ++ bytes "?"
            ++ Values.Encode [(bytes "page", [bytes "2"])]) := by
  decide!

/-- C4, amended. On a client built by `NewClient`, take a path that `net/url`
keeps as written (letters, digits, the bytes of `-_.~$&+,/:;=@!'()*[]` and
escapes of two hexadecimal digits; no `.` or `..` segment after the first
slash; no colon before the first slash), a `queryParams` map, a method
`http.NewRequest` accepts and a body that encodes. Then `Call` issues a request
whose URL is the client's base URL, `/v1`, the path and, when
`queryParams.Encode()` is not empty, a question mark and that encoding (keys
sorted, keys and values query-escaped, the values of a key in their given
order: the fold of `encodeKey` over the sorted keys). It is the first request
sent, and the only one unless the server answers it with a redirect that
`http.Client` follows, with fewer than ten further requests. -/
theorem Call_request_url {β σ : Type} (env : Env β σ) (secret environment : GoString)
    (c : Client) (hc : NewClient secret environment = (some c, none))
    (method path : GoString) (queryParams : Values) (body : Option β) (v : σ)
    (hpath : verbatimPath path = true) (hkeys : (queryParams.map Prod.fst).Nodup)
    (hmethod : method = [] ∨ validMethod method = true)
    (hbody : ∀ b, body = some b → ∃ buf, env.marshal b = .ok buf) :
    ∃ base r rest, c.baseURL = some base ∧ base.String = bytes "https://sandbox.api.maplerad.com"
      ∧ (c.Call env method path queryParams body v).sent = r :: rest
      ∧ r.URL.String = base.String ++ bytes "/v1" ++ path ++
          (if Values.Encode queryParams = [] then [] else bytes "?" ++ Values.Encode queryParams)
      ∧ (∀ resp, env.originalTransport 0 r = .ok resp → redirects resp = false → rest = [])
      ∧ (∀ e, env.originalTransport 0 r = .error e → rest = [])
      ∧ rest.length < 10
      ∧ Values.Encode queryParams
          = (sortKeys (queryParams.map Prod.fst)).foldl (encodeKey queryParams) [] := by
  obtain ⟨_, hcl⟩ := NewClient_some hc
  obtain ⟨hb, ⟨q, hq⟩, _, _⟩ := facts_of_verbatimPath hpath
  obtain ⟨_, hu2⟩ := unescape_v1 path q hq
  have hfull : ∀ x ∈ (0x2F :: 0x76 :: 0x31 :: path), pathByte x = true := by
    intro x hx
    rcases List.mem_cons.1 hx with rfl | hx
    · decide
    · exact pathByte_v1 path hb x hx
  have hstar : (0x2F :: 0x76 :: 0x31 :: q) ≠ bytes "*" := by rw [bytes_star]; simp
  have hbase : c.baseURL = some sandboxBase := by
    rw [hcl, Parse_sandboxUrl]; rfl
  have hcc : c.c = some { Transport := { secret := secret }, Timeout := 10 } := by rw [hcl]
  have henc : ∃ buf, encodeBody env body = .ok buf := by
    cases body with
    | none => exact ⟨none, rfl⟩
    | some b =>
      obtain ⟨buf, hbuf⟩ := hbody b rfl
      exact ⟨some buf, by simp [encodeBody, hbuf]⟩
  obtain ⟨buf, hbuf⟩ := henc
  have hquery : URL.Query { Scheme := bytes "https", Host := bytes "sandbox.api.maplerad.com",
                            Path := (storedPath (0x2F :: 0x76 :: 0x31 :: path)).1,
                            RawPath := (storedPath (0x2F :: 0x76 :: 0x31 :: path)).2 } = [] := rfl
  obtain ⟨req, hreq, hurl, _⟩ := NewRequest_verbatim method (0x76 :: 0x31 :: path)
    (Values.Encode queryParams) _ buf hmethod hfull hu2 (Encode_safe queryParams)
  suffices hmain : ∃ r rest, (c.Call env method path queryParams body v).sent = r :: rest
      ∧ r.URL.String = sandboxBase.String ++ bytes "/v1" ++ path ++
          (if Values.Encode queryParams = [] then []
           else bytes "?" ++ Values.Encode queryParams)
      ∧ (∀ resp, env.originalTransport 0 r = .ok resp → redirects resp = false → rest = [])
      ∧ (∀ e, env.originalTransport 0 r = .error e → rest = [])
      ∧ rest.length < 10 by
    obtain ⟨r, rest, h1, h2, h3, h4, h5⟩ := hmain
    exact ⟨sandboxBase, r, rest, hbase, sandboxBase_String, h1, h2, h3, h4, h5,
      Encode_eq_fold queryParams⟩
  unfold Client.Call
  rw [hbuf, hbase, URL_Parse_verbatim path hpath]
  simp only [hquery, Encode_addQueryParams_nil queryParams hkeys]
  unfold Client.send
  have hstr := String_request (0x76 :: 0x31 :: path) (Values.Encode queryParams) _ hfull hu2 hstar
  simp only [sandboxHost] at hstr hurl
  rw [hstr, hreq, hcc]
  simp only [finish_sent]
  have hfinal : URL.String req.URL = sandboxBase.String ++ bytes "/v1" ++ path ++
      (if Values.Encode queryParams = [] then []
       else bytes "?" ++ Values.Encode queryParams) := by
    rw [hurl, hstr, sandboxBase_String]
    have h1 : bytes "/v1" = [0x2F, 0x76, 0x31] := by decide
    simp [requestText, h1, bytes_question]
  have hsent : ∀ (r2 : Request), r2.URL = req.URL →
      ∃ r rest, (HTTPClient.Do env { Transport := { secret := secret }, Timeout := 10 } r2).sent
          = r :: rest
        ∧ r.URL.String = sandboxBase.String ++ bytes "/v1" ++ path ++
            (if Values.Encode queryParams = [] then []
             else bytes "?" ++ Values.Encode queryParams)
        ∧ (∀ resp, env.originalTransport 0 r = .ok resp → redirects resp = false → rest = [])
        ∧ (∀ e, env.originalTransport 0 r = .error e → rest = [])
        ∧ rest.length < 10 := by
    intro r2 hr2
    obtain ⟨r, rest, h1, h2, _, _, h5, h6, h7⟩ :=
      Do_first env { Transport := { secret := secret }, Timeout := 10 } r2
    exact ⟨r, rest, h1, by rw [h2, hr2]; exact hfinal, h5, h6, h7⟩
  by_cases hbd : body.isSome = true
  · simp only [hbd, if_true]
    exact hsent
      { req with Header := req.Header.Set (bytes "Content-Type") (bytes "application/json") } rfl
  · simp only [hbd, Bool.false_eq_true, if_false]
    exact hsent req rfl

/-- C4, amended, at `GET /customers/a:b/%41!` with the parameters `page=2` and
`a=x y, z`: one request, to `…/v1/customers/a:b/%41!?a=x+y&a=z&page=2`. -/
theorem Call_request_url_witness :
    (verbatimPath (bytes "/customers/a:b/%41!") = true
      ∧ (([(bytes "page", [bytes "2"]), (bytes "a", [bytes "x y", bytes "z"])] : Values).map
          Prod.fst).Nodup
      ∧ validMethod (bytes "GET") = true)
    ∧ (∃ base r rest, exampleClient.baseURL = some base
        ∧ base.String = bytes "https://sandbox.api.maplerad.com"
        ∧ (exampleClient.Call (exampleEnv ⟨200, [], bytes "[]", none⟩) (bytes "GET")
            (bytes "/customers/a:b/%41!")
            [(bytes "page", [bytes "2"]), (bytes "a", [bytes "x y", bytes "z"])] none []).sent
          = r :: rest
        ∧ r.URL.String = base.String ++ bytes "/v1" ++ bytes "/customers/a:b/%41!" ++
            (if Values.Encode [(bytes "page", [bytes "2"]), (bytes "a", [bytes "x y", bytes "z"])] = []
             then []
             else bytes "?" ++
              Values.Encode [(bytes "page", [bytes "2"]), (bytes "a", [bytes "x y", bytes "z"])])
        ∧ (∀ resp, (exampleEnv ⟨200, [], bytes "[]", none⟩).originalTransport 0 r = .ok resp →
            redirects resp = false → rest = [])
        ∧ (∀ e, (exampleEnv ⟨200, [], bytes "[]", none⟩).originalTransport 0 r = .error e →
            rest = [])
        ∧ rest.length < 10
        ∧ Values.Encode [(bytes "page", [bytes "2"]), (bytes "a", [bytes "x y", bytes "z"])]
            = (sortKeys (([(bytes "page", [bytes "2"]), (bytes "a", [bytes "x y", bytes "z"])]
                : Values).map Prod.fst)).foldl
                (encodeKey [(bytes "page", [bytes "2"]), (bytes "a", [bytes "x y", bytes "z"])]) [])
    ∧ Values.Encode [(bytes "page", [bytes "2"]), (bytes "a", [bytes "x y", bytes "z"])]
        = bytes "a=x+y&a=z&page=2" :=
  ⟨⟨by decide, by decide, by decide⟩,
   Call_request_url (exampleEnv ⟨200, [], bytes "[]", none⟩) (bytes "sk_test") (bytes "sandbox")
     exampleClient exampleClient_new (bytes "GET") (bytes "/customers/a:b/%41!")
     [(bytes "page", [bytes "2"]), (bytes "a", [bytes "x y", bytes "z"])] none []
     (by decide) (by decide) (Or.inr (by decide)) (fun b hb => by cases hb),
   by decide⟩

/-! ## C5: the headers of every request sent -/

/-- C5. Every request that `Call` hands to the transport of a client built by
`NewClient` carries an `Authorization` header with the value `Bearer ` followed
by the client's secret, and, when a non-nil body was supplied, a `Content-Type`
header with the value `application/json`. -/
theorem Call_sent_headers {β σ : Type} (env : Env β σ) (secret environment : GoString)
    (c : Client) (hc : NewClient secret environment = (some c, none))
    (method path : GoString) (queryParams : Values) (body : Option β) (v : σ) :
    c.secret = secret ∧
    ∀ r ∈ (c.Call env method path queryParams body v).sent,
      (bytes "Bearer " ++ c.secret) ∈ r.Header.Values (bytes "Authorization")
      ∧ (body.isSome = true →
          bytes "application/json" ∈ r.Header.Values (bytes "Content-Type")) := by
  obtain ⟨_, hcl⟩ := NewClient_some hc
  refine ⟨by rw [hcl], ?_⟩
  intro r hr
  obtain ⟨h, m, req, hh, hreq⟩ := Call_sent env c method path queryParams body v r hr
  have hsec : h.Transport.secret = c.secret := by
    rw [hcl] at hh ⊢
    simp at hh
    rw [← hh]
  rw [hreq, ← hsec]
  exact ⟨(RoundTrip_headers env h.Transport m req).1,
    fun _ => (RoundTrip_headers env h.Transport m req).2⟩

/-- C5 at a concrete call: `POST /institutions/resolve` with a body on the client for
`sk_test` sends one request, and it carries both headers. -/
theorem Call_sent_headers_witness :
    (exampleClient.Call (exampleEnv ⟨200, [], bytes "\x7b\x7d", none⟩) (bytes "POST")
        (bytes "/institutions/resolve") [] (some ()) []).sent.length = 1
    ∧ exampleClient.secret = bytes "sk_test"
    ∧ ∀ r ∈ (exampleClient.Call (exampleEnv ⟨200, [], bytes "\x7b\x7d", none⟩) (bytes "POST")
        (bytes "/institutions/resolve") [] (some ()) []).sent,
      (bytes "Bearer " ++ exampleClient.secret) ∈ r.Header.Values (bytes "Authorization")
      ∧ ((some ()).isSome = true →
          bytes "application/json" ∈ r.Header.Values (bytes "Content-Type")) :=
  ⟨by decide!,
   Call_sent_headers (exampleEnv ⟨200, [], bytes "\x7b\x7d", none⟩) (bytes "sk_test")
     (bytes "sandbox") exampleClient exampleClient_new (bytes "POST")
     (bytes "/institutions/resolve") [] (some ()) []⟩

/-! ## C6: a status of 400 or more -/

theorem not_redirects_of_status {resp : Response} (h : resp.StatusCode ≥ 400) :
    redirects resp = false := by
  unfold redirects
  have h1 : ¬ resp.StatusCode = 301 := by omega
  have h2 : ¬ resp.StatusCode = 302 := by omega
  have h3 : ¬ resp.StatusCode = 303 := by omega
  have h4 : ¬ resp.StatusCode = 307 := by omega
  have h5 : ¬ resp.StatusCode = 308 := by omega
  simp [h1, h2, h3, h4, h5]

/-- C6. For a response whose status code is 400 or more, whatever its body,
`decodeResponse` returns the API error built from that response, which carries
its status code and body, and leaves the container as it was; so does every
`Call` one of whose requests the server answered with that response. -/
theorem decodeResponse_status_error {β σ : Type} (env : Env β σ) (c : Client)
    (httpResp : Response) (v : σ) (h : httpResp.StatusCode ≥ 400) :
    c.decodeResponse env httpResp v = (some (.api (NewAPIError httpResp)), v)
    ∧ (NewAPIError httpResp).status = httpResp.StatusCode
    ∧ (NewAPIError httpResp).body = httpResp.Body
    ∧ ∀ (method path : GoString) (queryParams : Values) (body : Option β) (k : Nat)
        (r : Request),
          (c.Call env method path queryParams body v).sent[k]? = some r →
          env.originalTransport k r = .ok httpResp →
          (c.Call env method path queryParams body v).outcome
            = .done (some (.api (NewAPIError httpResp)), v) := by
  have hd : c.decodeResponse env httpResp v = (some (.api (NewAPIError httpResp)), v) := by
    simp [Client.decodeResponse, h]
  refine ⟨hd, rfl, rfl, ?_⟩
  intro method path queryParams body k r hr ht
  rw [((Call_answer env c method path queryParams body v k r hr).1 httpResp ht
    (not_redirects_of_status h)).1, hd]

/-- C6 at the response `404 {"message":"not found"}`. -/
theorem decodeResponse_status_error_witness :
    (404 : Int) ≥ 400
    ∧ exampleClient.decodeResponse (exampleEnv ⟨404, [], notFoundBody, none⟩)
        ⟨404, [], notFoundBody, none⟩ (bytes "unchanged")
      = (some (.api ⟨404, notFoundBody⟩), bytes "unchanged") :=
  ⟨by decide,
   (decodeResponse_status_error (exampleEnv ⟨404, [], notFoundBody, none⟩)
     exampleClient ⟨404, [], notFoundBody, none⟩ (bytes "unchanged")
     (by decide)).1⟩

/-! ## C7: a body that is not well-formed JSON -/

/-- C7 fails in two ways. First, the body `[true,1]` with status 200 is
well-formed, but its second element does not fit a container of type `[2]bool`:
`decodeResponse`, and `Call` with it, reports the decoding error and has stored
the first element, so an error is reported and the container is changed, both.
Second, a response with status 302, a `Location` header and a body that is not
well-formed JSON never reaches `decodeResponse`: the client follows it, and
`Call` returns no error when the next answer decodes. -/
theorem decodeResponse_error_and_change :
    (checkValid (bytes "[true,1]") = none
      ∧ exampleClient.decodeResponse (pairEnv (fun _ => ⟨200, [], bytes "[true,1]", none⟩))
          ⟨200, [], bytes "[true,1]", none⟩ (false, false)
        = (some (.text "json: cannot unmarshal number into Go value of type bool"), (true, false))
      ∧ (exampleClient.Call (pairEnv (fun _ => ⟨200, [], bytes "[true,1]", none⟩)) (bytes "GET")
          (bytes "/flags") [] none (false, false)).outcome
        = .done (some (.text "json: cannot unmarshal number into Go value of type bool"),
            (true, false)))
    ∧ (checkValid truncatedBody ≠ none
      ∧ (exampleClient.Call
          (pairEnv (fun n =>
            if n = 0 then ⟨302, [(bytes "Location", [bytes "/v1/other"])], truncatedBody, none⟩
            else ⟨200, [], bytes "[true,true]", none⟩))
          (bytes "GET") (bytes "/flags") [] none (false, false)).outcome
        = .done (none, (true, true))) := by
  decide!

/-- C7, amended. For a response with a status code below 400 whose body is not
well-formed JSON, `decodeResponse` returns a non-nil error and the container is
left as it was. A nil error is returned only when the status is below 400, the
body is well-formed and the decoder stored it into the container without error.
For a well-formed body the container is whatever the decoder made of it, also
when the decoder reports an error, so an error can come with a changed
container; for a status of 400 or more and for a body that is not well-formed
the container is left as it was, and there is never neither an error nor a
decoded container. `Call` returns what `decodeResponse` returns for a response
of the server that is not a redirect the client follows. -/
theorem decodeResponse_malformed {β σ : Type} (env : Env β σ) (c : Client)
    (httpResp : Response) (v : σ) :
    (httpResp.StatusCode < 400 → checkValid httpResp.Body ≠ none →
        (c.decodeResponse env httpResp v).1 = checkValid httpResp.Body
        ∧ (c.decodeResponse env httpResp v).1 ≠ none
        ∧ (c.decodeResponse env httpResp v).2 = v)
    ∧ ((c.decodeResponse env httpResp v).1 = none →
        httpResp.StatusCode < 400 ∧ checkValid httpResp.Body = none
        ∧ env.decode httpResp.Body v = ((c.decodeResponse env httpResp v).2, none))
    ∧ (httpResp.StatusCode < 400 → checkValid httpResp.Body = none →
        c.decodeResponse env httpResp v
          = ((env.decode httpResp.Body v).2, (env.decode httpResp.Body v).1))
    ∧ (httpResp.StatusCode ≥ 400 ∨ checkValid httpResp.Body ≠ none →
        (c.decodeResponse env httpResp v).1 ≠ none ∧ (c.decodeResponse env httpResp v).2 = v)
    ∧ ((c.decodeResponse env httpResp v).1 ≠ none
        ∨ (c.decodeResponse env httpResp v).2 = (env.decode httpResp.Body v).1)
    ∧ ∀ (method path : GoString) (queryParams : Values) (body : Option β) (k : Nat)
        (r : Request),
          (c.Call env method path queryParams body v).sent[k]? = some r →
          env.originalTransport k r = .ok httpResp → redirects httpResp = false →
          (c.Call env method path queryParams body v).outcome
            = .done (c.decodeResponse env httpResp v) := by
  have hwell : httpResp.StatusCode < 400 → checkValid httpResp.Body = none →
      c.decodeResponse env httpResp v
        = ((env.decode httpResp.Body v).2, (env.decode httpResp.Body v).1) := by
    intro hs hv
    have hs2 : ¬ httpResp.StatusCode ≥ 400 := by omega
    simp [Client.decodeResponse, hs2, Unmarshal, hv]
  have hbad : httpResp.StatusCode < 400 → checkValid httpResp.Body ≠ none →
      (c.decodeResponse env httpResp v).1 = checkValid httpResp.Body
      ∧ (c.decodeResponse env httpResp v).1 ≠ none
      ∧ (c.decodeResponse env httpResp v).2 = v := by
    intro hs hv
    have hs2 : ¬ httpResp.StatusCode ≥ 400 := by omega
    cases hv2 : checkValid httpResp.Body with
    | none => exact absurd hv2 hv
    | some e => simp [Client.decodeResponse, hs2, Unmarshal, hv2]
  have hstatus : httpResp.StatusCode ≥ 400 →
      (c.decodeResponse env httpResp v).1 ≠ none ∧ (c.decodeResponse env httpResp v).2 = v := by
    intro hs
    simp [Client.decodeResponse, hs]
  have hconv : (c.decodeResponse env httpResp v).1 = none →
      httpResp.StatusCode < 400 ∧ checkValid httpResp.Body = none
      ∧ env.decode httpResp.Body v = ((c.decodeResponse env httpResp v).2, none) := by
    intro h
    by_cases hs : httpResp.StatusCode ≥ 400
    · exact absurd h (hstatus hs).1
    · have hs2 : httpResp.StatusCode < 400 := by omega
      by_cases hv : checkValid httpResp.Body = none
      · refine ⟨hs2, hv, ?_⟩
        rw [hwell hs2 hv] at h ⊢
        exact Prod.ext rfl h
      · exact absurd h (hbad hs2 hv).2.1
  refine ⟨hbad, hconv, hwell, ?_, ?_, ?_⟩
  · rintro (hs | hv)
    · exact hstatus hs
    · by_cases hs : httpResp.StatusCode ≥ 400
      · exact hstatus hs
      · exact (hbad (by omega) hv).2
  · by_cases he : (c.decodeResponse env httpResp v).1 = none
    · right
      obtain ⟨_, _, hd⟩ := hconv he
      rw [hd]
    · exact Or.inl he
  · intro method path queryParams body k r hr ht hred
    exact ((Call_answer env c method path queryParams body v k r hr).1 httpResp ht hred).1

/-- C7, amended, at the response `200 {"message":`: the error is reported and
the container keeps its content. -/
theorem decodeResponse_malformed_witness :
    ((200 : Int) < 400 ∧ checkValid (truncatedBody) ≠ none)
    ∧ (exampleClient.decodeResponse (exampleEnv ⟨200, [], truncatedBody, none⟩)
        ⟨200, [], truncatedBody, none⟩ (bytes "unchanged")).1 ≠ none
    ∧ (exampleClient.decodeResponse (exampleEnv ⟨200, [], truncatedBody, none⟩)
        ⟨200, [], truncatedBody, none⟩ (bytes "unchanged")).2 = bytes "unchanged" :=
  ⟨⟨by decide, by decide⟩,
   ((decodeResponse_malformed (exampleEnv ⟨200, [], truncatedBody, none⟩) exampleClient
     ⟨200, [], truncatedBody, none⟩ (bytes "unchanged")).1 (by decide) (by decide)).2⟩

/-! ## C8: `ResolveInstitution` -/

/-- C8, what the code does. `ResolveInstitution` writes to the nil map `body` and
panics before it reaches `Call`, for every account number and bank code: no
request is sent. -/
theorem ResolveInstitution_faults {σ : Type} (env : Env GoMap σ) (c : InstitutionService)
    (empty : σ) (account_number bank_code : GoString) :
    (c.ResolveInstitution env empty account_number bank_code).outcome
      = .fault "assignment to entry in nil map"
    ∧ (c.ResolveInstitution env empty account_number bank_code).sent = [] := by
  constructor <;> rfl

/-! ## C9: a request that cannot be constructed -/

/-- C9, what the code does. When `http.NewRequest` rejects the method, `Call`
reads `req.URL` of the nil request and panics: no error value is returned.
Stated for a body that encodes and a path that parses, so that `Call` gets as
far as `http.NewRequest`. -/
theorem Call_invalid_method_faults {β σ : Type} (env : Env β σ) (c : Client)
    (method path : GoString) (queryParams : Values) (body : Option β) (v : σ) (u : URL)
    (buf : Option GoString)
    (hm : method ≠ []) (hv : validMethod method = false)
    (hb : encodeBody env body = .ok buf)
    (hu : URL.Parse c.baseURL (bytes "v1" ++ path) = .done (.ok u)) :
    (c.Call env method path queryParams body v).outcome
      = .fault "invalid memory address or nil pointer dereference"
    ∧ (c.Call env method path queryParams body v).sent = [] := by
  have hreq : ∀ s b, ∃ e, NewRequest method s b = .error e := by
    intro s b
    simp [NewRequest, hm, hv]
  unfold Client.Call
  simp only [hb, hu]
  unfold Client.send
  obtain ⟨e, he⟩ := hreq
    (URL.String { u with RawQuery := (addQueryParams u.Query queryParams).Encode }) buf
  simp [he]

/-- C9 at the method `BAD METHOD` and the path `/institutions`. -/
theorem Call_invalid_method_faults_witness :
    (exampleClient.Call (exampleEnv ⟨200, [], bytes "\x7b\x7d", none⟩) (bytes "BAD METHOD")
        (bytes "/institutions") [] none []).outcome
      = .fault "invalid memory address or nil pointer dereference"
    ∧ (exampleClient.Call (exampleEnv ⟨200, [], bytes "\x7b\x7d", none⟩) (bytes "BAD METHOD")
        (bytes "/institutions") [] none []).sent = [] :=
  Call_invalid_method_faults (exampleEnv ⟨200, [], bytes "\x7b\x7d", none⟩) exampleClient
    (bytes "BAD METHOD") (bytes "/institutions") [] none []
    { Scheme := bytes "https", Host := bytes "sandbox.api.maplerad.com",
      Path := bytes "/v1/institutions" }
    none (by decide) (by decide) rfl (by decide)

/-! ## C10: the order in which the keys of `queryParams` are visited -/

/-- C10. `queryParams` is a Go map, so its keys are distinct and the `range` in
`Call` may visit its entries in any order. Whatever the path, two orders of
visit give the same encoded query, hence the same `Call`: the same request with
the same URL and the same outcome. The encoded query lists the keys in sorted
order and holds, under each key, the values the path's own query string had for
it followed by the supplied ones in their given order, whichever order is taken. -/
theorem Call_query_order_independent {β σ : Type} (env : Env β σ) (c : Client)
    (method path : GoString) (qp1 qp2 : Values) (body : Option β) (v : σ)
    (hp : qp1.Perm qp2) (hn : (qp1.map Prod.fst).Nodup) :
    c.Call env method path qp1 body v = c.Call env method path qp2 body v
    ∧ ∀ (u : URL),
        Values.Encode (addQueryParams u.Query qp1) = Values.Encode (addQueryParams u.Query qp2)
        ∧ Values.Encode (addQueryParams u.Query qp1)
            = (sortKeys ((addQueryParams u.Query qp1).map Prod.fst)).foldl
                (encodeKey (addQueryParams u.Query qp1)) []
        ∧ List.Pairwise keyLE (sortKeys ((addQueryParams u.Query qp1).map Prod.fst))
        ∧ ∀ (key : GoString),
            Values.lookup (addQueryParams u.Query qp1) key
              = Values.lookup u.Query key ++ Values.lookup qp1 key
            ∧ Values.lookup (addQueryParams u.Query qp2) key
              = Values.lookup u.Query key ++ Values.lookup qp1 key := by
  have henc : ∀ u : URL, Values.Encode (addQueryParams u.Query qp1)
      = Values.Encode (addQueryParams u.Query qp2) :=
    fun u => Encode_addQueryParams_perm u.Query (Query_nodup u) hp hn
  constructor
  · unfold Client.Call
    cases encodeBody env body with
    | error e => rfl
    | ok buf =>
      cases URL.Parse c.baseURL (bytes "v1" ++ path) with
      | fault msg => rfl
      | done res =>
        cases res with
        | error e => rfl
        | ok u => simp only [henc u]
  · intro u
    refine ⟨henc u, Encode_eq_fold _, ?_, ?_⟩
    · rw [sortKeys_eq]
      exact List.sorted_insertionSort keyLE _
    · intro key
      constructor
      · rw [lookup_addQueryParams, supplied_eq_lookup qp1 key hn]
      · rw [lookup_addQueryParams, ← supplied_perm hp hn, supplied_eq_lookup qp1 key hn]

/-- C10 for the map with the keys `page` and `a`, visited in either order, on a
path that brings its own `a`. -/
theorem Call_query_order_independent_witness :
    (([(bytes "page", [bytes "2"]), (bytes "a", [bytes "x", bytes "y"])] : Values).Perm
        [(bytes "a", [bytes "x", bytes "y"]), (bytes "page", [bytes "2"])]
      ∧ (([(bytes "page", [bytes "2"]), (bytes "a", [bytes "x", bytes "y"])] : Values).map
          Prod.fst).Nodup)
    ∧ exampleClient.Call (exampleEnv ⟨200, [], bytes "[]", none⟩) (bytes "GET") (bytes "/customers?a=0")
        [(bytes "page", [bytes "2"]), (bytes "a", [bytes "x", bytes "y"])] none []
      = exampleClient.Call (exampleEnv ⟨200, [], bytes "[]", none⟩) (bytes "GET") (bytes "/customers?a=0")
        [(bytes "a", [bytes "x", bytes "y"]), (bytes "page", [bytes "2"])] none [] :=
  ⟨⟨List.Perm.swap _ _ _, by decide⟩,
   (Call_query_order_independent (exampleEnv ⟨200, [], bytes "[]", none⟩) exampleClient (bytes "GET")
     (bytes "/customers?a=0") _ _ none [] (List.Perm.swap _ _ _) (by decide)).1⟩

/-! ## Further properties of `Call` -/

/-- A body that does not encode: `Call` returns the encoder's error, sends
nothing and leaves the container as it was. -/
theorem Call_marshal_error {β σ : Type} (env : Env β σ) (c : Client) (method path : GoString)
    (queryParams : Values) (b : β) (v : σ) (err : Error) (h : env.marshal b = .error err) :
    (c.Call env method path queryParams (some b) v).outcome = .done (some err, v)
    ∧ (c.Call env method path queryParams (some b) v).sent = [] := by
  simp [Client.Call, encodeBody, h]

/-- A body that does not encode, on an environment whose encoder always fails. -/
theorem Call_marshal_error_witness :
    (exampleClient.Call
        { exampleEnv ⟨200, [], bytes "[]", none⟩ with marshal := fun _ => .error (.external 1) }
        (bytes "POST") (bytes "/customers") [] (some ()) (bytes "unchanged")).outcome
      = .done (some (.external 1), bytes "unchanged") :=
  (Call_marshal_error
    { exampleEnv ⟨200, [], bytes "[]", none⟩ with marshal := fun _ => .error (.external 1) }
    exampleClient (bytes "POST") (bytes "/customers") [] () (bytes "unchanged")
    (.external 1) rfl).1

/-- A path that `net/url` cannot parse: `Call` returns the parse error, sends
nothing and leaves the container as it was. -/
theorem Call_parse_error {β σ : Type} (env : Env β σ) (c : Client) (method path : GoString)
    (queryParams : Values) (body : Option β) (v : σ) (buf : Option GoString) (err : Error)
    (hb : encodeBody env body = .ok buf) (h : Parse (bytes "v1" ++ path) = .error err) :
    (c.Call env method path queryParams body v).outcome = .done (some err, v)
    ∧ (c.Call env method path queryParams body v).sent = [] := by
  simp [Client.Call, hb, URL.Parse, h]

/-- The path `/a%zz`, whose escape is malformed. -/
theorem Call_parse_error_witness :
    (exampleClient.Call (exampleEnv ⟨200, [], bytes "[]", none⟩) (bytes "GET") (bytes "/a%zz") []
        none (bytes "unchanged")).outcome
      = .done (some (.url "parse" (.text "invalid URL escape")), bytes "unchanged") :=
  (Call_parse_error (exampleEnv ⟨200, [], bytes "[]", none⟩) exampleClient (bytes "GET")
    (bytes "/a%zz") [] none (bytes "unchanged") none _ rfl (by decide)).1

/-- A failed round trip is the last of the call: `Call` returns the error of the
transport, wrapped in the `*url.Error` of `http.Client` (and marked as a timeout
when the client's `Timeout` had run out), and leaves the container as it was. -/
theorem Call_transport_error {β σ : Type} (env : Env β σ) (c : Client) (method path : GoString)
    (queryParams : Values) (body : Option β) (v : σ) (err : Error) (k : Nat) (r : Request)
    (hr : (c.Call env method path queryParams body v).sent[k]? = some r)
    (h : env.originalTransport k r = .error err) :
    (∃ hc op url, c.c = some hc ∧ (c.Call env method path queryParams body v).outcome
      = .done (some (.client op url
          (if hc.Timeout ≠ 0 ∧ env.didTimeout k then .timeout err else err)), v))
    ∧ (c.Call env method path queryParams body v).sent.length = k + 1 :=
  (Call_answer env c method path queryParams body v k r hr).2 err h

/-- A transport that refuses every request: `GET /customers` ends with the
`*url.Error` for `Get "https://sandbox.api.maplerad.com/v1/customers"`. -/
theorem Call_transport_error_witness :
    (exampleClient.Call
        { exampleEnv ⟨200, [], bytes "[]", none⟩ with
          originalTransport := fun _ _ => .error (.external 7) }
        (bytes "GET") (bytes "/customers") [] none (bytes "unchanged")).outcome
      = .done (some (.client (bytes "Get") (bytes "https://sandbox.api.maplerad.com/v1/customers")
          (.external 7)), bytes "unchanged")
    ∧ ∀ r, (exampleClient.Call
        { exampleEnv ⟨200, [], bytes "[]", none⟩ with
          originalTransport := fun _ _ => .error (.external 7) }
        (bytes "GET") (bytes "/customers") [] none (bytes "unchanged")).sent[0]? = some r →
      (exampleClient.Call
        { exampleEnv ⟨200, [], bytes "[]", none⟩ with
          originalTransport := fun _ _ => .error (.external 7) }
        (bytes "GET") (bytes "/customers") [] none (bytes "unchanged")).sent.length = 0 + 1 :=
  ⟨by decide!,
   fun r hr => (Call_transport_error
     { exampleEnv ⟨200, [], bytes "[]", none⟩ with
       originalTransport := fun _ _ => .error (.external 7) }
     exampleClient (bytes "GET") (bytes "/customers") [] none (bytes "unchanged") (.external 7)
     0 r hr rfl).2⟩

/-- `decodeResponse` never looks at the error `io.ReadAll` reports: it decodes
the bytes that were read. -/
theorem decodeResponse_ignores_read_error {β σ : Type} (env : Env β σ) (c : Client)
    (httpResp : Response) (v : σ) (e : Option Error) :
    c.decodeResponse env { httpResp with ReadErr := e } v = c.decodeResponse env httpResp v := by
  rfl

/-- `GetInstitutions` on the client for `sk_test` sends one request: a `POST`
without body to `https://sandbox.api.maplerad.com/v1/institutions`. -/
theorem GetInstitutions_request :
    (exampleClient.Institutions.GetInstitutions (exampleEnv ⟨200, [], bytes "[]", none⟩)
        ([] : GoString)).sent.map (fun r => (r.Method, r.URL.String, r.Body))
      = [(bytes "POST", bytes "https://sandbox.api.maplerad.com/v1/institutions", none)] := by
  decide!

/-- Paths `net/url` rewrites. A query string in the path is merged with
`queryParams`, a fragment stays behind the query, a space is escaped and a colon
before the first slash makes a scheme: the URL of the request is then not the
base, `/v1`, the path and the encoded query. -/
theorem Call_url_rewritten :
    ((exampleClient.Call (exampleEnv ⟨200, [], bytes "[]", none⟩) (bytes "GET")
        (bytes "/customers?page=1") [(bytes "a", [bytes "b"])] none []).sent.map
          (fun r => r.URL.String)
      = [bytes "https://sandbox.api.maplerad.com/v1/customers?a=b&page=1"])
    ∧ ((exampleClient.Call (exampleEnv ⟨200, [], bytes "[]", none⟩) (bytes "GET")
        (bytes "/customers#top") [(bytes "a", [bytes "b"])] none []).sent.map
          (fun r => r.URL.String)
      = [bytes "https://sandbox.api.maplerad.com/v1/customers?a=b#top"])
    ∧ ((exampleClient.Call (exampleEnv ⟨200, [], bytes "[]", none⟩) (bytes "GET")
        (bytes "/a b") [] none []).sent.map (fun r => r.URL.String)
      = [bytes "https://sandbox.api.maplerad.com/v1/a%20b"])
    ∧ ((exampleClient.Call (exampleEnv ⟨200, [], bytes "[]", none⟩) (bytes "GET")
        (bytes "a:b") [] none []).sent.map (fun r => r.URL.String)
      = [bytes "v1a:b"]) := by
  decide!

/-- With no query parameters the URL of the request ends with the path: no
question mark follows it. -/
theorem Call_url_without_query :
    (exampleClient.Call (exampleEnv ⟨200, [], bytes "[]", none⟩) (bytes "POST")
        (bytes "/institutions") [] none []).sent.map (fun r => r.URL.String)
      = [bytes "https://sandbox.api.maplerad.com/v1/institutions"] := by
  decide!

/-- A redirect is followed. `POST /transfers` with a body, answered by a 302 to
`/v1/moved`, is followed by a `GET` without body to
`https://sandbox.api.maplerad.com/v1/moved`; both requests carry the bearer
authorization, and the container holds what the second answer decodes to. -/
theorem Call_follows_redirect :
    (exampleClient.Call
        (pairEnv (fun n =>
          if n = 0 then ⟨302, [(bytes "Location", [bytes "/v1/moved"])], [], none⟩
          else ⟨200, [], bytes "[true,true]", none⟩))
        (bytes "POST") (bytes "/transfers") [] (some ()) (false, false)).sent.map
        (fun r => (r.Method, r.URL.String, r.Body, r.Header.Values (bytes "Authorization")))
      = [(bytes "POST", bytes "https://sandbox.api.maplerad.com/v1/transfers",
            some (bytes "\x7b\x7d\n"), [bytes "Bearer sk_test"]),
         (bytes "GET", bytes "https://sandbox.api.maplerad.com/v1/moved", none,
            [bytes "Bearer sk_test"])]
    ∧ (exampleClient.Call
        (pairEnv (fun n =>
          if n = 0 then ⟨302, [(bytes "Location", [bytes "/v1/moved"])], [], none⟩
          else ⟨200, [], bytes "[true,true]", none⟩))
        (bytes "POST") (bytes "/transfers") [] (some ()) (false, false)).outcome
      = .done (none, (true, true)) := by
  decide!

/-- A call sends ten requests at most: `http.Client` stops after ten redirects. -/
theorem Call_sent_le {β σ : Type} (env : Env β σ) (c : Client) (method path : GoString)
    (queryParams : Values) (body : Option β) (v : σ) :
    (c.Call env method path queryParams body v).sent.length ≤ 10 := by
  rcases Call_cases env c method path queryParams body v with h | ⟨hc, req, _, _, h⟩
  · rw [h]; simp
  · rw [h, finish_sent]
    exact (Do_returns env hc req).2

/-- A server that redirects for ever: the tenth request is the last, and `Call`
returns the error `stopped after 10 redirects`. -/
theorem Call_stops_after_ten :
    (exampleClient.Call
        (pairEnv (fun _ => ⟨302, [(bytes "Location", [bytes "/v1/again"])], [], none⟩))
        (bytes "GET") (bytes "/customers") [] none (false, false)).sent.length = 10
    ∧ (exampleClient.Call
        (pairEnv (fun _ => ⟨302, [(bytes "Location", [bytes "/v1/again"])], [], none⟩))
        (bytes "GET") (bytes "/customers") [] none (false, false)).outcome
      = .done (some (.client (bytes "Get") (bytes "/v1/again")
          (.text "stopped after 10 redirects")), (false, false)) := by
  decide!

/-- On the sample paths the formula of C4 holds, both without parameters and
with the parameter `k=v`, for the paths that `net/url` keeps as written and for
no other. -/
theorem verbatimPath_samples :
    ∀ p ∈ samplePaths,
      (formulaHolds p [] && formulaHolds p [(bytes "k", [bytes "v"])]) = verbatimPath p := by
  decide!

/-- A response that is a redirect to follow is never what `Call` decodes: when
the server gives one, another request follows it or `Call` returns an error. -/
theorem Call_redirect_goes_on {β σ : Type} (env : Env β σ) (c : Client)
    (method path : GoString) (queryParams : Values) (body : Option β) (v : σ) (k : Nat)
    (r : Request) (resp : Response)
    (hk : (c.Call env method path queryParams body v).sent[k]? = some r)
    (ht : env.originalTransport k r = .ok resp) (hr : redirects resp = true) :
    k + 1 < (c.Call env method path queryParams body v).sent.length
    ∨ ∃ e, (c.Call env method path queryParams body v).outcome = .done (some e, v) := by
  rcases Call_cases env c method path queryParams body v with h | ⟨hc, req, hcc, hg, h⟩
  · rw [h] at hk; simp at hk
  · rw [h, finish_sent] at hk ⊢
    have hd := doLoop_redirect env hc req req.Header hg 10 0 req k r resp (by omega) hk
      (by rw [Nat.zero_add]; exact ht) hr
    rcases hd with hd | ⟨x, e, hd⟩
    · exact Or.inl hd
    · exact Or.inr ⟨e, finish_of_err env c _ v x e hd⟩

/-- A 307 with a `Location`, in answer to a `POST` with a body: the same `POST`
with the same body goes to the new location. -/
theorem Call_redirect_goes_on_witness :
    (redirects ⟨307, [(bytes "Location", [bytes "/v1/moved"])], [], none⟩ = true
      ∧ ((exampleClient.Call
          (pairEnv (fun n =>
            if n = 0 then ⟨307, [(bytes "Location", [bytes "/v1/moved"])], [], none⟩
            else ⟨200, [], bytes "[true,true]", none⟩))
          (bytes "POST") (bytes "/transfers") [] (some ()) (false, false)).sent.map
          (fun r => (r.Method, r.URL.String, r.Body))
        = [(bytes "POST", bytes "https://sandbox.api.maplerad.com/v1/transfers",
              some (bytes "\x7b\x7d\n")),
           (bytes "POST", bytes "https://sandbox.api.maplerad.com/v1/moved",
              some (bytes "\x7b\x7d\n"))]))
    ∧ ∀ r, (exampleClient.Call
          (pairEnv (fun n =>
            if n = 0 then ⟨307, [(bytes "Location", [bytes "/v1/moved"])], [], none⟩
            else ⟨200, [], bytes "[true,true]", none⟩))
          (bytes "POST") (bytes "/transfers") [] (some ()) (false, false)).sent[0]? = some r →
        (0 + 1 < (exampleClient.Call
          (pairEnv (fun n =>
            if n = 0 then ⟨307, [(bytes "Location", [bytes "/v1/moved"])], [], none⟩
            else ⟨200, [], bytes "[true,true]", none⟩))
          (bytes "POST") (bytes "/transfers") [] (some ()) (false, false)).sent.length
        ∨ ∃ e, (exampleClient.Call
          (pairEnv (fun n =>
            if n = 0 then ⟨307, [(bytes "Location", [bytes "/v1/moved"])], [], none⟩
            else ⟨200, [], bytes "[true,true]", none⟩))
          (bytes "POST") (bytes "/transfers") [] (some ()) (false, false)).outcome
            = .done (some e, (false, false))) :=
  ⟨⟨by decide, by decide!⟩,
   fun r hr => Call_redirect_goes_on
     (pairEnv (fun n =>
       if n = 0 then ⟨307, [(bytes "Location", [bytes "/v1/moved"])], [], none⟩
       else ⟨200, [], bytes "[true,true]", none⟩))
     exampleClient (bytes "POST") (bytes "/transfers") [] (some ()) (false, false) 0 r
     ⟨307, [(bytes "Location", [bytes "/v1/moved"])], [], none⟩ hr rfl (by decide)⟩

end Maplerad
